import Mathlib

/-!
# Sales CRM (local-crm): queue resolver, prospect pipeline, call logging, CSV import

A shallow embedding of the data pipeline of `src/app.js` (class `SalesCRM`):
the call-queue resolver `getQueueLeads`, the prospect pipeline
(`saveProspectReview`, `finalizeProspects`, the bulk transitions, the CSV and
scraper imports), call logging (`saveCallNotes`, `saveCallCompletion`), the call
mode session (`enterCallMode` and the cursor moves), the leads CSV import and
export (`parseCSV`, `exportCSV`) with the line parser `parseCSVLine`, the lead form
(`saveLead`), the view filter (`filterLeads`) and the phone formats
(`formatPhoneNumber`, and `normalizePhones` of `src/content-script.js`).

Conventions of the embedding.

* A JavaScript string is a Lean `String`.  The relational operator `<` on two
  JavaScript strings compares UTF-16 code units, which `jsStrLt` reproduces.
* An optional string property (`null`, `undefined` or a string) is an
  `Option String`; `falsy` is the JavaScript `!x` on it.
* Time values are integers (milliseconds since the epoch), as `Date.now()`
  returns them.  `toISOString` follows the ECMAScript definition of
  `Date.prototype.toISOString` and is `none` where the original throws a
  `RangeError` (invalid time value).  The host's parser behind `new Date(s)` is a
  parameter `parseDate`.
* IndexedDB is a record of the slots the program uses.  A store request is taken
  on its success path, unless the operation takes the answer of the store as an
  argument (`addLead`, `parseCSV`, `saveCallCompletion`).
* Clock readings, random draws, generated keys and dialog answers are arguments;
  so are the values of the form and filter controls, the matches of a regular
  expression and the Unicode lower-casing `toLowerCase` of the view filter.
* A random draw is a double; the product `Math.random() * length` is rounded as the
  double multiplication rounds it (`toDouble`).
-/

namespace SalesCRM

/-! ## JavaScript strings -/

/-- UTF-16 code units of one code point. -/
def utf16Units (c : Char) : List Nat :=
  if c.toNat < 0x10000 then [c.toNat]
  else [0xD800 + (c.toNat - 0x10000) / 0x400, 0xDC00 + (c.toNat - 0x10000) % 0x400]

/-- UTF-16 code units of a list of code points. -/
def charsUnits (l : List Char) : List Nat :=
  l.flatMap utf16Units

/-- UTF-16 code units of a string, the sequence JavaScript compares. -/
def jsUnits (s : String) : List Nat :=
  charsUnits s.toList

/-- Lexicographic comparison of two code-unit sequences (a proper prefix is smaller). -/
def unitsLt : List Nat → List Nat → Bool
  | [], [] => false
  | [], _ :: _ => true
  | _ :: _, [] => false
  | a :: as, b :: bs => if a < b then true else if b < a then false else unitsLt as bs

/-- JavaScript `a < b` on two strings. -/
def jsStrLt (a b : String) : Bool :=
  unitsLt (jsUnits a) (jsUnits b)

/-- JavaScript `!x` for a value that is `null`/`undefined` or a string. -/
def falsy : Option String → Bool
  | none => true
  | some s => s == ""

/-- JavaScript `a || b` on two optional strings. -/
def jsOr (a b : Option String) : Option String :=
  if falsy a then b else a

/-! ## Dates (ECMAScript time values) -/

/-- Milliseconds per day. -/
def msPerDay : Int := 86400000

/-- Largest magnitude of a valid time value (`TimeClip`). -/
def maxTimeValue : Int := 8640000000000000

/-- ECMAScript `DayFromYear`: the day number of 1 January of year `y`. -/
def dayFromYear (y : Int) : Int :=
  365 * (y - 1970) + (y - 1969) / 4 - (y - 1901) / 100 + (y - 1601) / 400

/-- ECMAScript `YearFromTime` on a day number: the year containing day `d`. -/
def yearFromDay (d : Int) : Int :=
  let y := 1970 + (d * 400) / 146097
  if dayFromYear (y + 1) ≤ d then y + 1
  else if dayFromYear y ≤ d then y
  else y - 1

/-- ECMAScript `InLeapYear`, as 0 or 1. -/
def inLeapYear (y : Int) : Int :=
  if y % 4 ≠ 0 then 0 else if y % 100 ≠ 0 then 1 else if y % 400 ≠ 0 then 0 else 1

/-- ECMAScript `MonthFromTime` (0 = January) from the day within the year. -/
def monthFromDay (dwy leap : Int) : Int :=
  if dwy < 31 then 0
  else if dwy < 59 + leap then 1
  else if dwy < 90 + leap then 2
  else if dwy < 120 + leap then 3
  else if dwy < 151 + leap then 4
  else if dwy < 181 + leap then 5
  else if dwy < 212 + leap then 6
  else if dwy < 243 + leap then 7
  else if dwy < 273 + leap then 8
  else if dwy < 304 + leap then 9
  else if dwy < 334 + leap then 10
  else 11

/-- ECMAScript `DateFromTime` (day of the month, from 1): the day within the year
less the days before the month `monthFromDay` selects. -/
def dateFromDay (dwy leap : Int) : Int :=
  if dwy < 31 then dwy + 1
  else if dwy < 59 + leap then dwy - 30
  else if dwy < 90 + leap then dwy - 58 - leap
  else if dwy < 120 + leap then dwy - 89 - leap
  else if dwy < 151 + leap then dwy - 119 - leap
  else if dwy < 181 + leap then dwy - 150 - leap
  else if dwy < 212 + leap then dwy - 180 - leap
  else if dwy < 243 + leap then dwy - 211 - leap
  else if dwy < 273 + leap then dwy - 242 - leap
  else if dwy < 304 + leap then dwy - 272 - leap
  else if dwy < 334 + leap then dwy - 303 - leap
  else dwy - 333 - leap

/-- The broken-down UTC fields of a time value. -/
structure DateFields where
  year : Int
  month : Int
  date : Int
  hour : Int
  minute : Int
  second : Int
  milli : Int
  deriving DecidableEq, Repr

/-- UTC fields of time value `t`. -/
def dateFields (t : Int) : DateFields :=
  let d := t / msPerDay
  let r := t % msPerDay
  let y := yearFromDay d
  let dwy := d - dayFromYear y
  let leap := inLeapYear y
  { year := y
    month := monthFromDay dwy leap + 1
    date := dateFromDay dwy leap
    hour := r / 3600000
    minute := r / 60000 % 60
    second := r / 1000 % 60
    milli := r % 1000 }

/-- The `w` low decimal digits of `n`, most significant first. -/
def padDigits : Nat → Nat → List Char
  | 0, _ => []
  | w + 1, n => padDigits w (n / 10) ++ [Nat.digitChar (n % 10)]

/-- The year part of the ISO format: four digits for 0..9999, else a sign and six digits. -/
def isoYear (y : Int) : List Char :=
  if 0 ≤ y ∧ y ≤ 9999 then padDigits 4 y.toNat
  else (if y < 0 then '-' else '+') :: padDigits 6 y.natAbs

/-- The characters of `YYYY-MM-DDTHH:mm:ss.sssZ` for the given fields. -/
def isoChars (f : DateFields) : List Char :=
  isoYear f.year ++ '-' :: padDigits 2 f.month.toNat ++ '-' :: padDigits 2 f.date.toNat
    ++ 'T' :: padDigits 2 f.hour.toNat ++ ':' :: padDigits 2 f.minute.toNat
    ++ ':' :: padDigits 2 f.second.toNat ++ '.' :: padDigits 3 f.milli.toNat ++ ['Z']

/-- JavaScript `new Date(t).toISOString()`: `none` stands for the `RangeError` thrown on an
invalid date (`t` outside the time-value range). -/
def toISOString (t : Int) : Option String :=
  if t < -maxTimeValue ∨ maxTimeValue < t then none
  else some (String.mk (isoChars (dateFields t)))

/-! ### Auxiliary notions for reasoning about the ISO format -/

/-- Code units of the `w` low decimal digits of `n`. -/
def padUnits : Nat → Nat → List Nat
  | 0, _ => []
  | w + 1, n => padUnits w (n / 10) ++ [48 + n % 10]

/-- Month and day of month as one number `MMDD`. -/
def monthDateKey (dwy leap : Int) : Int :=
  (monthFromDay dwy leap + 1) * 100 + dateFromDay dwy leap

/-- The digits `YYYYMMDDHHmmssSSS` of the fields read as one number. -/
def isoKey (f : DateFields) : Int :=
  (((((f.year * 100 + f.month) * 100 + f.date) * 100 + f.hour) * 100 + f.minute) * 100
    + f.second) * 1000 + f.milli

/-- Every field fits the width the ISO format prints it with. -/
def DateFields.InRange (f : DateFields) : Prop :=
  1 ≤ f.month ∧ f.month ≤ 12 ∧ 1 ≤ f.date ∧ f.date ≤ 31 ∧ 0 ≤ f.hour ∧ f.hour ≤ 23 ∧
    0 ≤ f.minute ∧ f.minute ≤ 59 ∧ 0 ≤ f.second ∧ f.second ≤ 59 ∧ 0 ≤ f.milli ∧ f.milli ≤ 999

/-- Time values whose year prints with four digits: `0000-01-01T00:00:00.000Z` up to
`9999-12-31T23:59:59.999Z`. -/
def FourDigitYear (t : Int) : Prop :=
  -62167219200000 ≤ t ∧ t ≤ 253402300799999

instance (t : Int) : Decidable (FourDigitYear t) := by
  unfold FourDigitYear
  infer_instance

/-! ## Records -/

/-- The `meetingData` object that `saveCallNotes` attaches to a lead. -/
structure MeetingData where
  date : String
  time : String
  notes : String
  googleCalendarLink : String
  status : String
  createdAt : String
  deriving DecidableEq, Repr

/-- A lead record.  `id` is the key the `leads` object store assigns; the other
properties are strings that may be absent. -/
structure Lead where
  id : Option Nat := none
  company : Option String := none
  contact : Option String := none
  email : Option String := none
  phone : Option String := none
  industry : Option String := none
  state : Option String := none
  website : Option String := none
  notes : Option String := none
  comments : Option String := none
  dateAdded : Option String := none
  lastCalled : Option String := none
  callOutcome : Option String := none
  callNotes : Option String := none
  meetingData : Option MeetingData := none
  deriving DecidableEq, Repr

/-- A custom queue record of the `customQueues` object store. -/
structure CustomQueue where
  id : Nat
  name : String := ""
  description : String := ""
  leadIds : List Nat := []
  createdAt : String := ""
  deriving DecidableEq, Repr

/-- The value of `this.currentQueue`: the sentinel `'default'` or the id of a custom queue. -/
inductive QueueSel where
  | default
  | custom (id : Nat)
  deriving DecidableEq, Repr

/-- The configuration record.  `callQueueDays` is what `parseInt` produced from the
settings field: an integer, or `none` for `NaN`. -/
structure Config where
  callQueueDays : Option Int := some 7
  deriving DecidableEq, Repr

/-- The fields of the application object that the queue resolver reads. -/
structure App where
  config : Config := {}
  currentQueue : QueueSel := QueueSel.default
  customQueues : List CustomQueue := []
  deriving DecidableEq, Repr

/-! ## Queue resolver -/

/-- The string `new Date(Date.now() - callQueueDays * 24 * 60 * 60 * 1000).toISOString()`,
or `none` where that expression throws.  For an integer `callQueueDays` and a clock
reading of magnitude below 3.6e14 ms the double-precision arithmetic of the original is
exact whenever its result is a valid time value, and yields an invalid one otherwise, so
integer arithmetic followed by the range test of `toISOString` computes the same. -/
def queueThreshold (cfg : Config) (now : Int) : Option String :=
  match cfg.callQueueDays with
  | none => none
  | some days => toISOString (now - days * 24 * 60 * 60 * 1000)

/-- The filter callback of the default queue: `!lead.lastCalled || lead.lastCalled < threshold`. -/
def defaultQueuePred (threshold : String) (lead : Lead) : Bool :=
  falsy lead.lastCalled ||
    (match lead.lastCalled with
     | some s => jsStrLt s threshold
     | none => false)

/-- The callback `customQueue.leadIds.includes(lead.id)`. -/
def includesLeadId (leadIds : List Nat) (lead : Lead) : Bool :=
  match lead.id with
  | some i => leadIds.contains i
  | none => false

/-- JavaScript `getQueueLeads(leads)` at clock reading `now`.  An exception inside the
`try` block is caught and answered with the empty array.  The guards on
`Array.isArray(leads)` and `Array.isArray(customQueue.leadIds)` concern values that the
types here exclude.  `find` with `q.id == this.currentQueue` takes the first queue whose
id is the selected one. -/
def getQueueLeads (app : App) (now : Int) (leads : List Lead) : List Lead :=
  match app.currentQueue with
  | QueueSel.default =>
    match queueThreshold app.config now with
    | none => []
    | some threshold => leads.filter (defaultQueuePred threshold)
  | QueueSel.custom qid =>
    match app.customQueues.find? (fun q => q.id == qid) with
    | none => []
    | some customQueue => leads.filter (includesLeadId customQueue.leadIds)

/-! ## Worked example of the queue resolver -/

/-- Three leads: never called, called on 1 June 2024, called on 9 June 2024. -/
def exampleLeads : List Lead :=
  [{ id := some 1, company := some "Acme" },
   { id := some 2, company := some "Bolt", lastCalled := some "2024-06-01T00:00:00.000Z" },
   { id := some 3, company := some "Cogs", lastCalled := some "2024-06-09T00:00:00.000Z" }]

/-- The instants of the last calls of the leads of `exampleLeads`. -/
def exampleCalledAt (l : Lead) : Option Int :=
  if l.id = some 2 then some 1717200000000
  else if l.id = some 3 then some 1717891200000
  else none

/-- A custom queue naming lead 3, a lead 9 that does not exist, and lead 1. -/
def exampleQueue : CustomQueue :=
  { id := 5, name := "West", leadIds := [3, 9, 1] }

/-- An application state whose active queue is `exampleQueue`. -/
def exampleQueueApp : App :=
  { currentQueue := QueueSel.custom 5, customQueues := [exampleQueue] }

/-! ## Prospects and the database -/

/-- A prospect record.  `id` is `Date.now() + Math.random()`, a number on which the
program only uses `===`, `includes` and truthiness; the natural numbers carry it, 0 being
the falsy value. -/
structure Prospect where
  id : Nat
  stage : String
  company : Option String := none
  website : Option String := none
  state : Option String := none
  service : Option String := none
  industry : Option String := none
  revenue : Option String := none
  employees : Option String := none
  contact : Option String := none
  email : Option String := none
  phone : Option String := none
  notes : Option String := none
  decision : Option String := none
  dateAdded : Option String := none
  source : Option String := none
  status : Option String := none
  reason : Option String := none
  queue : Option String := none
  deriving DecidableEq, Repr

/-- A call log record, as `saveCallCompletion` builds it. -/
structure CallLog where
  id : String
  leadId : Option Nat
  leadName : Option String
  outcome : String
  notes : String
  followUpDate : Option String
  nextAction : String
  timestamp : String
  duration : Nat := 0
  deriving DecidableEq, Repr

/-- The IndexedDB database, as the slots the pipeline uses: the `leads` object store
(read by `getAllLeads`, in key order) and, in the `config` object store, the values kept
under the keys `'prospects'`, `'leads'` and `'callLogs'` by `saveToStorage` (`none`: no
record under the key); `callLogs` is the array `this.db.callLogs` kept on the database
object, which `getCallLogs` reads. -/
structure Db where
  leads : List Lead := []
  kvProspects : Option (List Prospect) := none
  kvLeads : Option (List Lead) := none
  callLogs : List CallLog := []
  kvCallLogs : Option (List CallLog) := none
  deriving DecidableEq, Repr

/-- JavaScript `getAllLeads()`: all records of the `leads` object store. -/
def getAllLeads (db : Db) : List Lead :=
  db.leads

/-- JavaScript `getProspects()`: `getFromStorage('prospects') || []`. -/
def getProspects (db : Db) : List Prospect :=
  db.kvProspects.getD []

/-- The three counts `updateProspectingPipeline` displays. -/
structure PipelineCounts where
  unreviewed : Nat
  finalized : Nat
  unqualified : Nat
  deriving DecidableEq, Repr

/-- JavaScript `updateProspectingPipeline(prospects)`: the numbers written to the three
counters. -/
def updateProspectingPipeline (prospects : List Prospect) : PipelineCounts :=
  { unreviewed := (prospects.filter (fun p => p.stage == "unreviewed")).length
    finalized := (prospects.filter (fun p => p.stage == "finalized")).length
    unqualified := (prospects.filter (fun p => p.stage == "unqualified")).length }

/-! ## Review and promotion -/

/-- The values of the review form that `saveProspectReview` reads. -/
structure ReviewForm where
  contact : String := ""
  email : String := ""
  phone : String := ""
  industry : String := ""
  notes : String := ""
  decision : String := ""
  deriving DecidableEq, Repr

/-- The assignments `saveProspectReview` makes to the prospect it found. -/
def applyReview (form : ReviewForm) (p : Prospect) : Prospect :=
  { p with
    contact := some form.contact
    email := some form.email
    phone := some form.phone
    industry := some form.industry
    notes := some form.notes
    decision := some form.decision
    stage :=
      if form.decision = "approve" then "finalized"
      else if form.decision = "reject" then "unqualified"
      else p.stage }

/-- JavaScript `saveProspectReview()` with `this.currentProspectId = current` and the
form values `form`.  Nothing is written when the id is falsy or no prospect carries it. -/
def saveProspectReview (db : Db) (current : Option Nat) (form : ReviewForm) : Db :=
  match current with
  | none => db
  | some cid =>
    if cid = 0 then db
    else
      let prospects := getProspects db
      match prospects.findIdx? (fun p => p.id == cid) with
      | none => db
      | some prospectIndex =>
        { db with kvProspects := some (prospects.modify (applyReview form) prospectIndex) }

/-- The lead record `finalizeProspects` builds from one prospect; `now` is the value of
`new Date().toISOString()` at that point. -/
def leadOfProspect (now : String) (prospect : Prospect) : Lead :=
  { company := prospect.company
    website := prospect.website
    state := prospect.state
    industry := jsOr prospect.industry prospect.service
    contact := prospect.contact
    email := prospect.email
    phone := prospect.phone
    notes := prospect.notes
    lastCalled := none
    callOutcome := none
    callNotes := some ""
    dateAdded := some now }

/-- The `map` of `finalizeProspects`: one lead per prospect, the `i`-th reading of the
clock stamping the `i`-th record. -/
def newLeadsFrom (clock : Nat → String) : Nat → List Prospect → List Lead
  | _, [] => []
  | i, prospect :: rest => leadOfProspect (clock i) prospect :: newLeadsFrom clock (i + 1) rest

/-- The array `newLeads` of `finalizeProspects`. -/
def newLeadsOf (clock : Nat → String) (prospects : List Prospect) : List Lead :=
  newLeadsFrom clock 0 (prospects.filter (fun p => p.stage == "finalized"))

/-- JavaScript `finalizeProspects()`.  The new leads are appended to the array kept
under the key `'leads'` of the `config` store (`getFromStorage('leads')`,
`saveToStorage('leads', ...)`); the `leads` object store is not written. -/
def finalizeProspects (db : Db) (clock : Nat → String) : Db :=
  let prospects := getProspects db
  let finalizedProspects := prospects.filter (fun p => p.stage == "finalized")
  if finalizedProspects.length = 0 then db
  else
    let leads := db.kvLeads.getD []
    let newLeads := newLeadsFrom clock 0 finalizedProspects
    { db with
      kvLeads := some (leads ++ newLeads)
      kvProspects := some (prospects.filter (fun p => p.stage != "finalized")) }

/-! ## Deletion and bulk transitions -/

/-- JavaScript `deleteProspect(prospectId)`; `confirmed` is the answer of the `confirm`
dialog. -/
def deleteProspect (db : Db) (prospectId : Nat) (confirmed : Bool) : Db :=
  if confirmed then
    { db with kvProspects := some ((getProspects db).filter (fun p => p.id != prospectId)) }
  else db

/-- JavaScript `deleteAllProspects()`; `confirmed` is the answer of the `confirm`
dialog. -/
def deleteAllProspects (db : Db) (confirmed : Bool) : Db :=
  if (getProspects db).length = 0 then db
  else if confirmed then { db with kvProspects := some [] }
  else db

/-- The body of the `forEach` of `bulkApproveProspects`. -/
def approveIfSelected (selectedIds : List Nat) (prospect : Prospect) : Prospect :=
  if selectedIds.contains prospect.id then
    { prospect with stage := "finalized", decision := some "approve" }
  else prospect

/-- The body of the `forEach` of `bulkRejectProspects`. -/
def rejectIfSelected (selectedIds : List Nat) (prospect : Prospect) : Prospect :=
  if selectedIds.contains prospect.id then
    { prospect with stage := "unqualified", decision := some "reject" }
  else prospect

/-- JavaScript `bulkApproveProspects()`, `selectedIds` being the ids of the checked boxes. -/
def bulkApproveProspects (db : Db) (selectedIds : List Nat) : Db :=
  if selectedIds.length = 0 then db
  else { db with kvProspects := some ((getProspects db).map (approveIfSelected selectedIds)) }

/-- JavaScript `bulkRejectProspects()`, `selectedIds` being the ids of the checked boxes. -/
def bulkRejectProspects (db : Db) (selectedIds : List Nat) : Db :=
  if selectedIds.length = 0 then db
  else { db with kvProspects := some ((getProspects db).map (rejectIfSelected selectedIds)) }

/-- JavaScript `bulkDeleteProspects()`, `selectedIds` being the ids of the checked boxes and
`confirmed` the answer of the `confirm` dialog. -/
def bulkDeleteProspects (db : Db) (selectedIds : List Nat) (confirmed : Bool) : Db :=
  if selectedIds.length = 0 then db
  else if confirmed then
    { db with
      kvProspects := some ((getProspects db).filter (fun p => !selectedIds.contains p.id)) }
  else db

/-! ## Prospect CSV import -/

/-- The characters `String.prototype.trim` strips and the class `\s` of a regular
expression matches: ECMAScript white space and line terminators. -/
def isJsWhitespace (c : Char) : Bool :=
  [0x9, 0xA, 0xB, 0xC, 0xD, 0x20, 0xA0, 0x1680, 0x2028, 0x2029, 0x202F, 0x205F, 0x3000,
    0xFEFF].contains c.toNat || (0x2000 ≤ c.toNat && c.toNat ≤ 0x200A)

/-- JavaScript `String.prototype.trim` on the characters of a string. -/
def trimChars (l : List Char) : List Char :=
  ((l.dropWhile isJsWhitespace).reverse.dropWhile isJsWhitespace).reverse

/-- The step `if (v.startsWith('"') && v.endsWith('"')) v = v.slice(1, -1)`. -/
def stripQuotes (v : List Char) : List Char :=
  if v.head? = some '"' ∧ v.getLast? = some '"' then (v.drop 1).dropLast else v

/-- The number of columns `parseCSVLine` expects: Lead, State, Website, Phones, Status, Reason. -/
def expectedFields : Nat := 6

/-- The `for` loop of `parseCSVLine` from the position whose remaining characters are the
first argument, with the loop variables `result`, `current`, `inQuotes`, `fieldCount`;
the value is what the function returns. -/
def parseCSVLoop : List Char → List String → List Char → Bool → Nat → List String
  | [], result, current, _, _ => result ++ [String.mk (stripQuotes (trimChars current))]
  | char :: rest, result, current, inQuotes, fieldCount =>
    if char = '"' then parseCSVLoop rest result (current ++ [char]) (!inQuotes) fieldCount
    else if char = ',' ∧ inQuotes = false then
      let result1 := result ++ [String.mk (stripQuotes (trimChars current))]
      if fieldCount + 1 = expectedFields - 1 then
        result1 ++ [String.mk (stripQuotes (trimChars rest))]
      else parseCSVLoop rest result1 [] inQuotes (fieldCount + 1)
    else parseCSVLoop rest result (current ++ [char]) inQuotes fieldCount

/-- JavaScript `parseCSVLine(line)`, the definition at the end of the class (the one in
force). -/
def parseCSVLine (line : String) : List String :=
  parseCSVLoop (trimChars line.toList) [] [] false 0

/-- JavaScript `text.split(/\r?\n/)` on characters: `cur` is the line being collected. -/
def splitLinesFrom : List Char → List Char → List (List Char)
  | [], cur => [cur]
  | '\r' :: '\n' :: rest, cur => cur :: splitLinesFrom rest []
  | '\n' :: rest, cur => cur :: splitLinesFrom rest []
  | c :: rest, cur => splitLinesFrom rest (cur ++ [c])

/-- JavaScript `csvData.split(/\r?\n/).filter(line => line.trim())`. -/
def nonBlankLines (csvData : String) : List String :=
  ((splitLinesFrom csvData.toList []).filter (fun l => !(trimChars l).isEmpty)).map String.mk

/-- JavaScript `header.toLowerCase().replace(/\s+/g, '')`.  Lower-casing is taken on the
letters `A` to `Z`; no other character lower-cases to a letter of the six keys read below, so
the keys `lead`, `state`, `website`, `phones`, `status`, `reason` are matched alike. -/
def headerKey (header : String) : String :=
  String.mk ((header.toList.map Char.toLower).filter (fun c => !isJsWhitespace c))

/-- JavaScript `s || ''` for a string that may be `undefined`. -/
def orEmpty (v : Option String) : String :=
  match v with
  | some s => s
  | none => ""

/-- The property `prospect[key]` after the `headers.forEach` of `parseProspectCSV`: the
value assigned for the last header whose key is `key`, `undefined` if there is none. -/
def rowProperty (headers values : List String) (key : String) : Option String :=
  match ((headers.enum).filter (fun hi => headerKey hi.2 == key)).getLast? with
  | none => none
  | some hi => some (orEmpty (values.get? hi.1))

/-- A string as a property value. -/
def orDefault (v : Option String) (d : String) : String :=
  match v with
  | some s => if s == "" then d else s
  | none => d

/-- The object `mappedProspect` that `parseProspectCSV` builds for one row. -/
structure MappedProspect where
  company : String
  state : String
  website : String
  phone : String
  industry : String
  source : String
  status : String
  reason : String
  stage : String
  deriving DecidableEq, Repr

/-- What `parseProspectCSV` makes of one data line (already trimmed, non-empty): `none`
when the row is skipped. -/
def prospectOfRow (headers : List String) (line : String) : Option MappedProspect :=
  let values := parseCSVLine line
  if values.length < 6 then none
  else
    let mappedProspect : MappedProspect :=
      { company := orDefault (rowProperty headers values "lead") ""
        state := orDefault (rowProperty headers values "state") ""
        website := orDefault (rowProperty headers values "website") ""
        phone := orDefault (rowProperty headers values "phones") ""
        industry := "CNC Machining"
        source := "CSV Import"
        status := orDefault (rowProperty headers values "status") "unreviewed"
        reason := orDefault (rowProperty headers values "reason") ""
        stage := "unreviewed" }
    if mappedProspect.company == "" then none else some mappedProspect

/-- JavaScript `parseProspectCSV(csvData)`.  `none` stands for the `TypeError` raised by
`parseCSVLine(lines[0])` when no non-blank line exists. -/
def parseProspectCSV (csvData : String) : Option (List MappedProspect) :=
  match nonBlankLines csvData with
  | [] => none
  | header :: rows =>
    let headers := parseCSVLine header
    some (rows.filterMap (fun row =>
      let line := String.mk (trimChars row.toList)
      if line == "" then none else prospectOfRow headers line))

/-- The record `{...prospect, id, stage: 'unreviewed', dateAdded}` that
`handleProspectCSVFile` stores for a parsed prospect. -/
def storedProspect (id : Nat) (now : String) (prospect : MappedProspect) : Prospect :=
  { id := id
    stage := "unreviewed"
    company := some prospect.company
    state := some prospect.state
    website := some prospect.website
    phone := some prospect.phone
    industry := some prospect.industry
    source := some prospect.source
    status := some prospect.status
    reason := some prospect.reason
    dateAdded := some now }

/-- The `map` of `handleProspectCSVFile` over the parsed prospects of one file: `stamp i`
is the pair (`Date.now() + Math.random()`, `new Date().toISOString()`) read for the
`i`-th prospect. -/
def stampProspects (stamp : Nat → Nat × String) : Nat → List MappedProspect → List Prospect
  | _, [] => []
  | i, prospect :: rest =>
    storedProspect (stamp i).1 (stamp i).2 prospect :: stampProspects stamp (i + 1) rest

/-- The `for (const file of files)` loop of `handleProspectCSVFile`: `files` are the
texts still to be read, `k` counts the files done.  A parse that throws ends the loop
(the `catch` of the caller), what earlier files saved stays saved. -/
def importCSVFiles (stamp : Nat → Nat → Nat × String) : Nat → List String → Db → Db
  | _, [], db => db
  | k, csvData :: rest, db =>
    match parseProspectCSV csvData with
    | none => db
    | some prospects =>
      let existingProspects := getProspects db
      let newProspects := stampProspects (stamp k) 0 prospects
      importCSVFiles stamp (k + 1) rest
        { db with kvProspects := some (existingProspects ++ newProspects) }

/-- JavaScript `handleProspectCSVFile(event)` for the texts of the chosen files. -/
def handleProspectCSVFile (db : Db) (files : List String) (stamp : Nat → Nat → Nat × String) :
    Db :=
  importCSVFiles stamp 0 files db

/-! ## Scraper import -/

/-- One record of `this.scrapedResults`. -/
structure ScrapedResult where
  name : Option String := none
  website : Option String := none
  phone : Option String := none
  state : Option String := none
  service : Option String := none
  deriving DecidableEq, Repr

/-- The prospect `importScrapedResults` builds from one scraped record; `id` and `now`
are `Date.now() + Math.random()` and `new Date().toISOString()`. -/
def prospectOfScraped (id : Nat) (now : String) (result : ScrapedResult) : Prospect :=
  { id := id
    company := some (orDefault result.name "Unknown Company")
    website := some (orDefault result.website "")
    phone := some (orDefault result.phone "")
    state := some (orDefault result.state "")
    industry := some (orDefault result.service "")
    source := some "Thomasnet Scraper"
    dateAdded := some now
    status := some "prospect"
    queue := some "prospecting_queue"
    stage := "unreviewed" }

/-- The prospects appended by `importScrapedResults`, in order. -/
def scrapedProspects (stamp : Nat → Nat × String) : Nat → List ScrapedResult → List Prospect
  | _, [] => []
  | i, result :: rest =>
    prospectOfScraped (stamp i).1 (stamp i).2 result :: scrapedProspects stamp (i + 1) rest

/-- JavaScript `importScrapedResults()` with `this.scrapedResults = results`. -/
def importScrapedResults (db : Db) (results : List ScrapedResult) (stamp : Nat → Nat × String) :
    Db :=
  if results.length = 0 then db
  else { db with kvProspects := some (getProspects db ++ scrapedProspects stamp 0 results) }

/-! ## The queue resolver as the specification words it -/

/-- The default queue in the specification's words: the leads, in store order, whose
last call is absent or earlier than `now - callQueueDays` days.  `calledAt` reads the
instant of a lead's last call (`none`: never called). -/
def specDefaultQueue (calledAt : Lead → Option Int) (days now : Int) (leads : List Lead) :
    List Lead :=
  leads.filter (fun l =>
    match calledAt l with
    | none => true
    | some c => decide (c < now - days * msPerDay))

/-- The stored `lastCalled` of lead `l` records the instant `calledAt l`: a lead never
called has no (or an empty) `lastCalled`, a lead called at `c` stores `toISOString c`,
which is how the program writes the property, for a `c` in years 0000 to 9999. -/
def RecordsCall (calledAt : Lead → Option Int) (l : Lead) : Prop :=
  match calledAt l with
  | none => falsy l.lastCalled = true
  | some c => FourDigitYear c ∧ l.lastCalled = toISOString c

instance (calledAt : Lead → Option Int) (l : Lead) : Decidable (RecordsCall calledAt l) := by
  unfold RecordsCall
  split <;> infer_instance

/-- A custom queue in the specification's words: the leads whose id is in `leadIds`,
in `leadIds` order, ids without a lead skipped. -/
def specCustomQueue (leadIds : List Nat) (leads : List Lead) : List Lead :=
  leadIds.filterMap (fun i => leads.find? (fun l => l.id == some i))

/-! ## Worked example of the pipeline -/

/-- A database with one lead in the `leads` object store and three prospects, one of
them finalized. -/
def exampleDb : Db :=
  { leads := [{ id := some 1, company := some "Zed" }]
    kvProspects := some
      [{ id := 11, stage := "unreviewed", company := some "Acme" },
       { id := 12, stage := "finalized", company := some "Bolt", service := some "Welding",
         decision := some "approve" },
       { id := 13, stage := "unqualified", company := some "Cogs", decision := some "reject" }] }

/-- A clock for the examples. -/
def exampleClock (_ : Nat) : String := "2024-06-10T06:13:20.000Z"

/-! ## The pipeline as the specification words it -/

/-- The fields of a lead that the specification derives from a finalized prospect. -/
def SpecLeadOf (p : Prospect) (l : Lead) : Prop :=
  l.company = p.company ∧ l.website = p.website ∧ l.state = p.state ∧
    l.contact = p.contact ∧ l.email = p.email ∧ l.phone = p.phone ∧ l.notes = p.notes ∧
    l.industry =
      (match p.industry with
       | some s => if s ≠ "" then some s else p.service
       | none => p.service) ∧
    l.lastCalled = none ∧ l.callOutcome = none

/-- The stage values of the pipeline. -/
def ValidStage (s : String) : Prop :=
  s = "unreviewed" ∨ s = "finalized" ∨ s = "unqualified"

/-- Every stored prospect is in one of the three stages. -/
def StageInv (db : Db) : Prop :=
  ∀ p ∈ getProspects db, ValidStage p.stage

instance (s : String) : Decidable (ValidStage s) := by
  unfold ValidStage
  infer_instance

instance (db : Db) : Decidable (StageInv db) := by
  unfold StageInv
  infer_instance

/-! ## Lead store operations -/

/-- JavaScript `getLeadById(id)`: the record with key `id`, `undefined` if there is none. -/
def getLeadById (db : Db) (id : Nat) : Option Lead :=
  db.leads.find? (fun l => l.id == some id)

/-- Whether the key of a stored record is smaller than `key`. -/
def keyBefore (key : Nat) (l : Lead) : Bool :=
  match l.id with
  | some k => decide (k < key)
  | none => true

/-- The records of the `leads` store after `store.put(record)` with key `key`: the
record with that key is replaced where it stands; without one, the new record takes its
place in key order. -/
def putRecord (leads : List Lead) (key : Nat) (record : Lead) : List Lead :=
  if leads.any (fun l => l.id == some key) then
    leads.map (fun l => if l.id == some key then record else l)
  else leads.takeWhile (keyBefore key) ++ record :: leads.dropWhile (keyBefore key)

/-- JavaScript `updateLead(id, leadData)`: `store.put({ ...leadData, id })`.  With an
`undefined` id the key generator of the store supplies the key, `genKey`. -/
def updateLead (db : Db) (id : Option Nat) (leadData : Lead) (genKey : Nat) : Db :=
  { db with leads := putRecord db.leads (id.getD genKey) { leadData with id := some (id.getD genKey) } }

/-- JavaScript `addLead(leadData)`: `store.add(leadData)`.  `result` is what the request
answers: the key the generator assigned (larger than the keys present, so the record comes
last), or `none` when the request fails and the promise is rejected. -/
def addLead (db : Db) (leadData : Lead) (result : Option Nat) : Option Db :=
  match result with
  | none => none
  | some key => some { db with leads := db.leads ++ [{ leadData with id := some key }] }

/-! ## Call logging from the queue view -/

/-- JavaScript `s.toUpperCase()`, taken on the letters `a` to `z`: the outcome values are
the option values of a select element, lower-case words of those letters and `_`. -/
def jsToUpperCase (s : String) : String :=
  String.mk (s.toList.map Char.toUpper)

/-- JavaScript `s.trim()`. -/
def jsTrim (s : String) : String :=
  String.mk (trimChars s.toList)

/-- The values of the call notes dialog that `saveCallNotes` reads. -/
structure CallNotesForm where
  callNotesText : String := ""
  callOutcome : String := ""
  meetingDate : String := ""
  meetingTime : String := ""
  meetingNotes : String := ""
  googleCalendarLink : String := ""
  deriving DecidableEq, Repr

/-- The first line of a journal entry: `${now} [${outcome.toUpperCase()}]: ${notes}`,
`notes` being the trimmed text of the dialog. -/
def callEntryHead (form : CallNotesForm) (now : String) : String :=
  now ++ " [" ++ jsToUpperCase form.callOutcome ++ "]: " ++ jsTrim form.callNotesText

/-- The lines that `saveCallNotes` adds to the entry of a `meeting_set` call. -/
def meetingLines (form : CallNotesForm) : String :=
  "\nMeeting: " ++ form.meetingDate ++ " at " ++ form.meetingTime ++
    (if form.meetingNotes = "" then "" else "\nAgenda: " ++ form.meetingNotes) ++
    (if form.googleCalendarLink = "" then "" else "\nCalendar: " ++ form.googleCalendarLink)

/-- The string `callEntry` of `saveCallNotes`. -/
def callEntryOf (form : CallNotesForm) (now : String) : String :=
  if form.callOutcome = "meeting_set" then callEntryHead form now ++ meetingLines form
  else callEntryHead form now

/-- The value `meetingData` of `saveCallNotes`. -/
def meetingDataOf (form : CallNotesForm) (now : String) : Option MeetingData :=
  if form.callOutcome = "meeting_set" then
    some
      { date := form.meetingDate
        time := form.meetingTime
        notes := form.meetingNotes
        googleCalendarLink := form.googleCalendarLink
        status := "upcoming"
        createdAt := now }
  else none

/-- The string `updatedNotes` of `saveCallNotes`. -/
def updatedNotesOf (previous : Option String) (callEntry : String) : String :=
  match previous with
  | some notes => if notes = "" then callEntry else notes ++ "\n\n" ++ callEntry
  | none => callEntry

/-- JavaScript `saveCallNotes()` with `this.currentLeadId = currentLeadId`, the dialog
values `form` and `now = new Date().toISOString()`.  Without an outcome, without the
meeting date or time of a `meeting_set` call, or when reading the lead throws (no id, no
such lead), nothing is written. -/
def saveCallNotes (db : Db) (currentLeadId : Option Nat) (form : CallNotesForm) (now : String) :
    Db :=
  if form.callOutcome = "" then db
  else
    match currentLeadId with
    | none => db
    | some id =>
      match getLeadById db id with
      | none => db
      | some lead =>
        if form.callOutcome = "meeting_set" ∧ (form.meetingDate = "" ∨ form.meetingTime = "") then
          db
        else
          updateLead db (some id)
            { lead with
              lastCalled := some now
              callOutcome := some form.callOutcome
              notes := some (updatedNotesOf lead.notes (callEntryOf form now))
              meetingData := meetingDataOf form now } 0

/-! ## Call mode -/

/-- The call mode fields of the application object. -/
structure CallMode where
  callModeActive : Bool := false
  callModeCurrentLeadIndex : Nat := 0
  callModeLeads : List Lead := []
  deriving DecidableEq, Repr

/-- The time value of `new Date(t)` for a number: `none` is the invalid date. -/
def timeClip (t : Int) : Option Int :=
  if t < -maxTimeValue ∨ maxTimeValue < t then none else some t

/-- The time value of `new Date(Date.now() - callQueueDays * 24 * 60 * 60 * 1000)`. -/
def callModeThreshold (cfg : Config) (now : Int) : Option Int :=
  match cfg.callQueueDays with
  | none => none
  | some days => timeClip (now - days * 24 * 60 * 60 * 1000)

/-- The filter callback of `enterCallMode`:
`!lead.lastCalled || new Date(lead.lastCalled) < new Date(threshold)`.  `parseDate s` is
the time value of `new Date(s)` for a string `s`, `none` for an invalid date; a comparison
with an invalid date is false. -/
def callModePred (parseDate : String → Option Int) (cfg : Config) (now : Int) (lead : Lead) :
    Bool :=
  falsy lead.lastCalled ||
    (match lead.lastCalled, callModeThreshold cfg now with
     | some s, some threshold =>
       (match parseDate s with
        | some called => decide (called < threshold)
        | none => false)
     | _, _ => false)

/-- JavaScript `enterCallMode()` at clock reading `now`. -/
def enterCallMode (parseDate : String → Option Int) (cfg : Config) (now : Int) (db : Db)
    (s : CallMode) : CallMode :=
  let callModeLeads := (getAllLeads db).filter (callModePred parseDate cfg now)
  if callModeLeads.length = 0 then { s with callModeLeads := callModeLeads }
  else { callModeActive := true, callModeCurrentLeadIndex := 0, callModeLeads := callModeLeads }

/-- JavaScript `exitCallMode()`. -/
def exitCallMode (s : CallMode) : CallMode :=
  { s with callModeActive := false }

/-- JavaScript `callModeNextLead()`. -/
def callModeNextLead (s : CallMode) : CallMode :=
  if (s.callModeCurrentLeadIndex : Int) < (s.callModeLeads.length : Int) - 1 then
    { s with callModeCurrentLeadIndex := s.callModeCurrentLeadIndex + 1 }
  else s

/-- JavaScript `callModeNextLeadOrCycle()`. -/
def callModeNextLeadOrCycle (s : CallMode) : CallMode :=
  if (s.callModeCurrentLeadIndex : Int) < (s.callModeLeads.length : Int) - 1 then
    { s with callModeCurrentLeadIndex := s.callModeCurrentLeadIndex + 1 }
  else { s with callModeCurrentLeadIndex := 0 }

/-- JavaScript `callModePreviousLead()`. -/
def callModePreviousLead (s : CallMode) : CallMode :=
  if s.callModeCurrentLeadIndex > 0 then
    { s with callModeCurrentLeadIndex := s.callModeCurrentLeadIndex - 1 }
  else s

/-- Rounding to the nearest integer, a tie going to the even one. -/
def roundHalfEven (x : ℚ) : ℤ :=
  if x - Int.floor x < 1 / 2 then Int.floor x
  else if 1 / 2 < x - Int.floor x then Int.floor x + 1
  else if Int.floor x % 2 = 0 then Int.floor x else Int.floor x + 1

/-- The exponent of the unit in the last place of the doubles around a positive number:
53 significant bits, and no exponent below that of the subnormal numbers. -/
def ulpExponent (x : ℚ) : ℤ :=
  max (Int.log 2 x - 52) (-1074)

/-- The double nearest to a rational number (IEEE 754 binary64, round to nearest, ties to
even), which is the value of a JavaScript arithmetic operation whose exact result is the
rational; for magnitudes that do not overflow. -/
def toDouble (x : ℚ) : ℚ :=
  if x = 0 then 0
  else if 0 < x then roundHalfEven (x / 2 ^ ulpExponent x) * 2 ^ ulpExponent x
  else -(roundHalfEven (-x / 2 ^ ulpExponent (-x)) * 2 ^ ulpExponent (-x))

/-- JavaScript `callModeRandomLead()` for the draw `random = Math.random()`, a double:
`Math.floor(Math.random() * this.callModeLeads.length)`.  The product is the double
nearest to the exact product; the length of an array is below 2^32 and is a double as it
stands. -/
def callModeRandomLead (s : CallMode) (random : ℚ) : CallMode :=
  { s with
    callModeCurrentLeadIndex :=
      (Int.floor (toDouble (random * s.callModeLeads.length))).toNat }

/-- The values of the completion form that `saveCallCompletion` reads. -/
structure CompletionForm where
  outcome : String := ""
  notes : String := ""
  followUpDate : String := ""
  nextAction : String := "none"
  deriving DecidableEq, Repr

/-- The clock readings and store answers of one `saveCallCompletion`: `Date.now()`, the
two `new Date().toISOString()`, whether `saveToStorage('callLogs', ...)` and the `put` of
`updateLead` succeed, and the key the generator would supply. -/
structure CompletionEnv where
  nowMs : Int
  logTime : String
  callTime : String
  saveLogOk : Bool := true
  updateOk : Bool := true
  genKey : Nat := 0
  deriving DecidableEq, Repr

/-- The object `callLog` of `saveCallCompletion`. -/
def callLogOf (currentLead : Lead) (form : CompletionForm) (env : CompletionEnv) : CallLog :=
  { id := "call-" ++ toString env.nowMs
    leadId := currentLead.id
    leadName := currentLead.company
    outcome := form.outcome
    notes := form.notes
    followUpDate := if form.followUpDate = "" then none else some form.followUpDate
    nextAction := form.nextAction
    timestamp := env.logTime
    duration := 0 }

/-- JavaScript `saveCallCompletion()`.  The current lead is the object held in
`callModeLeads`, so the assignment to its `lastCalled` shows in the session as well. -/
def saveCallCompletion (s : CallMode) (db : Db) (form : CompletionForm) (env : CompletionEnv) :
    CallMode × Db :=
  if form.outcome = "" then (s, db)
  else
    match s.callModeLeads.get? s.callModeCurrentLeadIndex with
    | none => (s, db)
    | some currentLead =>
      let callLogs := db.callLogs ++ [callLogOf currentLead form env]
      if env.saveLogOk = false then (s, { db with callLogs := callLogs })
      else
        let db1 := { db with callLogs := callLogs, kvCallLogs := some callLogs }
        let called := { currentLead with lastCalled := some env.callTime }
        let s1 := { s with callModeLeads := s.callModeLeads.set s.callModeCurrentLeadIndex called }
        if env.updateOk = false then (s1, db1)
        else (callModeNextLeadOrCycle s1, updateLead db1 currentLead.id called env.genKey)

/-- A reader of the strings `toISOString` writes for years 0000 to 9999
(`YYYY-MM-DDTHH:mm:ss.sssZ`), used where an example needs the host's `new Date(s)`. -/
def exampleParseDate (s : String) : Option Int :=
  match s.toList with
  | [y1, y2, y3, y4, '-', m1, m2, '-', d1, d2, 'T', h1, h2, ':', n1, n2, ':', s1, s2, '.',
      f1, f2, f3, 'Z'] =>
    if [y1, y2, y3, y4, m1, m2, d1, d2, h1, h2, n1, n2, s1, s2, f1, f2, f3].all Char.isDigit then
      let num : List Char → Int := fun l => l.foldl (fun n c => n * 10 + (c.toNat - 48 : Nat)) 0
      let year := num [y1, y2, y3, y4]
      let month := num [m1, m2]
      let date := num [d1, d2]
      let day := dayFromYear year +
        (([0, 31, 59, 90, 120, 151, 181, 212, 243, 273, 304, 334] : List Int).getD
          (month - 1).toNat 0) + (if 2 < month then inLeapYear year else 0) + date - 1
      let t := day * msPerDay + num [h1, h2] * 3600000 + num [n1, n2] * 60000 +
        num [s1, s2] * 1000 + num [f1, f2, f3]
      if toISOString t = some s then some t else none
    else none
  | _ => none

/-! ## Leads CSV import -/

/-- JavaScript `csv.split('\n')` on characters: `cur` is the line being collected. -/
def splitNewlineFrom : List Char → List Char → List (List Char)
  | [], cur => [cur]
  | '\n' :: rest, cur => cur :: splitNewlineFrom rest []
  | c :: rest, cur => splitNewlineFrom rest (cur ++ [c])

/-- JavaScript `csv.split('\n').filter(line => line.trim())`. -/
def csvLines (csv : String) : List String :=
  ((splitNewlineFrom csv.toList []).filter (fun l => !(trimChars l).isEmpty)).map String.mk

/-- The object `leadData` that `parseCSV` builds from the fields of one row. -/
def leadDataOf (values : List String) (filename now : String) : Lead :=
  { company := some (orEmpty (values.get? 0))
    contact := some ""
    email := some (orEmpty (values.get? 3))
    industry := some (orEmpty (values.get? 5))
    state := some (orEmpty (values.get? 1))
    website := some (orEmpty (values.get? 2))
    phone := some (orEmpty (values.get? 4))
    comments := some (orEmpty (values.get? 6))
    notes := some ("Imported from: " ++ filename)
    dateAdded := some now }

/-- The counts `parseCSV` returns. -/
structure ImportResult where
  imported : Nat
  skipped : Nat
  deriving DecidableEq, Repr

/-- The `for` loop of `parseCSV` from line `i` on, `rows` being the lines `i`, `i + 1`, ...;
`clock i` is the reading of `new Date().toISOString()` for line `i` and `insert i` the
answer of the store to the `addLead` of line `i`. -/
def parseCSVRows (headers : List String) (filename : String) (clock : Nat → String)
    (insert : Nat → Option Nat) : Nat → List String → Db → ImportResult → Db × ImportResult
  | _, [], db, counts => (db, counts)
  | i, line :: rows, db, counts =>
    let values := parseCSVLine line
    if values.length < headers.length then
      parseCSVRows headers filename clock insert (i + 1) rows db counts
    else
      let leadData := leadDataOf values filename (clock i)
      if falsy leadData.company then
        parseCSVRows headers filename clock insert (i + 1) rows db counts
      else
        match addLead db leadData (insert i) with
        | some db1 =>
          parseCSVRows headers filename clock insert (i + 1) rows db1
            { counts with imported := counts.imported + 1 }
        | none =>
          parseCSVRows headers filename clock insert (i + 1) rows db
            { counts with skipped := counts.skipped + 1 }

/-- JavaScript `parseCSV(csv, filename)`: the database after it and the counts it
returns. -/
def parseCSV (db : Db) (csv filename : String) (clock : Nat → String)
    (insert : Nat → Option Nat) : Db × ImportResult :=
  match csvLines csv with
  | [] => (db, { imported := 0, skipped := 0 })
  | header :: rows =>
    parseCSVRows (parseCSVLine header) filename clock insert 1 rows db
      { imported := 0, skipped := 0 }

/-- The `for` loop of the first method named `parseCSVLine` (the seven-column reader
for leads), which the later method of the same name replaces in the class. -/
def parseCSVLoopFirst : List Char → List String → List Char → Bool → List String
  | [], result, current, _ => result ++ [String.mk (trimChars current)]
  | char :: rest, result, current, inQuotes =>
    if char = '"' then parseCSVLoopFirst rest result current (!inQuotes)
    else if char = ',' ∧ inQuotes = false then
      parseCSVLoopFirst rest (result ++ [String.mk (trimChars current)]) [] inQuotes
    else parseCSVLoopFirst rest result (current ++ [char]) inQuotes

/-- JavaScript `field.replace(/^"(.*)"$/, '$1')`: the dot matches no line terminator. -/
def replaceOuterQuotes (field : String) : String :=
  let v := field.toList
  if 2 ≤ v.length ∧ v.head? = some '"' ∧ v.getLast? = some '"' ∧
      ((v.drop 1).dropLast.all (fun c => !([0xA, 0xD, 0x2028, 0x2029].contains c.toNat))) then
    String.mk ((v.drop 1).dropLast)
  else field

/-- The first method named `parseCSVLine`; dead code, the class keeps the later one. -/
def parseCSVLineFirst (line : String) : List String :=
  (parseCSVLoopFirst line.toList [] [] false).map replaceOuterQuotes

/-! ## Call mode sessions -/

/-- JavaScript `initCallMode()`: the call mode fields at start-up. -/
def initCallMode : CallMode :=
  { callModeActive := false, callModeCurrentLeadIndex := 0, callModeLeads := [] }

/-- JavaScript `toggleCallMode()`, the only caller of `enterCallMode`. -/
def toggleCallMode (parseDate : String → Option Int) (cfg : Config) (now : Int) (db : Db)
    (s : CallMode) : CallMode :=
  if s.callModeActive then exitCallMode s else enterCallMode parseDate cfg now db s

/-- One user action on the call mode state: toggling the mode (which enters or exits it),
the four cursor moves, and completing a call.  Clock, database, forms and random draw are
arbitrary. -/
inductive SessionStep : CallMode → CallMode → Prop
  | toggle (s : CallMode) (parseDate : String → Option Int) (cfg : Config) (now : Int) (db : Db) :
      SessionStep s (toggleCallMode parseDate cfg now db s)
  | next (s : CallMode) : SessionStep s (callModeNextLead s)
  | nextOrCycle (s : CallMode) : SessionStep s (callModeNextLeadOrCycle s)
  | previous (s : CallMode) : SessionStep s (callModePreviousLead s)
  | random (s : CallMode) (r : ℚ) (h0 : 0 ≤ r) (h1 : r < 1) (hd : toDouble r = r) :
      SessionStep s (callModeRandomLead s r)
  | complete (s : CallMode) (db : Db) (form : CompletionForm) (env : CompletionEnv) :
      SessionStep s (saveCallCompletion s db form env).1

/-- The cursor invariant: an active session has leads and its cursor points at one. -/
def SessionInv (s : CallMode) : Prop :=
  s.callModeActive = true →
    s.callModeLeads ≠ [] ∧ s.callModeCurrentLeadIndex < s.callModeLeads.length

instance (s : CallMode) : Decidable (SessionInv s) := by
  unfold SessionInv
  infer_instance

/-! ## Call logging and import as the specification words them -/

/-- The host's date parser reads the stored `lastCalled` of lead `l` as the instant
`calledAt l`. -/
def ReadsCall (parseDate : String → Option Int) (calledAt : Lead → Option Int) (l : Lead) : Prop :=
  match calledAt l with
  | none => True
  | some c => l.lastCalled.bind parseDate = some c

instance (parseDate : String → Option Int) (calledAt : Lead → Option Int) (l : Lead) :
    Decidable (ReadsCall parseDate calledAt l) := by
  unfold ReadsCall
  split <;> infer_instance

/-- The record `saveCallNotes` writes for the lead it read. -/
def loggedLead (lead : Lead) (form : CallNotesForm) (now : String) : Lead :=
  { lead with
    lastCalled := some now
    callOutcome := some form.callOutcome
    notes := some (updatedNotesOf lead.notes (callEntryOf form now))
    meetingData := meetingDataOf form now }

/-- A data line that `parseCSV` tries to insert: it has at least as many fields as the
header and a non-empty first field. -/
def rowEligible (headers : List String) (line : String) : Bool :=
  decide (headers.length ≤ (parseCSVLine line).length) &&
    !(orEmpty ((parseCSVLine line).get? 0) == "")

/-- The insertions `parseCSV` attempts, in order: the eligible data lines with their line
numbers (the header is line 0). -/
def csvAttempts (headers : List String) (i : Nat) (rows : List String) : List (Nat × String) :=
  (rows.enumFrom i).filter (fun p => rowEligible headers p.2)

/-- The record that the attempt for line `p` leaves in the store, if it succeeds. -/
def insertedLead (filename : String) (clock : Nat → String) (insert : Nat → Option Nat)
    (p : Nat × String) : Option Lead :=
  (insert p.1).map (fun key =>
    { leadDataOf (parseCSVLine p.2) filename (clock p.1) with id := some key })

/-! ## Worked example of a call session -/

/-- A session on two leads and a store holding them, neither called so far. -/
def exampleSession : CallMode :=
  { callModeActive := true
    callModeCurrentLeadIndex := 0
    callModeLeads :=
      [{ id := some 1, company := some "Acme", notes := some "first contact" },
       { id := some 2, company := some "Bolt" }] }

/-- The store behind `exampleSession`. -/
def exampleCallDb : Db :=
  { leads :=
      [{ id := some 1, company := some "Acme", notes := some "first contact" },
       { id := some 2, company := some "Bolt" }] }

/-- The call notes dialog filled in for a voicemail. -/
def exampleNotesForm : CallNotesForm :=
  { callNotesText := "  left a message ", callOutcome := "voicemail" }

/-- The completion form of the specification's example call. -/
def exampleCompletion : CompletionForm :=
  { outcome := "meeting_set", notes := "demo interest", followUpDate := "2024-06-01",
    nextAction := "follow_up" }

/-- Clock readings for the example call. -/
def exampleEnv : CompletionEnv :=
  { nowMs := 1718000000000, logTime := "2024-06-10T06:13:20.000Z",
    callTime := "2024-06-10T06:13:20.001Z" }

/-! ## Leads CSV export -/

/-- JavaScript `array.join(sep)` for an array of strings. -/
def jsJoin (sep : String) : List String → String
  | [] => ""
  | [a] => a
  | a :: b :: rest => a ++ sep ++ jsJoin sep (b :: rest)

/-- The text a template literal substitutes for a string that may be `undefined`. -/
def templateText (v : Option String) : String :=
  match v with
  | some s => s
  | none => "undefined"

/-- The array `headers` of `exportCSV`. -/
def exportHeaders : List String :=
  ["Company", "Website", "Last Called", "State", "Industry", "Phone", "Contact", "Email",
    "Comments", "Notes"]

/-- The array `row` that `exportCSV` builds for a lead, each field as the template
literal prints it. -/
def exportRow (lead : Lead) : List String :=
  [templateText lead.company, orEmpty lead.website, orEmpty lead.lastCalled,
    orEmpty lead.state, orEmpty lead.industry, orEmpty lead.phone, orEmpty lead.contact,
    orEmpty lead.email, orEmpty lead.comments, orEmpty lead.notes]

/-- The callback of `row.map` in `exportCSV`: the field between two double quotes. -/
def quoteField (field : String) : String :=
  "\"" ++ field ++ "\""

/-- The text `csv` that `exportCSV` hands to the download: the header line, then the
`forEach` over the leads of the store, each step appending one line. -/
def exportCSV (db : Db) : String :=
  (getAllLeads db).foldl
    (fun csv lead => csv ++ (jsJoin "," ((exportRow lead).map quoteField) ++ "\n"))
    (jsJoin "," exportHeaders ++ "\n")

/-! ## The lead form -/

/-- The values of the lead dialog that `saveLead` reads. -/
structure LeadForm where
  company : String
  contact : String
  email : String
  industry : String
  state : String
  website : String
  phone : String
  comments : String
  notes : String
  deriving DecidableEq, Repr

/-- The object `formData` of `saveLead`; `now` is the reading of
`new Date().toISOString()`. -/
def formDataOf (form : LeadForm) (now : String) : Lead :=
  { company := some (jsTrim form.company)
    contact := some (jsTrim form.contact)
    email := some (jsTrim form.email)
    industry := some (jsTrim form.industry)
    state := some (jsTrim form.state)
    website := some (jsTrim form.website)
    phone := some (jsTrim form.phone)
    comments := some (jsTrim form.comments)
    notes := some (jsTrim form.notes)
    dateAdded := some now }

/-- JavaScript `saveLead()`: the database after it.  `modalTitle` is the title of the
dialog; `selectedRow` is the selected row of the leads table, if any, as the number
`parseInt` reads in its first cell (`none` for `NaN`, a key `put` refuses); `result` is the
answer of the store to `addLead`. -/
def saveLead (db : Db) (form : LeadForm) (now : String) (modalTitle : String)
    (selectedRow : Option (Option Nat)) (result : Option Nat) : Db :=
  let formData := formDataOf form now
  if falsy formData.company then db
  else if modalTitle = "Add Lead" then
    match addLead db formData result with
    | some db1 => db1
    | none => db
  else
    match selectedRow with
    | some (some leadId) => updateLead db (some leadId) formData 0
    | _ => db

/-! ## Filtering the lead views -/

/-- JavaScript `s.includes(t)`: `t` occurs in `s`. -/
def jsIncludes (s t : String) : Bool :=
  s.toList.tails.any (fun suffix => t.toList.isPrefixOf suffix)

/-- JavaScript `value?.toLowerCase().includes(term)` as a condition: an absent value
gives `undefined`, which counts as false.  `toLowerCase` is `String.prototype.toLowerCase`,
the lower-casing of the Unicode tables of the host, a parameter. -/
def optIncludes (toLowerCase : String → String) (value : Option String) (term : String) :
    Bool :=
  match value with
  | some s => jsIncludes (toLowerCase s) term
  | none => false

/-- The values of the filter controls that `filterLeads` reads. -/
structure FilterControls where
  stateFilter : String
  industryFilter : String
  searchInput : String
  queueStateFilter : String
  queueIndustryFilter : String
  notesFilter : String
  emailStateFilter : String
  emailIndustryFilter : String
  deriving DecidableEq, Repr

/-- The steps `if (stateFilter !== 'all') ...; if (industryFilter !== 'all') ...` that the
three views share. -/
def filterStateIndustry (stateFilter industryFilter : String) (leads : List Lead) : List Lead :=
  let filtered :=
    if stateFilter ≠ "all" then leads.filter (fun lead => lead.state == some stateFilter)
    else leads
  if industryFilter ≠ "all" then filtered.filter (fun lead => lead.industry == some industryFilter)
  else filtered

/-- The callback of the search filter: `lead.company.toLowerCase()` raises a `TypeError`
(`none`) for a lead without company. -/
def searchMatch (toLowerCase : String → String) (searchTerm : String) (lead : Lead) :
    Option Bool :=
  match lead.company with
  | none => none
  | some company =>
    some (jsIncludes (toLowerCase company) searchTerm ||
      optIncludes toLowerCase lead.contact searchTerm ||
      optIncludes toLowerCase lead.email searchTerm)

/-- JavaScript `array.filter(callback)` for a callback that may raise. -/
def filterRaising (callback : Lead → Option Bool) : List Lead → Option (List Lead)
  | [] => some []
  | lead :: rest =>
    match callback lead with
    | none => none
    | some keep =>
      match filterRaising callback rest with
      | none => none
      | some kept => some (if keep then lead :: kept else kept)

/-- JavaScript `filterLeads(leads, viewType)`; `none` is the `TypeError` of the search
filter.  `toLowerCase` is `String.prototype.toLowerCase`. -/
def filterLeads (toLowerCase : String → String) (controls : FilterControls)
    (leads : List Lead) (viewType : String) : Option (List Lead) :=
  if viewType = "leads" then
    let searchTerm := toLowerCase controls.searchInput
    let filtered := filterStateIndustry controls.stateFilter controls.industryFilter leads
    if searchTerm ≠ "" then filterRaising (searchMatch toLowerCase searchTerm) filtered
    else some filtered
  else if viewType = "queue" then
    let notesFilter := toLowerCase controls.notesFilter
    let filtered :=
      filterStateIndustry controls.queueStateFilter controls.queueIndustryFilter leads
    if notesFilter ≠ "" then
      some (filtered.filter (fun lead => optIncludes toLowerCase lead.notes notesFilter))
    else some filtered
  else if viewType = "email" then
    some (filterStateIndustry controls.emailStateFilter controls.emailIndustryFilter leads)
  else some leads

/-! ## The view filter as the specification words it -/

/-- The lower-casing of the letters `A` to `Z`, which `toLowerCase` is on strings of
ASCII characters; it stands for `toLowerCase` in the worked examples. -/
def asciiLowerCase (s : String) : String :=
  String.mk (s.toList.map Char.toLower)

/-- The term occurs in the lower-cased value: the value is present and the characters
of the term are a contiguous part of the characters of the lower-cased value. -/
def OccursIn (toLowerCase : String → String) (term : String) (value : Option String) : Prop :=
  match value with
  | some s => List.IsInfix term.toList (toLowerCase s).toList
  | none => False

instance (toLowerCase : String → String) (term : String) (value : Option String) :
    Decidable (OccursIn toLowerCase term value) := by
  unfold OccursIn
  split <;> infer_instance

/-- The select criteria: state equal to the state filter unless it is `all`, industry
equal to the industry filter unless it is `all`. -/
def PassesSelects (stateFilter industryFilter : String) (lead : Lead) : Prop :=
  (stateFilter = "all" ∨ lead.state = some stateFilter) ∧
    (industryFilter = "all" ∨ lead.industry = some industryFilter)

instance (stateFilter industryFilter : String) (lead : Lead) :
    Decidable (PassesSelects stateFilter industryFilter lead) := by
  unfold PassesSelects
  infer_instance

/-- The criteria of the `leads` view: the selects, and, when the search text is not
empty, the lower-cased text occurring in the lower-cased company, contact or email. -/
def PassesLeadsView (toLowerCase : String → String) (controls : FilterControls) (lead : Lead) :
    Prop :=
  PassesSelects controls.stateFilter controls.industryFilter lead ∧
    (controls.searchInput = "" ∨
      OccursIn toLowerCase (toLowerCase controls.searchInput) lead.company ∨
      OccursIn toLowerCase (toLowerCase controls.searchInput) lead.contact ∨
      OccursIn toLowerCase (toLowerCase controls.searchInput) lead.email)

instance (toLowerCase : String → String) (controls : FilterControls) (lead : Lead) :
    Decidable (PassesLeadsView toLowerCase controls lead) := by
  unfold PassesLeadsView
  infer_instance

/-- The criteria of the `queue` view: the selects, and, when the notes text is not
empty, the lower-cased text occurring in the lower-cased notes. -/
def PassesQueueView (toLowerCase : String → String) (controls : FilterControls) (lead : Lead) :
    Prop :=
  PassesSelects controls.queueStateFilter controls.queueIndustryFilter lead ∧
    (controls.notesFilter = "" ∨
      OccursIn toLowerCase (toLowerCase controls.notesFilter) lead.notes)

instance (toLowerCase : String → String) (controls : FilterControls) (lead : Lead) :
    Decidable (PassesQueueView toLowerCase controls lead) := by
  unfold PassesQueueView
  infer_instance

/-- Filter controls with every select on `all` and the given search and notes texts. -/
def exampleControls (searchInput notesFilter : String) : FilterControls :=
  { stateFilter := "all"
    industryFilter := "all"
    searchInput := searchInput
    queueStateFilter := "all"
    queueIndustryFilter := "all"
    notesFilter := notesFilter
    emailStateFilter := "all"
    emailIndustryFilter := "all" }

/-! ## Phone numbers -/

/-- JavaScript `phone.replace(/\D/g, '')`: the characters `0` to `9` of the string. -/
def phoneDigits (phone : String) : List Char :=
  phone.toList.filter Char.isDigit

/-- JavaScript `formatPhoneNumber(phone)`. -/
def formatPhoneNumber (phone : Option String) : Option String :=
  match phone with
  | none => none
  | some p =>
    if p = "" then some p
    else
      let digits := phoneDigits p
      if digits.length = 10 then
        some (String.mk (['('] ++ digits.take 3 ++ [')', ' '] ++ (digits.drop 3).take 3 ++ ['-'] ++
          digits.drop 6))
      else if digits.length = 11 ∧ digits.head? = some '1' then
        some (String.mk (['+', '1', ' ', '('] ++ (digits.drop 1).take 3 ++ [')', ' '] ++
          (digits.drop 4).take 3 ++ ['-'] ++ digits.drop 7))
      else if digits.length = 7 then
        some (String.mk (digits.take 3 ++ ['-'] ++ digits.drop 3))
      else some p

/-- The callback of `phones.map` in `normalizePhones` of the scraper. -/
def normalizeMatch (phone : String) : String :=
  let digits := phoneDigits phone
  if digits.length = 10 then
    String.mk (['('] ++ digits.take 3 ++ [')', ' '] ++ (digits.drop 3).take 3 ++ ['-'] ++
      digits.drop 6)
  else if digits.length = 11 ∧ digits.head? = some '1' then
    String.mk (['('] ++ (digits.drop 1).take 3 ++ [')', ' '] ++ (digits.drop 4).take 3 ++ ['-'] ++
      digits.drop 7)
  else phone

/-- JavaScript `normalizePhones(text)` of the scraper; `phones` is the array
`text.match(phonePattern) || []` of the matches of the phone pattern in `text`. -/
def normalizePhones (text : Option String) (phones : List String) : String :=
  if falsy text then "" else jsJoin "; " (phones.map normalizeMatch)

/-- The digit characters of a string, in order, as the specification counts them: the
characters among `0123456789`. -/
def digitCharsOf (phone : String) : List Char :=
  phone.toList.filter (fun c => "0123456789".toList.contains c)

/-- The digit characters of a value that may be absent. -/
def optDigitChars (phone : Option String) : List Char :=
  match phone with
  | some p => digitCharsOf p
  | none => []

/-! ## The line parser as the specification words it -/

/-- The field `parseCSVLine` pushes for the collected characters: trimmed, and without
its outer double quotes when it starts and ends with one. -/
def fieldOf (chars : List Char) : String :=
  String.mk (stripQuotes (trimChars chars))

/-- The characters before the first comma outside double quotes and those after it;
`inQuotes` tells whether the scan starts inside quotes.  `none` when there is no such
comma. -/
def splitAtComma : List Char → Bool → Option (List Char × List Char)
  | [], _ => none
  | c :: rest, inQuotes =>
    if c = '"' then (splitAtComma rest (!inQuotes)).map (fun p => (c :: p.1, p.2))
    else if c = ',' ∧ inQuotes = false then some ([], rest)
    else (splitAtComma rest inQuotes).map (fun p => (c :: p.1, p.2))

/-- The number of commas outside double quotes. -/
def unquotedCommas : List Char → Bool → Nat
  | [], _ => 0
  | c :: rest, inQuotes =>
    if c = '"' then unquotedCommas rest (!inQuotes)
    else if c = ',' ∧ inQuotes = false then unquotedCommas rest inQuotes + 1
    else unquotedCommas rest inQuotes

/-- The first `n` fields, delimited by the first `n` commas outside double quotes, and
the remainder after the last of them. -/
def firstFields : Nat → List Char → Option (List (List Char) × List Char)
  | 0, l => some ([], l)
  | n + 1, l =>
    match splitAtComma l false with
    | none => none
    | some (field, rest) =>
      match firstFields n rest with
      | none => none
      | some (fields, remainder) => some (field :: fields, remainder)

/-- The number of tokens that cutting a line at every comma gives, quoted or not. -/
def rawTokenCount (line : String) : Nat :=
  line.toList.count ',' + 1

/-- The line made of the given fields, each followed by a comma, and the remainder. -/
def joinFields (fields : List (List Char)) (remainder : List Char) : List Char :=
  fields.foldr (fun field acc => field ++ ',' :: acc) remainder

/-- The prospect the specification describes for a data row under the header
`Lead,State,Website,Phones,Status,Reason`: the row counts when the line parser finds six
fields in it and the first is not empty; an empty status reads `unreviewed`. -/
def specProspectOfRow (row : String) : Option MappedProspect :=
  match parseCSVLine row with
  | [lead, state, website, phones, status, reason] =>
    if lead = "" then none
    else
      some { company := lead
             state := state
             website := website
             phone := phones
             industry := "CNC Machining"
             source := "CSV Import"
             status := if status = "" then "unreviewed" else status
             reason := reason
             stage := "unreviewed" }
  | _ => none

/-- The header line of the prospect files. -/
def prospectHeader : String := "Lead,State,Website,Phones,Status,Reason"

/-- The text made of the given lines, each ended by a line feed. -/
def linesText (lines : List String) : String :=
  lines.foldr (fun line text => line ++ "\n" ++ text) ""

/-- The row of the export as the specification words it: the ten values of the lead,
each between double quotes, joined by commas. -/
def specExportLine (lead : Lead) : String :=
  "\"" ++ templateText lead.company ++ "\",\"" ++ orEmpty lead.website ++ "\",\"" ++
    orEmpty lead.lastCalled ++ "\",\"" ++ orEmpty lead.state ++ "\",\"" ++
    orEmpty lead.industry ++ "\",\"" ++ orEmpty lead.phone ++ "\",\"" ++
    orEmpty lead.contact ++ "\",\"" ++ orEmpty lead.email ++ "\",\"" ++
    orEmpty lead.comments ++ "\",\"" ++ orEmpty lead.notes ++ "\""

/-- The header line of the export. -/
def exportHeaderLine : String :=
  "Company,Website,Last Called,State,Industry,Phone,Contact,Email,Comments,Notes"

/-- What `parseCSV` reads back from the exported row of a lead: the company, and, column
by column, the exported website as state, last call as website, state as email and
industry as phone. -/
def ReadsBack (exported imported : Lead) : Prop :=
  imported.company = exported.company ∧ imported.state = some (orEmpty exported.website) ∧
    imported.website = some (orEmpty exported.lastCalled) ∧
    imported.email = some (orEmpty exported.state) ∧
    imported.phone = some (orEmpty exported.industry)

/-- A store with one lead, for the export. -/
def exampleExportDb : Db :=
  { leads := [{ id := some 1, company := some "Acme, Inc", email := some "info@acme.example",
                phone := some "555-0100", industry := some "Machining", state := some "TX",
                website := some "acme.example" }] }

/-! # Properties -/

/-! ## The calendar -/

theorem yearFromDay_spec (d : Int) :
    dayFromYear (yearFromDay d) ≤ d ∧ d < dayFromYear (yearFromDay d + 1) := by
  have e1 : ∀ y : Int, y - 1 + 1 = y := fun y => by ring
  unfold yearFromDay
  simp only []
  split_ifs with h1 h2
  · refine ⟨h1, ?_⟩
    unfold dayFromYear
    omega
  · exact ⟨h2, by omega⟩
  · rw [e1]
    refine ⟨?_, by omega⟩
    unfold dayFromYear
    omega

theorem dayFromYear_mono {y1 y2 : Int} (h : y1 ≤ y2) : dayFromYear y1 ≤ dayFromYear y2 := by
  unfold dayFromYear
  omega

theorem yearFromDay_mono {d1 d2 : Int} (h : d1 ≤ d2) : yearFromDay d1 ≤ yearFromDay d2 := by
  by_contra hc
  have h1 := yearFromDay_spec d1
  have h2 := yearFromDay_spec d2
  have h3 : dayFromYear (yearFromDay d2 + 1) ≤ dayFromYear (yearFromDay d1) :=
    dayFromYear_mono (by omega)
  omega

theorem dayFromYear_succ (y : Int) :
    dayFromYear (y + 1) = dayFromYear y + 365 + inLeapYear y := by
  unfold dayFromYear inLeapYear
  omega

theorem inLeapYear_range (y : Int) : inLeapYear y = 0 ∨ inLeapYear y = 1 := by
  unfold inLeapYear
  omega

theorem monthFromDay_bounds (dwy leap : Int) :
    0 ≤ monthFromDay dwy leap ∧ monthFromDay dwy leap ≤ 11 := by
  unfold monthFromDay
  omega

theorem dateFromDay_bounds {dwy leap : Int} (hl : leap = 0 ∨ leap = 1)
    (h0 : 0 ≤ dwy) (h1 : dwy < 365 + leap) :
    1 ≤ dateFromDay dwy leap ∧ dateFromDay dwy leap ≤ 31 := by
  unfold dateFromDay
  omega

theorem monthDateKey_strictMono {a b leap : Int} (hl : leap = 0 ∨ leap = 1)
    (h0 : 0 ≤ a) (hab : a < b) (h1 : b < 365 + leap) :
    monthDateKey a leap < monthDateKey b leap := by
  unfold monthDateKey monthFromDay dateFromDay
  omega

/-- The day within the year of any day number lies inside its year. -/
theorem dayWithinYear_bounds (d : Int) :
    0 ≤ d - dayFromYear (yearFromDay d) ∧
      d - dayFromYear (yearFromDay d) < 365 + inLeapYear (yearFromDay d) := by
  have h := yearFromDay_spec d
  have hs := dayFromYear_succ (yearFromDay d)
  omega

theorem dateFields_inRange (t : Int) : (dateFields t).InRange := by
  have hb := dayWithinYear_bounds (t / msPerDay)
  have hl := inLeapYear_range (yearFromDay (t / msPerDay))
  have hm := monthFromDay_bounds (t / msPerDay - dayFromYear (yearFromDay (t / msPerDay)))
    (inLeapYear (yearFromDay (t / msPerDay)))
  have hd := dateFromDay_bounds hl hb.1 hb.2
  unfold DateFields.InRange dateFields
  simp only [msPerDay] at *
  omega

/-- The date part `YYYYMMDD` grows strictly with the day number. -/
theorem dayKey_strictMono {d1 d2 : Int} (h : d1 < d2) :
    yearFromDay d1 * 10000 + monthDateKey (d1 - dayFromYear (yearFromDay d1))
        (inLeapYear (yearFromDay d1)) <
      yearFromDay d2 * 10000 + monthDateKey (d2 - dayFromYear (yearFromDay d2))
        (inLeapYear (yearFromDay d2)) := by
  have hy := yearFromDay_mono (le_of_lt h)
  have hb1 := dayWithinYear_bounds d1
  have hb2 := dayWithinYear_bounds d2
  have hl1 := inLeapYear_range (yearFromDay d1)
  have hl2 := inLeapYear_range (yearFromDay d2)
  rcases lt_or_eq_of_le hy with hlt | heq
  · have m1 := monthFromDay_bounds (d1 - dayFromYear (yearFromDay d1))
      (inLeapYear (yearFromDay d1))
    have m2 := monthFromDay_bounds (d2 - dayFromYear (yearFromDay d2))
      (inLeapYear (yearFromDay d2))
    have e1 := dateFromDay_bounds hl1 hb1.1 hb1.2
    have e2 := dateFromDay_bounds hl2 hb2.1 hb2.2
    unfold monthDateKey
    omega
  · rw [← heq] at hb2 hl2 ⊢
    have := monthDateKey_strictMono hl1 hb1.1 (show d1 - dayFromYear (yearFromDay d1) <
      d2 - dayFromYear (yearFromDay d1) by omega) hb2.2
    omega

/-- The printed digits of a time value grow strictly with the time value. -/
theorem isoKey_strictMono {t1 t2 : Int} (h : t1 < t2) :
    isoKey (dateFields t1) < isoKey (dateFields t2) := by
  have hd : t1 / msPerDay ≤ t2 / msPerDay := by simp only [msPerDay]; omega
  rcases lt_or_eq_of_le hd with hlt | heq
  · have hk := dayKey_strictMono hlt
    unfold isoKey dateFields monthDateKey at *
    simp only [msPerDay] at *
    omega
  · unfold isoKey dateFields
    simp only []
    rw [← heq]
    simp only [msPerDay] at *
    have a1 : t1 % 86400000 / 60000 / 60 = t1 % 86400000 / 3600000 := by omega
    have a2 : t1 % 86400000 / 1000 / 60 = t1 % 86400000 / 60000 := by omega
    have b1 : t2 % 86400000 / 60000 / 60 = t2 % 86400000 / 3600000 := by omega
    have b2 : t2 % 86400000 / 1000 / 60 = t2 % 86400000 / 60000 := by omega
    omega

theorem isoKey_lt_iff (t1 t2 : Int) :
    isoKey (dateFields t1) < isoKey (dateFields t2) ↔ t1 < t2 := by
  constructor
  · intro h
    by_contra hc
    rcases lt_or_eq_of_le (not_lt.mp hc) with h2 | h2
    · have := isoKey_strictMono h2
      omega
    · rw [h2] at h
      exact lt_irrefl _ h
  · exact isoKey_strictMono

/-! ## The ISO format and the string order -/

theorem utf16Units_digitChar {d : Nat} (h : d < 10) :
    utf16Units (Nat.digitChar d) = [48 + d] := by
  interval_cases d <;> rfl

theorem charsUnits_append (a b : List Char) :
    charsUnits (a ++ b) = charsUnits a ++ charsUnits b := by
  simp [charsUnits]

theorem charsUnits_cons (c : Char) (l : List Char) :
    charsUnits (c :: l) = utf16Units c ++ charsUnits l := by
  simp [charsUnits]

theorem charsUnits_padDigits (w n : Nat) : charsUnits (padDigits w n) = padUnits w n := by
  induction w generalizing n with
  | zero => rfl
  | succ w ih =>
    simp only [padDigits, padUnits, charsUnits_append, ih]
    congr 1
    simp [charsUnits, utf16Units_digitChar (Nat.mod_lt n (by decide : 10 > 0))]

theorem unitsLt_cons_same (a : Nat) (x y : List Nat) :
    unitsLt (a :: x) (a :: y) = unitsLt x y := by
  simp [unitsLt]

/-- Two zero-padded numbers of the same width compare as the numbers do. -/
theorem unitsLt_padUnits (w : Nat) : ∀ (m n : Nat) (x y : List Nat), m < 10 ^ w → n < 10 ^ w →
    unitsLt (padUnits w m ++ x) (padUnits w n ++ y) =
      if m < n then true else if n < m then false else unitsLt x y := by
  induction w with
  | zero =>
    intro m n x y hm hn
    have hm0 : m = 0 := by omega
    have hn0 : n = 0 := by omega
    subst hm0; subst hn0
    simp [padUnits]
  | succ w ih =>
    intro m n x y hm hn
    have hm1 : m / 10 < 10 ^ w := by rw [pow_succ] at hm; omega
    have hn1 : n / 10 < 10 ^ w := by rw [pow_succ] at hn; omega
    simp only [padUnits, List.append_assoc, List.singleton_append]
    rw [ih _ _ _ _ hm1 hn1]
    simp only [unitsLt]
    split_ifs <;> first | rfl | omega

/-- One step of a lexicographic comparison decides an order it is compatible with. -/
theorem lexStep (a b : Nat) (r : Bool) (P : Prop) [Decidable P] (h1 : a < b → P)
    (h2 : b < a → ¬P) (h3 : a = b → r = decide P) :
    (if a < b then true else if b < a then false else r) = decide P := by
  rcases Nat.lt_trichotomy a b with h | h | h
  · simp [h, h1 h]
  · have hn : ¬ a < a := lt_irrefl a
    subst h
    simp [hn, h3 rfl]
  · have hn : ¬ a < b := by omega
    simp [hn, h, h2 h]

theorem unitsLt_isoChars {f g : DateFields} (hf : f.InRange) (hg : g.InRange)
    (hfy : 0 ≤ f.year ∧ f.year ≤ 9999) (hgy : 0 ≤ g.year ∧ g.year ≤ 9999) :
    unitsLt (charsUnits (isoChars f)) (charsUnits (isoChars g)) = decide (isoKey f < isoKey g) := by
  unfold DateFields.InRange at hf hg
  have e45 : utf16Units '-' = [45] := rfl
  have e84 : utf16Units 'T' = [84] := rfl
  have e58 : utf16Units ':' = [58] := rfl
  have e46 : utf16Units '.' = [46] := rfl
  have e90 : utf16Units 'Z' = [90] := rfl
  have enil : charsUnits [] = [] := rfl
  simp only [isoChars, isoYear, hfy, hgy, and_self, if_true, charsUnits_append, charsUnits_cons,
    charsUnits_padDigits, e45, e84, e58, e46, e90, List.singleton_append, List.append_assoc,
    List.cons_append, List.nil_append, enil]
  rw [unitsLt_padUnits 4 _ _ _ _ (by omega) (by omega), unitsLt_cons_same,
    unitsLt_padUnits 2 _ _ _ _ (by omega) (by omega), unitsLt_cons_same,
    unitsLt_padUnits 2 _ _ _ _ (by omega) (by omega), unitsLt_cons_same,
    unitsLt_padUnits 2 _ _ _ _ (by omega) (by omega), unitsLt_cons_same,
    unitsLt_padUnits 2 _ _ _ _ (by omega) (by omega), unitsLt_cons_same,
    unitsLt_padUnits 2 _ _ _ _ (by omega) (by omega), unitsLt_cons_same,
    unitsLt_padUnits 3 _ _ _ _ (by omega) (by omega)]
  unfold isoKey
  have hz : unitsLt [90] [90] = false := rfl
  rw [hz]
  refine lexStep _ _ _ _ (fun h => by omega) (fun h => by omega) (fun h1 => ?_)
  refine lexStep _ _ _ _ (fun h => by omega) (fun h => by omega) (fun h2 => ?_)
  refine lexStep _ _ _ _ (fun h => by omega) (fun h => by omega) (fun h3 => ?_)
  refine lexStep _ _ _ _ (fun h => by omega) (fun h => by omega) (fun h4 => ?_)
  refine lexStep _ _ _ _ (fun h => by omega) (fun h => by omega) (fun h5 => ?_)
  refine lexStep _ _ _ _ (fun h => by omega) (fun h => by omega) (fun h6 => ?_)
  refine lexStep _ _ _ _ (fun h => by omega) (fun h => by omega) (fun h7 => ?_)
  rw [false_eq_decide_iff]
  omega

theorem yearFromDay_fourDigit {t : Int} (h : FourDigitYear t) :
    0 ≤ yearFromDay (t / msPerDay) ∧ yearFromDay (t / msPerDay) ≤ 9999 := by
  unfold FourDigitYear at h
  have h0 : yearFromDay (-719528) = 0 := by decide
  have h1 : yearFromDay 2932896 = 9999 := by decide
  have l0 : (-719528 : Int) ≤ t / msPerDay := by simp only [msPerDay]; omega
  have l1 : t / msPerDay ≤ 2932896 := by simp only [msPerDay]; omega
  have m0 := yearFromDay_mono l0
  have m1 := yearFromDay_mono l1
  omega

/-- For time values in years 0000 to 9999, the JavaScript string order on the ISO
strings is the order of the time values. -/
theorem jsStrLt_toISOString {t1 t2 : Int} (h1 : FourDigitYear t1) (h2 : FourDigitYear t2) :
    ∃ s1 s2, toISOString t1 = some s1 ∧ toISOString t2 = some s2 ∧
      jsStrLt s1 s2 = decide (t1 < t2) := by
  have v1 : ¬ (t1 < -maxTimeValue ∨ maxTimeValue < t1) := by
    unfold FourDigitYear at h1; simp only [maxTimeValue]; omega
  have v2 : ¬ (t2 < -maxTimeValue ∨ maxTimeValue < t2) := by
    unfold FourDigitYear at h2; simp only [maxTimeValue]; omega
  refine ⟨_, _, if_neg v1, if_neg v2, ?_⟩
  unfold jsStrLt jsUnits
  show unitsLt (charsUnits (isoChars (dateFields t1))) (charsUnits (isoChars (dateFields t2))) = _
  rw [unitsLt_isoChars (dateFields_inRange t1) (dateFields_inRange t2)
    (yearFromDay_fourDigit h1) (yearFromDay_fourDigit h2)]
  exact decide_eq_decide.mpr (isoKey_lt_iff t1 t2)

/-- A time value before year 0000 prints with a leading minus sign, which sorts before
every digit. -/
theorem jsStrLt_toISOString_negativeYear {c thr : Int} (hc : FourDigitYear c)
    (h1 : -maxTimeValue ≤ thr) (h2 : thr < -62167219200000) :
    ∃ s t, toISOString c = some s ∧ toISOString thr = some t ∧ jsStrLt s t = false := by
  have v1 : ¬ (c < -maxTimeValue ∨ maxTimeValue < c) := by
    unfold FourDigitYear at hc; simp only [maxTimeValue]; omega
  have v2 : ¬ (thr < -maxTimeValue ∨ maxTimeValue < thr) := by
    simp only [maxTimeValue] at *; omega
  refine ⟨_, _, if_neg v1, if_neg v2, ?_⟩
  have hy := yearFromDay_fourDigit hc
  have hneg : yearFromDay (thr / msPerDay) < 0 := by
    have h0 : yearFromDay (-719529) = -1 := by decide
    have l0 : thr / msPerDay ≤ -719529 := by simp only [msPerDay]; omega
    have := yearFromDay_mono l0
    omega
  have hn : ¬ (0 ≤ (dateFields thr).year ∧ (dateFields thr).year ≤ 9999) := by
    simp only [dateFields]; omega
  have hp : 0 ≤ (dateFields c).year ∧ (dateFields c).year ≤ 9999 := by
    simp only [dateFields]; exact hy
  have hlt : (dateFields thr).year < 0 := by simp only [dateFields]; exact hneg
  have e45 : utf16Units '-' = [45] := rfl
  unfold jsStrLt jsUnits
  show unitsLt (charsUnits (isoChars (dateFields c))) (charsUnits (isoChars (dateFields thr))) = _
  simp only [isoChars, isoYear, hn, hp, hlt, and_self, if_true, if_false, charsUnits_append,
    charsUnits_cons, charsUnits_padDigits, e45, List.singleton_append, List.append_assoc,
    List.cons_append, List.nil_append, padUnits, unitsLt]
  rw [if_neg (by omega), if_pos (by omega)]

/-- For a call instant in years 0000 to 9999 and a threshold that is a valid time value
not after year 9999, the JavaScript comparison of the two ISO strings decides whether
the call is earlier than the threshold. -/
theorem jsStrLt_toISOString_threshold {c thr : Int} (hc : FourDigitYear c)
    (h1 : -maxTimeValue ≤ thr) (h2 : thr ≤ 253402300799999) :
    ∃ s t, toISOString c = some s ∧ toISOString thr = some t ∧
      jsStrLt s t = decide (c < thr) := by
  by_cases h : -62167219200000 ≤ thr
  · exact jsStrLt_toISOString hc ⟨h, h2⟩
  · obtain ⟨s, t, hs, ht, hlt⟩ := jsStrLt_toISOString_negativeYear hc h1 (not_le.mp h)
    refine ⟨s, t, hs, ht, ?_⟩
    rw [hlt]
    symm
    rw [decide_eq_false_iff_not]
    unfold FourDigitYear at hc
    omega

/-! ## The queue resolver -/

theorem toISOString_ne_empty {t : Int} {s : String} (h : toISOString t = some s) : s ≠ "" := by
  unfold toISOString at h
  split_ifs at h
  injection h with h
  subst h
  intro hc
  have := congrArg String.length hc
  simp [isoChars, String.length] at this

theorem falsy_toISOString {t : Int} {s : String} (h : toISOString t = some s) :
    falsy (some s) = false := by
  simp [falsy, toISOString_ne_empty h]

theorem queueThreshold_some (cfg : Config) (now days : Int) (h : cfg.callQueueDays = some days) :
    queueThreshold cfg now = toISOString (now - days * msPerDay) := by
  unfold queueThreshold
  rw [h]
  simp only [msPerDay]
  congr 1
  ring

theorem getQueueLeads_default (app : App) (now days : Int) (leads : List Lead) (t : String)
    (hq : app.currentQueue = QueueSel.default) (hd : app.config.callQueueDays = some days)
    (ht : toISOString (now - days * msPerDay) = some t) :
    getQueueLeads app now leads = leads.filter (defaultQueuePred t) := by
  unfold getQueueLeads
  rw [hq]
  simp only [queueThreshold_some _ _ _ hd, ht]

theorem defaultQueuePred_recordsCall {calledAt : Lead → Option Int} {l : Lead} {thr : Int}
    {t : String} (hl : RecordsCall calledAt l) (h1 : -maxTimeValue ≤ thr)
    (h2 : thr ≤ 253402300799999) (ht : toISOString thr = some t) :
    defaultQueuePred t l =
      (match calledAt l with
       | none => true
       | some c => decide (c < thr)) := by
  unfold RecordsCall at hl
  cases hc : calledAt l with
  | none =>
    rw [hc] at hl
    simp only at hl ⊢
    simp [defaultQueuePred, hl]
  | some c =>
    rw [hc] at hl
    simp only at hl ⊢
    obtain ⟨hf, hs⟩ := hl
    obtain ⟨s, t', e1, e2, e3⟩ := jsStrLt_toISOString_threshold hf h1 h2
    rw [ht] at e2
    injection e2 with e2
    subst e2
    unfold defaultQueuePred
    rw [hs, e1, falsy_toISOString e1]
    simpa using e3


theorem find?_customQueue {qs : List CustomQueue} {Q : CustomQueue} {qid : Nat}
    (hQ : Q ∈ qs) (hid : Q.id = qid) (hu : ∀ Q' ∈ qs, Q'.id = qid → Q' = Q) :
    qs.find? (fun q => q.id == qid) = some Q := by
  induction qs with
  | nil => cases hQ
  | cons q qs ih =>
    by_cases hq : q.id = qid
    · have := hu q (List.mem_cons_self _ _) hq
      subst this
      simp [List.find?, hq]
    · have hne : Q ≠ q := fun h => hq (h ▸ hid)
      have hQ' : Q ∈ qs := by
        rcases List.mem_cons.mp hQ with h | h
        · exact absurd h hne
        · exact h
      have hb : (q.id == qid) = false := by simpa using hq
      simp only [List.find?_cons, hb]
      exact ih hQ' (fun Q' h' => hu Q' (List.mem_cons_of_mem _ h'))

theorem find?_customQueue_none {qs : List CustomQueue} {qid : Nat}
    (h : ∀ Q ∈ qs, Q.id ≠ qid) : qs.find? (fun q => q.id == qid) = none := by
  rw [List.find?_eq_none]
  intro Q hQ
  simpa using h Q hQ

theorem includesLeadId_iff (leadIds : List Nat) (l : Lead) :
    includesLeadId leadIds l = true ↔ ∃ i ∈ leadIds, l.id = some i := by
  unfold includesLeadId
  cases h : l.id with
  | none => simp
  | some i => simp

/-- C1 (amended): with the default queue active, a numeric `callQueueDays` and a
threshold instant `now - callQueueDays` days that is a valid time value not after year
9999, `getQueueLeads` returns exactly the order-preserving filter of the leads by
"never called, or last called earlier than the threshold", for leads whose `lastCalled`
is absent or the ISO string of an instant in years 0000 to 9999; when `callQueueDays` is
`NaN` or the threshold is no valid time value, the result is empty. -/
theorem getQueueLeads_default_eq_spec (app : App) (now : Int) (leads : List Lead)
    (hq : app.currentQueue = QueueSel.default) :
    (∀ (days : Int) (calledAt : Lead → Option Int), app.config.callQueueDays = some days →
      -maxTimeValue ≤ now - days * msPerDay → now - days * msPerDay ≤ 253402300799999 →
      (∀ l ∈ leads, RecordsCall calledAt l) →
      getQueueLeads app now leads = specDefaultQueue calledAt days now leads) ∧
    (app.config.callQueueDays = none → getQueueLeads app now leads = []) ∧
    (∀ days : Int, app.config.callQueueDays = some days →
      (now - days * msPerDay < -maxTimeValue ∨ maxTimeValue < now - days * msPerDay) →
      getQueueLeads app now leads = []) := by
  refine ⟨?_, ?_, ?_⟩
  · intro days calledAt hd h1 h2 hl
    have hv : ¬ (now - days * msPerDay < -maxTimeValue ∨
        maxTimeValue < now - days * msPerDay) := by
      simp only [maxTimeValue] at *; omega
    have ht : toISOString (now - days * msPerDay) = some _ := if_neg hv
    rw [getQueueLeads_default app now days leads _ hq hd ht]
    unfold specDefaultQueue
    apply List.filter_congr
    intro l hmem
    exact defaultQueuePred_recordsCall (hl l hmem) h1 h2 ht
  · intro hd
    unfold getQueueLeads queueThreshold
    rw [hq, hd]
  · intro days hd hv
    have ht : toISOString (now - days * msPerDay) = none := if_pos hv
    unfold getQueueLeads
    rw [hq]
    simp only [queueThreshold_some _ _ _ hd, ht]

/-- C1 (as stated) fails in three ways.  With `callQueueDays = 200000000` the threshold
is no valid date, `toISOString` throws, the `catch` answers `[]`, and a never-called lead
is dropped although the specified filter keeps it.  With `callQueueDays = NaN` (a settings
field saved empty) the same happens.  With `callQueueDays = -3000000` the threshold lies
after year 9999, its ISO string starts with `+`, and a lead called earlier than the
threshold is not returned. -/
theorem getQueueLeads_default_not_spec :
    getQueueLeads { config := { callQueueDays := some 200000000 } } 1718000000000
        [{ id := some 1 }] ≠
      specDefaultQueue (fun _ => none) 200000000 1718000000000 [{ id := some 1 }] ∧
    getQueueLeads { config := { callQueueDays := none } } 1718000000000 [{ id := some 1 }] = [] ∧
    getQueueLeads { config := { callQueueDays := some (-3000000) } } 1718000000000
        [{ id := some 1, lastCalled := toISOString 1717395200000 }] ≠
      specDefaultQueue (fun _ => some 1717395200000) (-3000000) 1718000000000
        [{ id := some 1, lastCalled := toISOString 1717395200000 }] := by
  decide

/-- C2 (as stated) fails at the boundary: with `callQueueDays = 7`, a lead last called
exactly 7 days (604,800,000 ms) before `now` is not in the default queue. -/
theorem getQueueLeads_default_excludes_boundary :
    toISOString (1718000000000 - 7 * msPerDay) = some "2024-06-03T06:13:20.000Z" ∧
    ({ id := some 1, lastCalled := some "2024-06-03T06:13:20.000Z" } : Lead) ∉
      getQueueLeads { config := { callQueueDays := some 7 } } 1718000000000
        [{ id := some 1, lastCalled := some "2024-06-03T06:13:20.000Z" }] := by
  decide

/-- C2 (amended): for a threshold `now - callQueueDays` days that is a valid time value
not after year 9999 and a lead of the list last called at instant `c` (years 0000 to
9999), the lead is in the default queue exactly when `c` is strictly earlier than the
threshold: called strictly more than `callQueueDays` days ago it is a member, called
exactly `callQueueDays` days ago or less it is not. -/
theorem getQueueLeads_default_mem_iff (app : App) (now days c : Int) (l : Lead)
    (leads : List Lead)
    (hq : app.currentQueue = QueueSel.default) (hd : app.config.callQueueDays = some days)
    (h1 : -maxTimeValue ≤ now - days * msPerDay) (h2 : now - days * msPerDay ≤ 253402300799999)
    (hc : FourDigitYear c) (hl : l.lastCalled = toISOString c) (hmem : l ∈ leads) :
    l ∈ getQueueLeads app now leads ↔ c < now - days * msPerDay := by
  have hv : ¬ (now - days * msPerDay < -maxTimeValue ∨ maxTimeValue < now - days * msPerDay) := by
    simp only [maxTimeValue] at *; omega
  have ht : toISOString (now - days * msPerDay) = some _ := if_neg hv
  rw [getQueueLeads_default app now days leads _ hq hd ht, List.mem_filter]
  have hr : RecordsCall (fun _ => some c) l := ⟨hc, hl⟩
  rw [defaultQueuePred_recordsCall hr h1 h2 ht]
  simp [hmem]

/-- C3 (as stated) fails on order: for the queue with `leadIds = [2, 1]` the code returns
the leads in lead-list order (1 then 2), not in `leadIds` order (2 then 1). -/
theorem getQueueLeads_custom_not_leadIds_order :
    getQueueLeads
        { currentQueue := QueueSel.custom 5, customQueues := [{ id := 5, leadIds := [2, 1] }] }
        1718000000000 [{ id := some 1, company := some "Acme" }, { id := some 2, company := some "Bolt" }] =
      [{ id := some 1, company := some "Acme" }, { id := some 2, company := some "Bolt" }] ∧
    specCustomQueue [2, 1] [{ id := some 1, company := some "Acme" }, { id := some 2, company := some "Bolt" }] =
      [{ id := some 2, company := some "Bolt" }, { id := some 1, company := some "Acme" }] := by
  decide

/-- C3 (amended): with the active queue the id of the existing custom queue `Q`,
`getQueueLeads` returns the leads whose id is in `Q.leadIds`, each once and in the order
of the lead list; if no custom queue has the active id the result is empty. -/
theorem getQueueLeads_custom (app : App) (now : Int) (leads : List Lead) (qid : Nat)
    (hq : app.currentQueue = QueueSel.custom qid) :
    (∀ Q ∈ app.customQueues, Q.id = qid → (∀ Q' ∈ app.customQueues, Q'.id = qid → Q' = Q) →
      getQueueLeads app now leads = leads.filter (includesLeadId Q.leadIds) ∧
      (getQueueLeads app now leads).Sublist leads ∧
      ∀ l, l ∈ getQueueLeads app now leads ↔ l ∈ leads ∧ ∃ i ∈ Q.leadIds, l.id = some i) ∧
    ((∀ Q ∈ app.customQueues, Q.id ≠ qid) → getQueueLeads app now leads = []) := by
  constructor
  · intro Q hQ hid hu
    have hf := find?_customQueue hQ hid hu
    have he : getQueueLeads app now leads = leads.filter (includesLeadId Q.leadIds) := by
      unfold getQueueLeads
      rw [hq]
      simp only [hf]
    refine ⟨he, ?_, ?_⟩
    · rw [he]
      exact List.filter_sublist leads
    · intro l
      rw [he, List.mem_filter, includesLeadId_iff]
  · intro hn
    unfold getQueueLeads
    rw [hq]
    simp only [find?_customQueue_none hn]

/-- C4: for every lead list and every custom queue selection, `getQueueLeads` returns
a list (it is total) that is a sublist of the input leads; every lead in it is an
element of the input whose id occurs in the `leadIds` of a queue with the active id; an
id matching no lead contributes no element. -/
theorem getQueueLeads_custom_tolerant (app : App) (now : Int) (leads : List Lead) (qid : Nat)
    (hq : app.currentQueue = QueueSel.custom qid) :
    (getQueueLeads app now leads).Sublist leads ∧
    (∀ l ∈ getQueueLeads app now leads,
      l ∈ leads ∧ ∃ Q ∈ app.customQueues, Q.id = qid ∧ ∃ i ∈ Q.leadIds, l.id = some i) ∧
    (∀ i, (∀ l ∈ leads, l.id ≠ some i) → ∀ l ∈ getQueueLeads app now leads, l.id ≠ some i) := by
  have key : ∀ l ∈ getQueueLeads app now leads,
      l ∈ leads ∧ ∃ Q ∈ app.customQueues, Q.id = qid ∧ ∃ i ∈ Q.leadIds, l.id = some i := by
    intro l hl
    unfold getQueueLeads at hl
    rw [hq] at hl
    simp only at hl
    cases hf : app.customQueues.find? (fun q => q.id == qid) with
    | none => rw [hf] at hl; cases hl
    | some Q =>
      rw [hf] at hl
      simp only [List.mem_filter, includesLeadId_iff] at hl
      refine ⟨hl.1, Q, List.mem_of_find?_eq_some hf, ?_, hl.2⟩
      simpa using List.find?_some hf
  refine ⟨?_, key, ?_⟩
  · unfold getQueueLeads
    rw [hq]
    simp only
    cases app.customQueues.find? (fun q => q.id == qid) with
    | none => exact List.nil_sublist _
    | some Q => exact List.filter_sublist leads
  · intro i hi l hl
    exact hi l (key l hl).1

/-! ## The prospect pipeline -/

theorem finalizeProspects_getAllLeads (db : Db) (clock : Nat → String) :
    getAllLeads (finalizeProspects db clock) = getAllLeads db := by
  unfold finalizeProspects getAllLeads
  simp only
  split_ifs <;> rfl

/-- C5 (code defect): evaluated on `exampleDb`, which holds one finalized prospect
(Bolt) and whose lead store holds one lead: after `finalizeProspects` the list
`getAllLeads` reads is the same one lead; the lead built for Bolt went to the key
`'leads'` of the `config` store, which `getAllLeads` does not read. -/
theorem finalizeProspects_lead_store_unchanged :
    (getProspects exampleDb).filter (fun p => p.stage == "finalized") =
      [{ id := 12, stage := "finalized", company := some "Bolt", service := some "Welding",
         decision := some "approve" }] ∧
    getAllLeads exampleDb = [{ id := some 1, company := some "Zed" }] ∧
    getAllLeads (finalizeProspects exampleDb exampleClock) =
      [{ id := some 1, company := some "Zed" }] ∧
    (finalizeProspects exampleDb exampleClock).kvLeads =
      some [leadOfProspect "2024-06-10T06:13:20.000Z"
        { id := 12, stage := "finalized", company := some "Bolt", service := some "Welding",
          decision := some "approve" }] := by
  decide

theorem filter_finalized_eq_nil {ps : List Prospect} :
    (ps.filter (fun p => p.stage == "finalized")).length = 0 ↔
      ∀ p ∈ ps, p.stage ≠ "finalized" := by
  rw [List.length_eq_zero, List.filter_eq_nil_iff]
  simp

theorem getProspects_finalizeProspects (db : Db) (clock : Nat → String) :
    getProspects (finalizeProspects db clock) =
      (getProspects db).filter (fun p => p.stage != "finalized") := by
  unfold finalizeProspects
  simp only
  split_ifs with h
  · rw [filter_finalized_eq_nil] at h
    symm
    rw [List.filter_eq_self]
    intro p hp
    simpa using h p hp
  · rfl

/-- C6: after `finalizeProspects` the stored prospect list is the previous list with
exactly the prospects in stage `finalized` removed (so none remains and every other
prospect remains, unmodified and in order); with no prospect in stage `finalized` the
database is unchanged. -/
theorem finalizeProspects_prospects (db : Db) (clock : Nat → String) :
    getProspects (finalizeProspects db clock) =
        (getProspects db).filter (fun p => p.stage != "finalized") ∧
      (∀ p ∈ getProspects (finalizeProspects db clock), p.stage ≠ "finalized") ∧
      (∀ p ∈ getProspects db, p.stage ≠ "finalized" →
        p ∈ getProspects (finalizeProspects db clock)) ∧
      ((∀ p ∈ getProspects db, p.stage ≠ "finalized") → finalizeProspects db clock = db) := by
  have h1 := getProspects_finalizeProspects db clock
  refine ⟨h1, ?_, ?_, ?_⟩
  · intro p hp
    rw [h1, List.mem_filter] at hp
    simpa using hp.2
  · intro p hp hs
    rw [h1, List.mem_filter]
    exact ⟨hp, by simpa using hs⟩
  · intro h
    unfold finalizeProspects
    simp only
    rw [if_pos (filter_finalized_eq_nil.mpr h)]

theorem specLeadOf_leadOfProspect (now : String) (p : Prospect) :
    SpecLeadOf p (leadOfProspect now p) := by
  refine ⟨rfl, rfl, rfl, rfl, rfl, rfl, rfl, ?_, rfl, rfl⟩
  unfold leadOfProspect jsOr falsy
  cases h : p.industry with
  | none => simp
  | some s => by_cases hs : s = "" <;> simp [hs]

theorem forall₂_newLeadsFrom (clock : Nat → String) (i : Nat) (ps : List Prospect) :
    List.Forall₂ SpecLeadOf ps (newLeadsFrom clock i ps) := by
  induction ps generalizing i with
  | nil => exact List.Forall₂.nil
  | cons p ps ih => exact List.Forall₂.cons (specLeadOf_leadOfProspect _ p) (ih (i + 1))

/-- C7: the lead records `finalizeProspects` builds correspond, in order and one to
one, to the finalized prospects: company, website, state, contact, email, phone and notes
copied, industry the prospect's industry when non-empty and else its service,
`lastCalled` and `callOutcome` null; their number is the number of finalized prospects;
and they are what the operation appends to the stored lead array. -/
theorem finalizeProspects_newLeads (db : Db) (clock : Nat → String) :
    List.Forall₂ SpecLeadOf ((getProspects db).filter (fun p => p.stage == "finalized"))
        (newLeadsOf clock (getProspects db)) ∧
      (newLeadsOf clock (getProspects db)).length =
        ((getProspects db).filter (fun p => p.stage == "finalized")).length ∧
      ((∃ p ∈ getProspects db, p.stage = "finalized") →
        (finalizeProspects db clock).kvLeads =
          some (db.kvLeads.getD [] ++ newLeadsOf clock (getProspects db))) := by
  have h := forall₂_newLeadsFrom clock 0 ((getProspects db).filter (fun p => p.stage == "finalized"))
  refine ⟨h, h.length_eq.symm, ?_⟩
  rintro ⟨p, hp, hs⟩
  unfold finalizeProspects
  simp only
  rw [if_neg]
  · rfl
  · rw [filter_finalized_eq_nil]
    intro hall
    exact hall p hp hs

theorem getProspects_saveProspectReview {db : Db} {cid i : Nat} (form : ReviewForm)
    (hcid : cid ≠ 0) (hi : (getProspects db).findIdx? (fun p => p.id == cid) = some i) :
    getProspects (saveProspectReview db (some cid) form) =
      (getProspects db).modify (applyReview form) i := by
  unfold saveProspectReview
  simp only [hcid, if_false, hi]
  rfl

/-- C8: `saveProspectReview` on an existing (non-zero) prospect id rewrites the first
prospect carrying that id and no other: the list keeps its length, every other position
is unchanged, and the reviewed prospect keeps its identity and has the decision of the
form, with stage `finalized` for `approve` and `unqualified` for `reject`, whatever its
stage was. -/
theorem saveProspectReview_decision (db : Db) (cid : Nat) (form : ReviewForm)
    (hcid : cid ≠ 0) (hex : ∃ p ∈ getProspects db, p.id = cid) :
    ∃ (i : Nat) (p : Prospect), (getProspects db)[i]? = some p ∧ p.id = cid ∧
      (∀ j < i, ∀ q : Prospect, (getProspects db)[j]? = some q → q.id ≠ cid) ∧
      (getProspects (saveProspectReview db (some cid) form)).length =
        (getProspects db).length ∧
      (∀ j, j ≠ i →
        (getProspects (saveProspectReview db (some cid) form))[j]? = (getProspects db)[j]?) ∧
      ∃ q : Prospect, (getProspects (saveProspectReview db (some cid) form))[i]? = some q ∧
        q.id = cid ∧ q.company = p.company ∧ q.website = p.website ∧ q.state = p.state ∧
        q.decision = some form.decision ∧
        (form.decision = "approve" → q.stage = "finalized") ∧
        (form.decision = "reject" → q.stage = "unqualified") := by
  obtain ⟨p0, hp0, hid0⟩ := hex
  have hsome : (getProspects db).findIdx? (fun p => p.id == cid) =
      some ((getProspects db).findIdx (fun p => p.id == cid)) :=
    List.findIdx?_eq_some_of_exists ⟨p0, hp0, by simpa using hid0⟩
  obtain ⟨hlt, hpi, hmin⟩ := List.findIdx?_eq_some_iff_getElem.mp hsome
  generalize (getProspects db).findIdx (fun p => p.id == cid) = i at hsome hlt hpi hmin
  have hget : (getProspects db)[i]? = some ((getProspects db)[i]) := List.getElem?_eq_getElem hlt
  refine ⟨i, (getProspects db)[i], hget, by simpa using hpi, ?_, ?_, ?_, ?_⟩
  · intro j hj q hq
    have hjl : j < (getProspects db).length := lt_trans hj hlt
    have := hmin j hj
    rw [List.getElem?_eq_getElem hjl] at hq
    injection hq with hq
    subst hq
    simpa using this
  · rw [getProspects_saveProspectReview form hcid hsome, List.length_modify]
  · intro j hj
    rw [getProspects_saveProspectReview form hcid hsome, List.getElem?_modify_ne _ _ (Ne.symm hj)]
  · refine ⟨applyReview form (getProspects db)[i], ?_, by simpa [applyReview] using hpi, rfl, rfl,
      rfl, rfl, ?_, ?_⟩
    · rw [getProspects_saveProspectReview form hcid hsome, List.getElem?_modify_eq, hget]
      rfl
    · intro h
      simp [applyReview, h]
    · intro h
      have hne : form.decision ≠ "approve" := by rw [h]; decide
      simp [applyReview, h]

theorem getProspects_bulkApproveProspects (db : Db) (ids : List Nat) :
    getProspects (bulkApproveProspects db ids) =
      (getProspects db).map (approveIfSelected ids) := by
  unfold bulkApproveProspects
  split_ifs with h
  · have hnil : ids = [] := List.length_eq_zero.mp h
    subst hnil
    have hid : approveIfSelected [] = id := by
      funext p
      simp [approveIfSelected]
    rw [hid, List.map_id]
  · rfl

theorem getProspects_bulkRejectProspects (db : Db) (ids : List Nat) :
    getProspects (bulkRejectProspects db ids) =
      (getProspects db).map (rejectIfSelected ids) := by
  unfold bulkRejectProspects
  split_ifs with h
  · have hnil : ids = [] := List.length_eq_zero.mp h
    subst hnil
    have hid : rejectIfSelected [] = id := by
      funext p
      simp [rejectIfSelected]
    rw [hid, List.map_id]
  · rfl

theorem getProspects_bulkDeleteProspects (db : Db) (ids : List Nat) :
    getProspects (bulkDeleteProspects db ids true) =
      (getProspects db).filter (fun p => !ids.contains p.id) := by
  unfold bulkDeleteProspects
  simp only [if_true]
  split_ifs with h
  · have hnil : ids = [] := List.length_eq_zero.mp h
    subst hnil
    symm
    simp
  · rfl

theorem forall₂_map_self {α : Type} (R : α → α → Prop) (f : α → α) (l : List α)
    (h : ∀ a ∈ l, R a (f a)) : List.Forall₂ R l (l.map f) := by
  induction l with
  | nil => exact List.Forall₂.nil
  | cons a l ih =>
    exact List.Forall₂.cons (h a (List.mem_cons_self _ _))
      (ih (fun b hb => h b (List.mem_cons_of_mem _ hb)))

/-- C9: `bulkApproveProspects` (`bulkRejectProspects`) maps the prospect list position
by position: a prospect whose id is selected gets stage `finalized` and decision `approve`
(`unqualified` and `reject`), any other is unchanged, so length and order are kept;
a confirmed `bulkDeleteProspects` leaves the previous list without exactly the prospects
whose id is selected. -/
theorem bulk_transitions_exact (db : Db) (ids : List Nat) :
    List.Forall₂
        (fun p q => (p.id ∈ ids → q = { p with stage := "finalized", decision := some "approve" }) ∧
          (p.id ∉ ids → q = p))
        (getProspects db) (getProspects (bulkApproveProspects db ids)) ∧
      List.Forall₂
        (fun p q => (p.id ∈ ids → q = { p with stage := "unqualified", decision := some "reject" }) ∧
          (p.id ∉ ids → q = p))
        (getProspects db) (getProspects (bulkRejectProspects db ids)) ∧
      (getProspects (bulkApproveProspects db ids)).length = (getProspects db).length ∧
      (getProspects (bulkRejectProspects db ids)).length = (getProspects db).length ∧
      getProspects (bulkDeleteProspects db ids true) =
        (getProspects db).filter (fun p => decide (p.id ∉ ids)) := by
  refine ⟨?_, ?_, ?_, ?_, ?_⟩
  · rw [getProspects_bulkApproveProspects]
    apply forall₂_map_self
    intro p _
    unfold approveIfSelected
    by_cases h : p.id ∈ ids <;> simp [h]
  · rw [getProspects_bulkRejectProspects]
    apply forall₂_map_self
    intro p _
    unfold rejectIfSelected
    by_cases h : p.id ∈ ids <;> simp [h]
  · rw [getProspects_bulkApproveProspects, List.length_map]
  · rw [getProspects_bulkRejectProspects, List.length_map]
  · rw [getProspects_bulkDeleteProspects]
    apply List.filter_congr
    intro p _
    simp

/-! ## The stage invariant -/

theorem stage_stampProspects (stamp : Nat → Nat × String) (i : Nat) (l : List MappedProspect) :
    ∀ p ∈ stampProspects stamp i l, p.stage = "unreviewed" := by
  induction l generalizing i with
  | nil => intro p hp; cases hp
  | cons a l ih =>
    intro p hp
    rcases List.mem_cons.mp hp with h | h
    · rw [h]; rfl
    · exact ih (i + 1) p h

theorem stage_scrapedProspects (stamp : Nat → Nat × String) (i : Nat) (l : List ScrapedResult) :
    ∀ p ∈ scrapedProspects stamp i l, p.stage = "unreviewed" := by
  induction l generalizing i with
  | nil => intro p hp; cases hp
  | cons a l ih =>
    intro p hp
    rcases List.mem_cons.mp hp with h | h
    · rw [h]; rfl
    · exact ih (i + 1) p h

theorem mem_importCSVFiles (stamp : Nat → Nat → Nat × String) (k : Nat) (files : List String)
    (db : Db) :
    ∀ p ∈ getProspects (importCSVFiles stamp k files db),
      p ∈ getProspects db ∨ p.stage = "unreviewed" := by
  induction files generalizing k db with
  | nil => intro p hp; exact Or.inl hp
  | cons f files ih =>
    intro p hp
    unfold importCSVFiles at hp
    cases hparse : parseProspectCSV f with
    | none =>
      rw [hparse] at hp
      exact Or.inl hp
    | some prospects =>
      rw [hparse] at hp
      rcases ih (k + 1) _ p hp with h | h
      · have h' : p ∈ getProspects db ++ stampProspects (stamp k) 0 prospects := h
        rcases List.mem_append.mp h' with h1 | h1
        · exact Or.inl h1
        · exact Or.inr (stage_stampProspects _ _ _ p h1)
      · exact Or.inr h

theorem mem_importScrapedResults (db : Db) (results : List ScrapedResult)
    (stamp : Nat → Nat × String) :
    ∀ p ∈ getProspects (importScrapedResults db results stamp),
      p ∈ getProspects db ∨ p.stage = "unreviewed" := by
  intro p hp
  unfold importScrapedResults at hp
  split_ifs at hp
  · exact Or.inl hp
  · have h' : p ∈ getProspects db ++ scrapedProspects stamp 0 results := hp
    rcases List.mem_append.mp h' with h1 | h1
    · exact Or.inl h1
    · exact Or.inr (stage_scrapedProspects _ _ _ p h1)

theorem mem_modify {α : Type} (f : α → α) (l : List α) (i : Nat) :
    ∀ a ∈ l.modify f i, a ∈ l ∨ ∃ b ∈ l, a = f b := by
  induction l generalizing i with
  | nil => intro a ha; simp at ha
  | cons x l ih =>
    intro a ha
    cases i with
    | zero =>
      simp only [List.modify_zero_cons, List.mem_cons] at ha
      rcases ha with h | h
      · exact Or.inr ⟨x, List.mem_cons_self _ _, h⟩
      · exact Or.inl (List.mem_cons_of_mem _ h)
    | succ i =>
      simp only [List.modify_succ_cons, List.mem_cons] at ha
      rcases ha with h | h
      · exact Or.inl (h ▸ List.mem_cons_self _ _)
      · rcases ih i a h with h1 | ⟨b, hb, h1⟩
        · exact Or.inl (List.mem_cons_of_mem _ h1)
        · exact Or.inr ⟨b, List.mem_cons_of_mem _ hb, h1⟩

theorem validStage_applyReview (form : ReviewForm) (p : Prospect) (h : ValidStage p.stage) :
    ValidStage (applyReview form p).stage := by
  unfold applyReview
  simp only
  split_ifs
  · exact Or.inr (Or.inl rfl)
  · exact Or.inr (Or.inr rfl)
  · exact h

theorem stageInv_saveProspectReview (db : Db) (h : StageInv db) (current : Option Nat)
    (form : ReviewForm) : StageInv (saveProspectReview db current form) := by
  unfold saveProspectReview
  cases current with
  | none => exact h
  | some cid =>
    simp only
    split_ifs
    · exact h
    · cases hf : (getProspects db).findIdx? (fun p => p.id == cid) with
      | none => exact h
      | some i =>
        intro p hp
        have hp' : p ∈ (getProspects db).modify (applyReview form) i := hp
        rcases mem_modify _ _ _ p hp' with h1 | ⟨b, hb, h1⟩
        · exact h p h1
        · rw [h1]
          exact validStage_applyReview form b (h b hb)

theorem length_filter_stage (ps : List Prospect) (h : ∀ p ∈ ps, ValidStage p.stage) :
    (ps.filter (fun p => p.stage == "unreviewed")).length +
        (ps.filter (fun p => p.stage == "finalized")).length +
        (ps.filter (fun p => p.stage == "unqualified")).length = ps.length := by
  induction ps with
  | nil => rfl
  | cons p ps ih =>
    have ih' := ih (fun q hq => h q (List.mem_cons_of_mem _ hq))
    have hp := h p (List.mem_cons_self _ _)
    simp only [List.filter_cons, List.length_cons]
    rcases hp with hp | hp | hp <;> rw [hp] <;> simp <;> omega

theorem stageInv_filter (db : Db) (h : StageInv db) (f : Prospect → Bool) (db1 : Db)
    (h1 : getProspects db1 = (getProspects db).filter f) : StageInv db1 := by
  intro p hp
  rw [h1] at hp
  exact h p (List.mem_of_mem_filter hp)

/-- C10: if every stored prospect has a stage among `unreviewed`, `finalized`,
`unqualified`, this still holds after each pipeline operation (CSV import, scraper
import, `saveProspectReview` with any current id and any form values, the three bulk
operations, `deleteProspect`, `finalizeProspects`, `deleteAllProspects`); every prospect
an import adds has stage `unreviewed`, whatever the Status column says; and the three
counts of `updateProspectingPipeline` sum to the number of prospects. -/
theorem stage_invariant_preserved (db : Db) (h : StageInv db) :
    (∀ files stamp, StageInv (handleProspectCSVFile db files stamp)) ∧
    (∀ results stamp, StageInv (importScrapedResults db results stamp)) ∧
    (∀ current form, StageInv (saveProspectReview db current form)) ∧
    (∀ ids, StageInv (bulkApproveProspects db ids)) ∧
    (∀ ids, StageInv (bulkRejectProspects db ids)) ∧
    (∀ ids confirmed, StageInv (bulkDeleteProspects db ids confirmed)) ∧
    (∀ id confirmed, StageInv (deleteProspect db id confirmed)) ∧
    (∀ clock, StageInv (finalizeProspects db clock)) ∧
    (∀ confirmed, StageInv (deleteAllProspects db confirmed)) ∧
    (∀ files stamp, ∀ p ∈ getProspects (handleProspectCSVFile db files stamp),
      p ∈ getProspects db ∨ p.stage = "unreviewed") ∧
    (∀ results stamp, ∀ p ∈ getProspects (importScrapedResults db results stamp),
      p ∈ getProspects db ∨ p.stage = "unreviewed") ∧
    (updateProspectingPipeline (getProspects db)).unreviewed +
        (updateProspectingPipeline (getProspects db)).finalized +
        (updateProspectingPipeline (getProspects db)).unqualified = (getProspects db).length := by
  refine ⟨?_, ?_, ?_, ?_, ?_, ?_, ?_, ?_, ?_, ?_, ?_, ?_⟩
  · intro files stamp p hp
    rcases mem_importCSVFiles stamp 0 files db p hp with h1 | h1
    · exact h p h1
    · exact Or.inl h1
  · intro results stamp p hp
    rcases mem_importScrapedResults db results stamp p hp with h1 | h1
    · exact h p h1
    · exact Or.inl h1
  · exact stageInv_saveProspectReview db h
  · intro ids p hp
    rw [getProspects_bulkApproveProspects, List.mem_map] at hp
    obtain ⟨a, ha, rfl⟩ := hp
    unfold approveIfSelected
    split_ifs
    · exact Or.inr (Or.inl rfl)
    · exact h a ha
  · intro ids p hp
    rw [getProspects_bulkRejectProspects, List.mem_map] at hp
    obtain ⟨a, ha, rfl⟩ := hp
    unfold rejectIfSelected
    split_ifs
    · exact Or.inr (Or.inr rfl)
    · exact h a ha
  · intro ids confirmed
    cases confirmed with
    | true => exact stageInv_filter db h _ _ (getProspects_bulkDeleteProspects db ids)
    | false =>
      unfold bulkDeleteProspects
      simp only [Bool.false_eq_true, if_false, ite_self]
      exact h
  · intro id confirmed
    unfold deleteProspect
    split_ifs
    · exact stageInv_filter db h (fun p => p.id != id) _ rfl
    · exact h
  · intro clock
    exact stageInv_filter db h _ _ (getProspects_finalizeProspects db clock)
  · intro confirmed
    unfold deleteAllProspects
    split_ifs
    · exact h
    · intro p hp
      cases hp
    · exact h
  · exact fun files stamp => mem_importCSVFiles stamp 0 files db
  · exact fun results stamp => mem_importScrapedResults db results stamp
  · exact length_filter_stage _ h

/-! ## Operations on unknown prospect ids -/

theorem findIdx?_unknown {ps : List Prospect} {cid : Nat} (h : ∀ p ∈ ps, p.id ≠ cid) :
    ps.findIdx? (fun p => p.id == cid) = none := by
  rw [List.findIdx?_eq_none_iff]
  intro p hp
  simpa using h p hp

theorem map_approveIfSelected_unknown {ps : List Prospect} {ids : List Nat}
    (h : ∀ p ∈ ps, p.id ∉ ids) : ps.map (approveIfSelected ids) = ps := by
  conv_rhs => rw [← List.map_id ps]
  apply List.map_congr_left
  intro p hp
  simp [approveIfSelected, h p hp]

theorem map_rejectIfSelected_unknown {ps : List Prospect} {ids : List Nat}
    (h : ∀ p ∈ ps, p.id ∉ ids) : ps.map (rejectIfSelected ids) = ps := by
  conv_rhs => rw [← List.map_id ps]
  apply List.map_congr_left
  intro p hp
  simp [rejectIfSelected, h p hp]

/-- C11: a prospect operation on an id that no stored prospect carries leaves the stored
prospect list as it was: `saveProspectReview` with an unknown (or no) current id writes
nothing at all; `deleteProspect`, `bulkApproveProspects`, `bulkRejectProspects` and
`bulkDeleteProspects` with unknown ids store the same list again.  All are total. -/
theorem unknown_id_noop (db : Db) :
    (∀ (cid : Nat) (form : ReviewForm), (∀ p ∈ getProspects db, p.id ≠ cid) →
      saveProspectReview db (some cid) form = db) ∧
    (∀ form : ReviewForm, saveProspectReview db none form = db) ∧
    (∀ (id : Nat) (confirmed : Bool), (∀ p ∈ getProspects db, p.id ≠ id) →
      getProspects (deleteProspect db id confirmed) = getProspects db) ∧
    (∀ ids : List Nat, (∀ p ∈ getProspects db, p.id ∉ ids) →
      getProspects (bulkApproveProspects db ids) = getProspects db ∧
      getProspects (bulkRejectProspects db ids) = getProspects db ∧
      ∀ confirmed : Bool, getProspects (bulkDeleteProspects db ids confirmed) = getProspects db) := by
  refine ⟨?_, ?_, ?_, ?_⟩
  · intro cid form h
    unfold saveProspectReview
    simp only [findIdx?_unknown h]
    split_ifs <;> rfl
  · intro form
    rfl
  · intro id confirmed h
    unfold deleteProspect
    split_ifs
    · show (getProspects db).filter (fun p => p.id != id) = getProspects db
      rw [List.filter_eq_self]
      intro p hp
      simpa using h p hp
    · rfl
  · intro ids h
    refine ⟨?_, ?_, ?_⟩
    · rw [getProspects_bulkApproveProspects, map_approveIfSelected_unknown h]
    · rw [getProspects_bulkRejectProspects, map_rejectIfSelected_unknown h]
    · intro confirmed
      cases confirmed with
      | true =>
        rw [getProspects_bulkDeleteProspects, List.filter_eq_self]
        intro p hp
        simpa using h p hp
      | false =>
        unfold bulkDeleteProspects
        simp only [Bool.false_eq_true, if_false, ite_self]

/-! ## Call logging -/

theorem getLeadById_putRecord_of_mem {leads : List Lead} {key : Nat} {old : Lead} (record : Lead)
    (hr : record.id = some key)
    (h : leads.find? (fun l => l.id == some key) = some old) :
    putRecord leads key record =
        leads.map (fun l => if l.id == some key then record else l) ∧
      (putRecord leads key record).find? (fun l => l.id == some key) = some record := by
  have hany : leads.any (fun l => l.id == some key) = true := by
    rw [List.any_eq_true]
    exact ⟨old, List.mem_of_find?_eq_some h, by simpa using List.find?_some h⟩
  have he : putRecord leads key record =
      leads.map (fun l => if l.id == some key then record else l) := by
    unfold putRecord
    rw [if_pos hany]
  refine ⟨he, ?_⟩
  rw [he]
  clear he hany
  induction leads with
  | nil => simp at h
  | cons a l ih =>
    by_cases ha : a.id = some key
    · simp [List.find?, ha, hr]
    · have hb : (a.id == some key) = false := by simpa using ha
      rw [List.find?_cons, hb] at h
      simp only [List.map_cons, hb, Bool.false_eq_true, if_false, List.find?_cons]
      exact ih h

/-- A successful `saveCallCompletion` stores the current lead with a new `lastCalled` and
nothing else changed: `callOutcome` and `notes` stay what they were. -/
theorem saveCallCompletion_stored_lead (s : CallMode) (db : Db) (form : CompletionForm)
    (env : CompletionEnv) (currentLead old : Lead) (key : Nat) (ho : form.outcome ≠ "")
    (hc : s.callModeLeads.get? s.callModeCurrentLeadIndex = some currentLead)
    (hk : currentLead.id = some key) (hold : getLeadById db key = some old)
    (h1 : env.saveLogOk = true) (h2 : env.updateOk = true) :
    getLeadById (saveCallCompletion s db form env).2 key =
        some { currentLead with lastCalled := some env.callTime } ∧
      (saveCallCompletion s db form env).2.callLogs =
        db.callLogs ++ [callLogOf currentLead form env] := by
  unfold saveCallCompletion
  rw [if_neg ho]
  simp only [hc, h1, h2, Bool.true_eq_false, if_false]
  refine ⟨?_, rfl⟩
  unfold updateLead getLeadById
  simp only [hk, Option.getD_some]
  have hrec : ({ currentLead with lastCalled := some env.callTime, id := some key } : Lead) =
      { currentLead with lastCalled := some env.callTime } := by
    rw [← hk]
  rw [hrec]
  exact (getLeadById_putRecord_of_mem { currentLead with lastCalled := some env.callTime } hk hold).2

/-- C12 (code defect): the specification's example call, evaluated.  On `exampleSession`
(cursor on Acme) a successful `saveCallCompletion` with outcome `meeting_set` and notes
`demo interest` stores Acme with the new `lastCalled`, but with `callOutcome` still null
and the notes journal unchanged; outcome and notes go to the call log only; the cursor
moves on to 1.  The sibling operation `saveCallNotes` on the same lead writes
`callOutcome` and the `[MEETING_SET]` journal entry. -/
theorem saveCallCompletion_keeps_outcome_and_notes :
    (saveCallCompletion exampleSession exampleCallDb exampleCompletion exampleEnv).2.leads =
      [{ id := some 1, company := some "Acme", notes := some "first contact",
         lastCalled := some "2024-06-10T06:13:20.001Z", callOutcome := none },
       { id := some 2, company := some "Bolt" }] ∧
    (saveCallCompletion exampleSession exampleCallDb exampleCompletion exampleEnv).2.callLogs =
      [{ id := "call-1718000000000", leadId := some 1, leadName := some "Acme",
         outcome := "meeting_set", notes := "demo interest", followUpDate := some "2024-06-01",
         nextAction := "follow_up", timestamp := "2024-06-10T06:13:20.000Z", duration := 0 }] ∧
    (saveCallCompletion exampleSession exampleCallDb exampleCompletion
      exampleEnv).1.callModeCurrentLeadIndex = 1 ∧
    (saveCallNotes exampleCallDb (some 1)
        { callNotesText := "demo interest", callOutcome := "meeting_set",
          meetingDate := "2024-06-01", meetingTime := "10:00" }
        "2024-06-10T06:13:20.001Z").leads =
      [{ id := some 1, company := some "Acme",
         notes := some ("first contact\n\n2024-06-10T06:13:20.001Z [MEETING_SET]: demo interest" ++
           "\nMeeting: 2024-06-01 at 10:00"),
         lastCalled := some "2024-06-10T06:13:20.001Z", callOutcome := some "meeting_set",
         meetingData := some
           { date := "2024-06-01", time := "10:00", notes := "", googleCalendarLink := "",
             status := "upcoming", createdAt := "2024-06-10T06:13:20.001Z" } },
       { id := some 2, company := some "Bolt" }] := by
  decide

theorem saveCallNotes_success {db : Db} {id : Nat} {lead : Lead} (form : CallNotesForm)
    (now : String) (ho : form.callOutcome ≠ "")
    (hm : form.callOutcome = "meeting_set" → form.meetingDate ≠ "" ∧ form.meetingTime ≠ "")
    (hl : getLeadById db id = some lead) :
    saveCallNotes db (some id) form now =
      updateLead db (some id) (loggedLead lead form now) 0 := by
  unfold saveCallNotes
  rw [if_neg ho]
  simp only [hl]
  rw [if_neg]
  · rfl
  · rintro ⟨h1, h2⟩
    have := hm h1
    tauto

theorem callEntryOf_head (form : CallNotesForm) (now : String) :
    ∃ rest, callEntryOf form now = callEntryHead form now ++ rest := by
  unfold callEntryOf
  split_ifs
  · exact ⟨meetingLines form, rfl⟩
  · exact ⟨"", by simp⟩

/-- C13: `saveCallNotes` with a non-empty outcome (and, for `meeting_set`, a meeting date
and time) on a stored lead replaces that lead's record and no other: `lastCalled` is `now`,
`callOutcome` the outcome, `notes` the entry when the previous notes were empty and else
the previous notes, two newlines and the entry, the entry beginning with
`now [OUTCOME]: notes` (the trimmed text); the previous notes are a prefix of the new;
every field other than `lastCalled`, `callOutcome`, `notes`, `meetingData` is unchanged. -/
theorem saveCallNotes_writes_lead (db : Db) (id : Nat) (lead : Lead) (form : CallNotesForm)
    (now : String) (ho : form.callOutcome ≠ "")
    (hm : form.callOutcome = "meeting_set" → form.meetingDate ≠ "" ∧ form.meetingTime ≠ "")
    (hl : getLeadById db id = some lead) :
    ∃ (written : Lead) (entry rest : String),
      getLeadById (saveCallNotes db (some id) form now) id = some written ∧
      getAllLeads (saveCallNotes db (some id) form now) =
        (getAllLeads db).map (fun l => if l.id = some id then written else l) ∧
      written.lastCalled = some now ∧ written.callOutcome = some form.callOutcome ∧
      entry = now ++ " [" ++ jsToUpperCase form.callOutcome ++ "]: " ++
        jsTrim form.callNotesText ++ rest ∧
      written.notes = some (if falsy lead.notes then entry
        else orEmpty lead.notes ++ "\n\n" ++ entry) ∧
      (∃ suffix, written.notes = some (orEmpty lead.notes ++ suffix)) ∧
      written = { lead with lastCalled := written.lastCalled, callOutcome := written.callOutcome,
                            notes := written.notes, meetingData := written.meetingData } := by
  have hid : lead.id = some id := by
    have := List.find?_some hl
    simpa using this
  have hrec : ({ loggedLead lead form now with id := some id } : Lead) = loggedLead lead form now := by
    rw [← hid]
    rfl
  have hput := getLeadById_putRecord_of_mem (loggedLead lead form now) (by simpa [loggedLead] using hid) hl
  obtain ⟨rest, hrest⟩ := callEntryOf_head form now
  refine ⟨loggedLead lead form now, callEntryOf form now, rest, ?_, ?_, rfl, rfl, ?_, ?_, ?_, rfl⟩
  · rw [saveCallNotes_success form now ho hm hl]
    unfold updateLead getLeadById
    simp only [Option.getD_some, hrec]
    exact hput.2
  · rw [saveCallNotes_success form now ho hm hl]
    unfold updateLead getAllLeads
    simp only [Option.getD_some, hrec]
    rw [hput.1]
    apply List.map_congr_left
    intro l _
    simp
  · rw [hrest]
    rfl
  · show some (updatedNotesOf lead.notes (callEntryOf form now)) = _
    unfold updatedNotesOf falsy orEmpty
    cases lead.notes with
    | none => simp
    | some n => by_cases hn : n = "" <;> simp [hn]
  · show ∃ suffix, some (updatedNotesOf lead.notes (callEntryOf form now)) = _
    unfold updatedNotesOf orEmpty
    cases lead.notes with
    | none => exact ⟨callEntryOf form now, by simp⟩
    | some n =>
      by_cases hn : n = ""
      · exact ⟨callEntryOf form now, by simp [hn]⟩
      · exact ⟨"\n\n" ++ callEntryOf form now, by simp [hn, String.append_assoc]⟩

/-- C14: with an empty outcome `saveCallCompletion` returns the session (cursor
included) and the database (call logs and leads included) unchanged, and `saveCallNotes`
returns the database unchanged. -/
theorem empty_outcome_changes_nothing (s : CallMode) (db : Db) (form : CompletionForm)
    (env : CompletionEnv) (currentLeadId : Option Nat) (notesForm : CallNotesForm)
    (now : String) :
    saveCallCompletion s db { form with outcome := "" } env = (s, db) ∧
      saveCallNotes db currentLeadId { notesForm with callOutcome := "" } now = db := by
  constructor
  · unfold saveCallCompletion
    simp
  · unfold saveCallNotes
    simp

/-! ## Call mode -/

theorem callModeThreshold_some (cfg : Config) (now days : Int)
    (hd : cfg.callQueueDays = some days) (h1 : -maxTimeValue ≤ now - days * msPerDay)
    (h2 : now - days * msPerDay ≤ maxTimeValue) :
    callModeThreshold cfg now = some (now - days * msPerDay) := by
  unfold callModeThreshold timeClip
  rw [hd]
  have e : now - days * 24 * 60 * 60 * 1000 = now - days * msPerDay := by
    simp only [msPerDay]; ring
  simp only [e]
  rw [if_neg]
  simp only [maxTimeValue] at *
  omega

theorem callModePred_recordsCall {parseDate : String → Option Int}
    {calledAt : Lead → Option Int} {l : Lead} {cfg : Config} {now days : Int}
    (hd : cfg.callQueueDays = some days) (h1 : -maxTimeValue ≤ now - days * msPerDay)
    (h2 : now - days * msPerDay ≤ maxTimeValue)
    (hl : RecordsCall calledAt l) (hp : ReadsCall parseDate calledAt l) :
    callModePred parseDate cfg now l =
      (match calledAt l with
       | none => true
       | some c => decide (c < now - days * msPerDay)) := by
  unfold RecordsCall at hl
  unfold ReadsCall at hp
  unfold callModePred
  rw [callModeThreshold_some cfg now days hd h1 h2]
  cases hc : calledAt l with
  | none =>
    rw [hc] at hl
    simp only at hl ⊢
    simp [hl]
  | some c =>
    rw [hc] at hl hp
    simp only at hl hp ⊢
    obtain ⟨_, hs⟩ := hl
    cases hiso : toISOString c with
    | none =>
      rw [hiso] at hs
      rw [hs] at hp
      cases hp
    | some s =>
      rw [hiso] at hs
      rw [hs] at hp ⊢
      change parseDate s = some c at hp
      rw [falsy_toISOString hiso]
      simp only [hp, Bool.false_or]

theorem enterCallMode_leads (parseDate : String → Option Int) (cfg : Config) (now : Int)
    (db : Db) (s : CallMode) :
    (enterCallMode parseDate cfg now db s).callModeLeads =
      (getAllLeads db).filter (callModePred parseDate cfg now) := by
  unfold enterCallMode
  simp only
  split_ifs <;> rfl

/-- C15 (as stated) fails for a custom queue: with `exampleQueue` active (lead ids 3, 9,
1) and two never-called leads 1 and 2, `getQueueLeads` returns lead 1 only, while
`enterCallMode`, which does not read the queue selection, installs leads 1 and 2. -/
theorem enterCallMode_ignores_custom_queue :
    getQueueLeads exampleQueueApp 1718000000000
        [{ id := some 1, company := some "Acme" }, { id := some 2, company := some "Bolt" }] =
      [{ id := some 1, company := some "Acme" }] ∧
    (enterCallMode (fun _ => none) exampleQueueApp.config 1718000000000
        { leads := [{ id := some 1, company := some "Acme" },
                    { id := some 2, company := some "Bolt" }] } {}).callModeLeads =
      [{ id := some 1, company := some "Acme" }, { id := some 2, company := some "Bolt" }] := by
  decide

/-- C15 (amended): `enterCallMode` installs the time-threshold filter of all leads,
whatever queue is selected; with the default queue selected, a numeric `callQueueDays`, a
threshold that is a valid time value not after year 9999 and leads whose `lastCalled` is
absent or the ISO string of an instant in years 0000 to 9999 (which the date parser reads
back), that is the sequence `getQueueLeads` returns for the same leads, configuration and
clock reading. -/
theorem enterCallMode_default_queue (parseDate : String → Option Int) (app : App) (now : Int)
    (db : Db) (s : CallMode) (days : Int) (calledAt : Lead → Option Int)
    (hd : app.config.callQueueDays = some days)
    (h1 : -maxTimeValue ≤ now - days * msPerDay) (h2 : now - days * msPerDay ≤ 253402300799999)
    (hl : ∀ l ∈ getAllLeads db, RecordsCall calledAt l ∧ ReadsCall parseDate calledAt l) :
    (enterCallMode parseDate app.config now db s).callModeLeads =
        specDefaultQueue calledAt days now (getAllLeads db) ∧
      (app.currentQueue = QueueSel.default →
        (enterCallMode parseDate app.config now db s).callModeLeads =
          getQueueLeads app now (getAllLeads db)) := by
  have h2' : now - days * msPerDay ≤ maxTimeValue := by
    simp only [maxTimeValue]; omega
  have hspec : (enterCallMode parseDate app.config now db s).callModeLeads =
      specDefaultQueue calledAt days now (getAllLeads db) := by
    rw [enterCallMode_leads]
    unfold specDefaultQueue
    apply List.filter_congr
    intro l hmem
    exact callModePred_recordsCall hd h1 h2' (hl l hmem).1 (hl l hmem).2
  refine ⟨hspec, ?_⟩
  intro hq
  rw [hspec]
  have hv : ¬ (now - days * msPerDay < -maxTimeValue ∨ maxTimeValue < now - days * msPerDay) := by
    simp only [maxTimeValue] at *; omega
  have ht : toISOString (now - days * msPerDay) = some _ := if_neg hv
  rw [getQueueLeads_default app now days _ _ hq hd ht]
  unfold specDefaultQueue
  symm
  apply List.filter_congr
  intro l hmem
  exact defaultQueuePred_recordsCall (hl l hmem).1 h1 h2 ht

theorem sessionInv_enterCallMode (parseDate : String → Option Int) (cfg : Config) (now : Int)
    (db : Db) (s : CallMode) (h : s.callModeActive = false) :
    SessionInv (enterCallMode parseDate cfg now db s) := by
  unfold enterCallMode SessionInv
  simp only
  split_ifs with hlen
  · intro ha
    simp [h] at ha
  · intro _
    exact ⟨fun hn => hlen (List.length_eq_zero.mpr hn), Nat.pos_of_ne_zero hlen⟩

theorem sessionInv_nextLead (s : CallMode) (h : SessionInv s) : SessionInv (callModeNextLead s) := by
  unfold callModeNextLead SessionInv at *
  split_ifs with hc
  · intro ha
    refine ⟨(h ha).1, ?_⟩
    show s.callModeCurrentLeadIndex + 1 < s.callModeLeads.length
    omega
  · exact h

theorem sessionInv_nextLeadOrCycle (s : CallMode) (h : SessionInv s) :
    SessionInv (callModeNextLeadOrCycle s) := by
  unfold callModeNextLeadOrCycle SessionInv at *
  split_ifs with hc
  · intro ha
    refine ⟨(h ha).1, ?_⟩
    show s.callModeCurrentLeadIndex + 1 < s.callModeLeads.length
    omega
  · intro ha
    refine ⟨(h ha).1, ?_⟩
    show 0 < s.callModeLeads.length
    have := (h ha).2
    omega

theorem sessionInv_previousLead (s : CallMode) (h : SessionInv s) :
    SessionInv (callModePreviousLead s) := by
  unfold callModePreviousLead SessionInv at *
  split_ifs with hc
  · intro ha
    refine ⟨(h ha).1, ?_⟩
    show s.callModeCurrentLeadIndex - 1 < s.callModeLeads.length
    have := (h ha).2
    omega
  · exact h

theorem roundHalfEven_le (x : ℚ) : (roundHalfEven x : ℚ) ≤ x + 1 / 2 := by
  unfold roundHalfEven
  have h1 := Int.floor_le x
  have h2 := Int.lt_floor_add_one x
  split_ifs with a b c
  · linarith
  · push_cast; linarith
  · linarith
  · push_cast; linarith

theorem roundHalfEven_nonneg {x : ℚ} (h : 0 ≤ x) : 0 ≤ roundHalfEven x := by
  unfold roundHalfEven
  have h1 : 0 ≤ Int.floor x := Int.floor_nonneg.mpr h
  split_ifs <;> omega

theorem roundHalfEven_intCast (m : ℤ) : roundHalfEven (m : ℚ) = m := by
  unfold roundHalfEven
  simp

theorem two_zpow_pos (q : ℤ) : (0 : ℚ) < 2 ^ q := zpow_pos (by norm_num) q

theorem two_zpow_ulpExponent_lt {x : ℚ} (hx : 0 < x) {n : ℚ} (h1 : 1 ≤ n) (hxn : x < n) :
    (2 : ℚ) ^ (ulpExponent x + 52) < n := by
  unfold ulpExponent
  rcases le_total (Int.log 2 x - 52) (-1074) with h | h
  · rw [max_eq_right h]
    have : (2 : ℚ) ^ ((-1074 : ℤ) + 52) < 1 := by
      apply zpow_lt_one_of_neg₀ (by norm_num) (by norm_num)
    linarith
  · rw [max_eq_left h]
    have e : Int.log 2 x - 52 + 52 = Int.log 2 x := by ring
    rw [e]
    have := Int.zpow_log_le_self (b := 2) (by norm_num) hx
    have h2 : ((2 : ℕ) : ℚ) = 2 := by norm_num
    rw [h2] at this
    linarith

theorem toDouble_nonneg {x : ℚ} (h : 0 ≤ x) : 0 ≤ toDouble x := by
  unfold toDouble
  split_ifs with h0 h1
  · exact le_refl _
  · apply mul_nonneg
    · exact_mod_cast roundHalfEven_nonneg (div_nonneg h (le_of_lt (two_zpow_pos _)))
    · exact le_of_lt (two_zpow_pos _)
  · exfalso
    rcases lt_or_eq_of_le h with h2 | h2
    · exact h1 h2
    · exact h0 h2.symm

/-- The double product of a number of [0, 1 - 2^-53] and a number n >= 1 is below n. -/
theorem toDouble_mul_lt {r n : ℚ} (h0 : 0 ≤ r) (h1 : r ≤ 1 - 1 / 2 ^ 53) (hn : 1 ≤ n) :
    toDouble (r * n) < n := by
  have hnpos : 0 < n := by linarith
  have hx0 : 0 ≤ r * n := mul_nonneg h0 (le_of_lt hnpos)
  have hgap : n / 2 ^ 53 ≤ n - r * n := by
    have : r * n ≤ (1 - 1 / 2 ^ 53) * n := mul_le_mul_of_nonneg_right h1 (le_of_lt hnpos)
    have e : (1 - 1 / 2 ^ 53) * n = n - n / 2 ^ 53 := by ring
    linarith
  have hxn : r * n < n := by
    have : 0 < n / 2 ^ 53 := by positivity
    linarith
  unfold toDouble
  split_ifs with hz hp
  · exact hnpos
  · have hu := two_zpow_pos (ulpExponent (r * n))
    have hlt := two_zpow_ulpExponent_lt hp hn hxn
    have hr := roundHalfEven_le (r * n / 2 ^ ulpExponent (r * n))
    have hmul := mul_le_mul_of_nonneg_right hr (le_of_lt hu)
    have e1 : (r * n / 2 ^ ulpExponent (r * n) + 1 / 2) * 2 ^ ulpExponent (r * n) =
        r * n + 2 ^ ulpExponent (r * n) / 2 := by
      field_simp
      ring
    rw [e1] at hmul
    have e2 : (2 : ℚ) ^ (ulpExponent (r * n) + 52) = 2 ^ ulpExponent (r * n) * 2 ^ 52 := by
      rw [zpow_add₀ (by norm_num)]
      norm_cast
    rw [e2] at hlt
    have e3 : (2 : ℚ) ^ ulpExponent (r * n) / 2 < n / 2 ^ 53 := by
      rw [div_lt_div_iff₀ (by norm_num) (by positivity)]
      have : (2 : ℚ) ^ 53 = 2 ^ 52 * 2 := by norm_num
      rw [this]
      nlinarith
    linarith
  · exfalso
    rcases lt_or_eq_of_le hx0 with h2 | h2
    · exact hp h2
    · exact hz h2.symm

/-- A double below one is at most `1 - 2^-53`. -/
theorem le_of_toDouble_eq {r : ℚ} (h0 : 0 ≤ r) (h1 : r < 1) (hd : toDouble r = r) :
    r ≤ 1 - 1 / 2 ^ 53 := by
  rcases lt_or_eq_of_le h0 with hp | hz
  · have hlog : Int.log 2 r < 0 := by
      have := (Int.lt_zpow_iff_log_lt (b := 2) (by norm_num) hp (x := 0)).mp (by simpa using h1)
      exact this
    rcases lt_or_le (Int.log 2 r) (-1) with h2 | h2
    · have := Int.lt_zpow_succ_log_self (b := 2) (by norm_num) r
      have hle : (2 : ℚ) ^ (Int.log 2 r + 1) ≤ 2 ^ (-1 : ℤ) :=
        zpow_le_zpow_right₀ (by norm_num) (by omega)
      have h3 : ((2 : ℕ) : ℚ) = 2 := by norm_num
      rw [h3] at this
      have h4 : (2 : ℚ) ^ (-1 : ℤ) = 1 / 2 := by norm_num
      rw [h4] at hle
      have : (1 : ℚ) / 2 ≤ 1 - 1 / 2 ^ 53 := by norm_num
      linarith
    · have hl : Int.log 2 r = -1 := by omega
      have hq : ulpExponent r = -53 := by
        unfold ulpExponent
        rw [hl]
        norm_num
      unfold toDouble at hd
      rw [if_neg (ne_of_gt hp), if_pos hp, hq] at hd
      have hu : (2 : ℚ) ^ (-53 : ℤ) = 1 / 2 ^ 53 := by
        rw [zpow_neg]
        norm_num
      rw [hu] at hd
      set M := roundHalfEven (r / (1 / 2 ^ 53)) with hM
      have hlt : (M : ℚ) < 2 ^ 53 := by
        have : (M : ℚ) * (1 / 2 ^ 53) < 1 := by rw [hd]; exact h1
        have h5 : (0 : ℚ) < 2 ^ 53 := by positivity
        rw [mul_one_div, div_lt_one h5] at this
        exact this
      have hlt' : M < 2 ^ 53 := by exact_mod_cast hlt
      have hle : M ≤ 2 ^ 53 - 1 := by omega
      have hle' : (M : ℚ) ≤ 2 ^ 53 - 1 := by exact_mod_cast hle
      rw [← hd]
      have h5 : (0 : ℚ) < 1 / 2 ^ 53 := by positivity
      have := mul_le_mul_of_nonneg_right hle' (le_of_lt h5)
      have e : ((2 : ℚ) ^ 53 - 1) * (1 / 2 ^ 53) = 1 - 1 / 2 ^ 53 := by
        field_simp
      linarith
  · rw [← hz]
    norm_num

theorem ulpExponent_of_bounds {x : ℚ} (e : ℤ) (hx : 0 < x) (h1 : 2 ^ e ≤ x)
    (h2 : x < 2 ^ (e + 1)) : ulpExponent x = max (e - 52) (-1074) := by
  have hb : ((2 : ℕ) : ℚ) = 2 := by norm_num
  have a1 : e ≤ Int.log 2 x :=
    (Int.zpow_le_iff_le_log (b := 2) (by norm_num) hx).mp (by rw [hb]; exact h1)
  have a2 : Int.log 2 x < e + 1 :=
    (Int.lt_zpow_iff_log_lt (b := 2) (by norm_num) hx).mp (by rw [hb]; exact h2)
  have : Int.log 2 x = e := by omega
  unfold ulpExponent
  rw [this]

theorem roundHalfEven_tie_odd (m : ℤ) (h : m % 2 = 1) : roundHalfEven (m + 1 / 2) = m + 1 := by
  have hf : Int.floor ((m : ℚ) + 1 / 2) = m := by
    rw [Int.floor_eq_iff]
    constructor <;> norm_num
  unfold roundHalfEven
  rw [hf]
  have e : (m : ℚ) + 1 / 2 - m = 1 / 2 := by ring
  rw [e, if_neg (lt_irrefl _), if_neg (lt_irrefl _), if_neg (by omega)]

/-- A product that rounds up to an integer: the exact product is `3 - 2^-52`, its double
is 3. -/
theorem toDouble_rounds_up :
    toDouble (1228254443828317 / 2 ^ 52) = 1228254443828317 / 2 ^ 52 ∧
    (1228254443828317 / 2 ^ 52 : ℚ) * 11 < 3 ∧
    toDouble (1228254443828317 / 2 ^ 52 * 11) = 3 := by
  refine ⟨?_, by norm_num, ?_⟩
  · have hx : (0 : ℚ) < 1228254443828317 / 2 ^ 52 := by norm_num
    have hq := ulpExponent_of_bounds (-2) hx (by norm_num) (by norm_num)
    unfold toDouble
    rw [if_neg (ne_of_gt hx), if_pos hx, hq]
    have e : (1228254443828317 / 2 ^ 52 : ℚ) / 2 ^ (max (-2 - 52) (-1074) : ℤ) =
        ((4913017775313268 : ℤ) : ℚ) := by
      norm_num [zpow_neg]
    rw [e, roundHalfEven_intCast]
    norm_num [zpow_neg]
  · have hx : (0 : ℚ) < 1228254443828317 / 2 ^ 52 * 11 := by norm_num
    have hq := ulpExponent_of_bounds 1 hx (by norm_num) (by norm_num)
    unfold toDouble
    rw [if_neg (ne_of_gt hx), if_pos hx, hq]
    have e : (1228254443828317 / 2 ^ 52 * 11 : ℚ) / 2 ^ (max (1 - 52) (-1074) : ℤ) =
        ((6755399441055743 : ℤ) : ℚ) + 1 / 2 := by
      norm_num [zpow_neg]
    rw [e, roundHalfEven_tie_odd _ (by norm_num)]
    norm_num [zpow_neg]

theorem sessionInv_randomLead (s : CallMode) (r : ℚ) (h0 : 0 ≤ r) (h1 : r < 1)
    (hd : toDouble r = r) (h : SessionInv s) : SessionInv (callModeRandomLead s r) := by
  unfold callModeRandomLead SessionInv at *
  intro ha
  refine ⟨(h ha).1, ?_⟩
  show (Int.floor (toDouble (r * s.callModeLeads.length))).toNat < s.callModeLeads.length
  have hpos : 0 < s.callModeLeads.length := by
    have := (h ha).2
    omega
  have hq : (1 : ℚ) ≤ (s.callModeLeads.length : ℚ) := by exact_mod_cast hpos
  have hlt : toDouble (r * (s.callModeLeads.length : ℚ)) < ((s.callModeLeads.length : ℤ) : ℚ) := by
    have := toDouble_mul_lt h0 (le_of_toDouble_eq h0 h1 hd) hq
    simpa using this
  have hfl : Int.floor (toDouble (r * (s.callModeLeads.length : ℚ))) <
      (s.callModeLeads.length : ℤ) :=
    Int.floor_lt.mpr hlt
  have hge : 0 ≤ Int.floor (toDouble (r * (s.callModeLeads.length : ℚ))) :=
    Int.floor_nonneg.mpr (toDouble_nonneg (mul_nonneg h0 (by linarith)))
  omega

/-- A draw whose product with the length rounds up to an integer: with eleven leads and
the double `1228254443828317 / 2^52` the exact product is below 3 and the cursor is 3. -/
theorem callModeRandomLead_rounds_up :
    (callModeRandomLead { callModeLeads := List.replicate 11 {} }
      (1228254443828317 / 2 ^ 52)).callModeCurrentLeadIndex = 3 := by
  unfold callModeRandomLead
  show (Int.floor (toDouble (1228254443828317 / 2 ^ 52 *
    ((List.replicate 11 ({} : Lead)).length : ℚ)))).toNat = 3
  have e : ((List.replicate 11 ({} : Lead)).length : ℚ) = 11 := by simp
  rw [e, toDouble_rounds_up.2.2]
  have : Int.floor (3 : ℚ) = 3 := by
    simp
  rw [this]
  rfl

theorem sessionInv_set (s : CallMode) (i : Nat) (l : Lead) (h : SessionInv s) :
    SessionInv { s with callModeLeads := s.callModeLeads.set i l } := by
  intro ha
  have := h ha
  refine ⟨?_, ?_⟩
  · intro hn
    have hl := congrArg List.length hn
    simp only [List.length_set, List.length_nil] at hl
    exact this.1 (List.length_eq_zero.mp hl)
  · simpa using this.2

theorem sessionInv_saveCallCompletion (s : CallMode) (db : Db) (form : CompletionForm)
    (env : CompletionEnv) (h : SessionInv s) :
    SessionInv (saveCallCompletion s db form env).1 := by
  unfold saveCallCompletion
  by_cases ho : form.outcome = ""
  · rw [if_pos ho]
    exact h
  · rw [if_neg ho]
    cases hcur : s.callModeLeads.get? s.callModeCurrentLeadIndex with
    | none => exact h
    | some currentLead =>
      simp only
      by_cases h1 : env.saveLogOk = false
      · rw [if_pos h1]
        exact h
      · rw [if_neg h1]
        by_cases h2 : env.updateOk = false
        · rw [if_pos h2]
          exact sessionInv_set s _ _ h
        · rw [if_neg h2]
          exact sessionInv_nextLeadOrCycle _ (sessionInv_set s _ _ h)

theorem sessionInv_step {s t : CallMode} (hst : SessionStep s t) (h : SessionInv s) :
    SessionInv t := by
  cases hst with
  | toggle parseDate cfg now db =>
    unfold toggleCallMode
    split_ifs with ha
    · intro hc
      simp [exitCallMode] at hc
    · exact sessionInv_enterCallMode parseDate cfg now db s (by simpa using ha)
  | next => exact sessionInv_nextLead s h
  | nextOrCycle => exact sessionInv_nextLeadOrCycle s h
  | previous => exact sessionInv_previousLead s h
  | random r h0 h1 hd => exact sessionInv_randomLead s r h0 h1 hd h
  | complete db form env => exact sessionInv_saveCallCompletion s db form env h

/-- C16: `enterCallMode` leaves the active flag as it was when its snapshot is empty, and
sets it with cursor 0 otherwise; every state reachable from an `enterCallMode` on an
inactive session, and every state reachable from start-up, through mode toggles, the four
cursor moves (any double drawn in [0,1), its product with the length rounded as the
double multiplication rounds it) and `saveCallCompletion` (failing or not) satisfies: an
active session has leads and `0 <= currentIndex < length`. -/
theorem session_cursor_invariant (parseDate : String → Option Int) (cfg : Config) (now : Int)
    (db : Db) (s0 : CallMode) :
    ((enterCallMode parseDate cfg now db s0).callModeLeads = [] →
      (enterCallMode parseDate cfg now db s0).callModeActive = s0.callModeActive) ∧
    ((enterCallMode parseDate cfg now db s0).callModeLeads ≠ [] →
      (enterCallMode parseDate cfg now db s0).callModeActive = true ∧
      (enterCallMode parseDate cfg now db s0).callModeCurrentLeadIndex = 0) ∧
    (s0.callModeActive = false →
      ∀ t, Relation.ReflTransGen SessionStep (enterCallMode parseDate cfg now db s0) t →
        SessionInv t) ∧
    (∀ t, Relation.ReflTransGen SessionStep initCallMode t → SessionInv t) := by
  refine ⟨?_, ?_, ?_, ?_⟩
  · intro hnil
    unfold enterCallMode at hnil ⊢
    simp only at hnil ⊢
    split_ifs at hnil ⊢ with hlen
    · rfl
    · exact absurd (List.length_eq_zero.mpr hnil) hlen
  · intro hne
    unfold enterCallMode at hne ⊢
    simp only at hne ⊢
    split_ifs at hne ⊢ with hlen
    · exact absurd (List.length_eq_zero.mp hlen) hne
    · exact ⟨rfl, rfl⟩
  · intro h0 t ht
    induction ht with
    | refl => exact sessionInv_enterCallMode parseDate cfg now db s0 h0
    | tail _ hstep ih => exact sessionInv_step hstep ih
  · intro t ht
    induction ht with
    | refl =>
      intro ha
      simp [initCallMode] at ha
    | tail _ hstep ih => exact sessionInv_step hstep ih

theorem callModeNextLeadOrCycle_index (s : CallMode)
    (h : s.callModeCurrentLeadIndex < s.callModeLeads.length) :
    (callModeNextLeadOrCycle s).callModeCurrentLeadIndex =
        (s.callModeCurrentLeadIndex + 1) % s.callModeLeads.length ∧
      (callModeNextLeadOrCycle s).callModeLeads = s.callModeLeads ∧
      (callModeNextLeadOrCycle s).callModeActive = s.callModeActive := by
  unfold callModeNextLeadOrCycle
  split_ifs with hc
  · refine ⟨?_, rfl, rfl⟩
    show s.callModeCurrentLeadIndex + 1 = _
    rw [Nat.mod_eq_of_lt (by omega)]
  · refine ⟨?_, rfl, rfl⟩
    show 0 = _
    have he : s.callModeCurrentLeadIndex + 1 = s.callModeLeads.length := by omega
    rw [he, Nat.mod_self]

theorem iterate_nextLeadOrCycle (s : CallMode)
    (h : s.callModeCurrentLeadIndex < s.callModeLeads.length) (k : Nat) :
    (callModeNextLeadOrCycle^[k] s).callModeCurrentLeadIndex =
        (s.callModeCurrentLeadIndex + k) % s.callModeLeads.length ∧
      (callModeNextLeadOrCycle^[k] s).callModeLeads = s.callModeLeads := by
  induction k with
  | zero => exact ⟨(Nat.mod_eq_of_lt h).symm, rfl⟩
  | succ k ih =>
    rw [Function.iterate_succ_apply']
    have hpos : 0 < s.callModeLeads.length := by omega
    have hlt : (callModeNextLeadOrCycle^[k] s).callModeCurrentLeadIndex <
        (callModeNextLeadOrCycle^[k] s).callModeLeads.length := by
      rw [ih.1, ih.2]
      exact Nat.mod_lt _ hpos
    obtain ⟨h1, h2, _⟩ := callModeNextLeadOrCycle_index _ hlt
    refine ⟨?_, h2.trans ih.2⟩
    rw [h1, ih.1, ih.2, Nat.add_mod, Nat.mod_mod, ← Nat.add_mod]
    rfl

/-- C17: for a session of length `n` and cursor `i < n`: `callModeNextLeadOrCycle` sets
the cursor to `(i + 1) mod n`, and `n` applications return it to `i`; `callModeNextLead`
sets it to `i + 1` when `i < n - 1` and else keeps it; `callModePreviousLead` sets it to
`i - 1` when `i > 0` and else keeps it; none changes the leads. -/
theorem cursor_moves (s : CallMode) (h : s.callModeCurrentLeadIndex < s.callModeLeads.length) :
    (callModeNextLeadOrCycle s).callModeCurrentLeadIndex =
        (s.callModeCurrentLeadIndex + 1) % s.callModeLeads.length ∧
      (callModeNextLeadOrCycle^[s.callModeLeads.length] s).callModeCurrentLeadIndex =
        s.callModeCurrentLeadIndex ∧
      (callModeNextLead s).callModeCurrentLeadIndex =
        (if s.callModeCurrentLeadIndex < s.callModeLeads.length - 1 then
          s.callModeCurrentLeadIndex + 1 else s.callModeCurrentLeadIndex) ∧
      (callModePreviousLead s).callModeCurrentLeadIndex =
        (if s.callModeCurrentLeadIndex > 0 then s.callModeCurrentLeadIndex - 1
          else s.callModeCurrentLeadIndex) ∧
      (callModeNextLeadOrCycle s).callModeLeads = s.callModeLeads ∧
      (callModeNextLead s).callModeLeads = s.callModeLeads ∧
      (callModePreviousLead s).callModeLeads = s.callModeLeads := by
  refine ⟨(callModeNextLeadOrCycle_index s h).1, ?_, ?_, ?_,
    (callModeNextLeadOrCycle_index s h).2.1, ?_, ?_⟩
  · rw [(iterate_nextLeadOrCycle s h _).1, Nat.add_mod_right, Nat.mod_eq_of_lt h]
  · unfold callModeNextLead
    by_cases hc : (s.callModeCurrentLeadIndex : Int) < (s.callModeLeads.length : Int) - 1
    · rw [if_pos hc, if_pos (by omega)]
    · rw [if_neg hc, if_neg (by omega)]
  · unfold callModePreviousLead
    split_ifs <;> rfl
  · unfold callModeNextLead
    split_ifs <;> rfl
  · unfold callModePreviousLead
    split_ifs <;> rfl

/-! ## Leads CSV import -/

theorem parseCSVRows_eq (headers : List String) (filename : String) (clock : Nat → String)
    (insert : Nat → Option Nat) (rows : List String) :
    ∀ (i : Nat) (db : Db) (counts : ImportResult),
      parseCSVRows headers filename clock insert i rows db counts =
        ({ db with leads := db.leads ++
            (csvAttempts headers i rows).filterMap (insertedLead filename clock insert) },
          { imported := counts.imported +
              ((csvAttempts headers i rows).filter (fun p => (insert p.1).isSome)).length
            skipped := counts.skipped +
              ((csvAttempts headers i rows).filter (fun p => (insert p.1).isNone)).length }) := by
  induction rows with
  | nil =>
    intro i db counts
    simp [parseCSVRows, csvAttempts]
  | cons line rows ih =>
    intro i db counts
    unfold parseCSVRows
    simp only
    by_cases h1 : (parseCSVLine line).length < headers.length
    · have he : rowEligible headers line = false := by
        unfold rowEligible
        simp [h1]
      rw [if_pos h1, ih]
      simp [csvAttempts, List.enumFrom_cons, List.filter_cons, he]
    · rw [if_neg h1]
      by_cases h2 : falsy (leadDataOf (parseCSVLine line) filename (clock i)).company = true
      · have he : rowEligible headers line = false := by
          unfold rowEligible
          simp only [leadDataOf, falsy] at h2
          simp at h2
          simp [h2]
        rw [if_pos h2, ih]
        simp [csvAttempts, List.enumFrom_cons, List.filter_cons, he]
      · have he : rowEligible headers line = true := by
          unfold rowEligible
          simp only [leadDataOf, falsy] at h2
          simp only [Bool.and_eq_true, decide_eq_true_eq, Bool.not_eq_true']
          exact ⟨by omega, by simpa using h2⟩
        rw [if_neg h2]
        cases hins : insert i with
        | none =>
          simp only [addLead]
          rw [ih]
          simp [csvAttempts, List.enumFrom_cons, List.filter_cons, he, hins, insertedLead,
            Nat.add_assoc, Nat.add_comm 1]
        | some key =>
          simp only [addLead]
          rw [ih]
          simp [csvAttempts, List.enumFrom_cons, List.filter_cons, he, hins, insertedLead,
            Nat.add_assoc, Nat.add_comm 1]


theorem length_filter_isSome_add_isNone {α : Type} (f : α → Option Nat) (l : List α) :
    (l.filter (fun p => (f p).isSome)).length + (l.filter (fun p => (f p).isNone)).length =
      l.length := by
  induction l with
  | nil => rfl
  | cons a l ih =>
    cases h : f a <;> simp [List.filter_cons, h] <;> omega

theorem length_filterMap_of_isSome {α β : Type} (f : α → Option β) (l : List α)
    (h : ∀ a ∈ l, (f a).isSome = true) : (l.filterMap f).length = l.length := by
  induction l with
  | nil => rfl
  | cons a l ih =>
    have ha := h a (List.mem_cons_self _ _)
    obtain ⟨b, hb⟩ := Option.isSome_iff_exists.mp ha
    simp [List.filterMap_cons, hb, ih (fun x hx => h x (List.mem_cons_of_mem _ hx))]

theorem parseCSV_cons {csv : String} {header : String} {rows : List String}
    (h : csvLines csv = header :: rows) (db : Db) (filename : String) (clock : Nat → String)
    (insert : Nat → Option Nat) :
    parseCSV db csv filename clock insert =
      ({ db with
          leads := db.leads ++
            (csvAttempts (parseCSVLine header) 1 rows).filterMap
              (insertedLead filename clock insert) },
        { imported :=
            ((csvAttempts (parseCSVLine header) 1 rows).filter
              (fun p => (insert p.1).isSome)).length
          skipped :=
            ((csvAttempts (parseCSVLine header) 1 rows).filter
              (fun p => (insert p.1).isNone)).length }) := by
  unfold parseCSV
  rw [h]
  simp only
  rw [parseCSVRows_eq]
  simp

/-- C18: for text without a non-blank line `parseCSV` returns `{imported: 0, skipped: 0}`
and changes nothing; when every data row has at least as many fields as the header and a
non-empty first field, and every insertion succeeds, it returns `imported` = number of
data rows and `skipped = 0`, and the store holds its previous leads followed by that many
new ones. -/
theorem parseCSV_imports_every_row (db : Db) (csv filename : String) (clock : Nat → String)
    (insert : Nat → Option Nat) :
    (csvLines csv = [] →
      parseCSV db csv filename clock insert = (db, { imported := 0, skipped := 0 })) ∧
    (∀ (header : String) (rows : List String), csvLines csv = header :: rows →
      (∀ line ∈ rows, (parseCSVLine header).length ≤ (parseCSVLine line).length ∧
        orEmpty ((parseCSVLine line).get? 0) ≠ "") →
      (∀ i, (insert i).isSome = true) →
      (parseCSV db csv filename clock insert).2 = { imported := rows.length, skipped := 0 } ∧
      (getAllLeads (parseCSV db csv filename clock insert).1).length =
        (getAllLeads db).length + rows.length ∧
      ∃ added, getAllLeads (parseCSV db csv filename clock insert).1 = getAllLeads db ++ added ∧
        added.length = rows.length) := by
  constructor
  · intro h
    unfold parseCSV
    rw [h]
  · intro header rows h hrows hins
    have hatt : csvAttempts (parseCSVLine header) 1 rows = rows.enumFrom 1 := by
      unfold csvAttempts
      rw [List.filter_eq_self]
      intro p hp
      have hm : p.2 ∈ rows := by
        have := List.mem_map_of_mem Prod.snd hp
        simpa using this
      unfold rowEligible
      have := hrows p.2 hm
      rw [Bool.and_eq_true]
      exact ⟨decide_eq_true this.1, by simpa using this.2⟩
    have hsome : (rows.enumFrom 1).filter (fun p => (insert p.1).isSome) = rows.enumFrom 1 := by
      rw [List.filter_eq_self]
      intro p _
      exact hins p.1
    have hnone : (rows.enumFrom 1).filter (fun p => (insert p.1).isNone) = [] := by
      rw [List.filter_eq_nil_iff]
      intro p _
      have := hins p.1
      cases hi : insert p.1 <;> simp [hi] at this ⊢
    have hlen : ((rows.enumFrom 1).filterMap (insertedLead filename clock insert)).length =
        rows.length := by
      rw [length_filterMap_of_isSome, List.enumFrom_length]
      intro p _
      unfold insertedLead
      have := hins p.1
      cases hi : insert p.1 <;> simp [hi] at this ⊢
    rw [parseCSV_cons h, hatt, hsome, hnone]
    refine ⟨?_, ?_, ?_⟩
    · simp [List.enumFrom_length]
    · show (db.leads ++ _).length = _
      rw [List.length_append, hlen]
      rfl
    · exact ⟨_, rfl, hlen⟩

/-- C20: `parseCSV` attempts one insertion for each data row with at least as many
fields as the header and a non-empty first field, in input order (`csvAttempts`), whatever
the earlier insertions answered; `imported` counts the attempts that succeeded, `skipped`
those that failed, their sum is the number of attempts, and the store gains exactly the
records of the successful attempts, in order.  Other rows count in neither. -/
theorem parseCSV_accounting (db : Db) (csv filename : String) (clock : Nat → String)
    (insert : Nat → Option Nat) :
    (csvLines csv = [] →
      parseCSV db csv filename clock insert = (db, { imported := 0, skipped := 0 })) ∧
    (∀ (header : String) (rows : List String), csvLines csv = header :: rows →
      (parseCSV db csv filename clock insert).2.imported =
        ((csvAttempts (parseCSVLine header) 1 rows).filter
          (fun p => (insert p.1).isSome)).length ∧
      (parseCSV db csv filename clock insert).2.skipped =
        ((csvAttempts (parseCSVLine header) 1 rows).filter
          (fun p => (insert p.1).isNone)).length ∧
      (parseCSV db csv filename clock insert).2.imported +
          (parseCSV db csv filename clock insert).2.skipped =
        (csvAttempts (parseCSVLine header) 1 rows).length ∧
      getAllLeads (parseCSV db csv filename clock insert).1 =
        getAllLeads db ++
          (csvAttempts (parseCSVLine header) 1 rows).filterMap
            (insertedLead filename clock insert) ∧
      ∀ p, p ∈ csvAttempts (parseCSVLine header) 1 rows ↔
        p ∈ rows.enumFrom 1 ∧ (parseCSVLine header).length ≤ (parseCSVLine p.2).length ∧
          orEmpty ((parseCSVLine p.2).get? 0) ≠ "") := by
  constructor
  · intro h
    unfold parseCSV
    rw [h]
  · intro header rows h
    rw [parseCSV_cons h]
    refine ⟨rfl, rfl, length_filter_isSome_add_isNone _ _, rfl, ?_⟩
    intro p
    unfold csvAttempts rowEligible
    rw [List.mem_filter]
    simp

/-- C19 (code defect): a seven-column row under a seven-column header, evaluated.  The
method `parseCSVLine` in force is the six-field reader of the prospect import, so the stored
lead has industry `Tech,Good lead` and empty comments, where the claim (and the first,
overridden `parseCSVLine`, which yields seven fields) gives industry `Tech` and comments
`Good lead`. -/
theorem parseCSV_seventh_column_lost :
    (parseCSV {}
        "Company,State,Website,Email,Phone,Industry,Comments\nAcme,CA,acme.com,a@acme.com,555-1234,Tech,Good lead"
        "leads.csv" (fun _ => "2024-06-10T06:13:20.000Z") (fun _ => some 1)).1.leads =
      [{ id := some 1, company := some "Acme", contact := some "", email := some "a@acme.com",
         industry := some "Tech,Good lead", state := some "CA", website := some "acme.com",
         phone := some "555-1234", comments := some "",
         notes := some "Imported from: leads.csv",
         dateAdded := some "2024-06-10T06:13:20.000Z" }] ∧
    parseCSVLine "Acme,CA,acme.com,a@acme.com,555-1234,Tech,Good lead" =
      ["Acme", "CA", "acme.com", "a@acme.com", "555-1234", "Tech,Good lead"] ∧
    parseCSVLineFirst "Acme,CA,acme.com,a@acme.com,555-1234,Tech,Good lead" =
      ["Acme", "CA", "acme.com", "a@acme.com", "555-1234", "Tech", "Good lead"] := by
  decide

/-! ## Trimming -/

theorem dropWhile_append_of_not {p : Char → Bool} (f : List Char) (c : Char) (m : List Char)
    (hc : p c = false) : (f ++ c :: m).dropWhile p = f.dropWhile p ++ c :: m := by
  induction f with
  | nil => simp [List.dropWhile_cons, hc]
  | cons a f ih =>
    by_cases ha : p a = true
    · simp [List.dropWhile_cons, ha, ih]
    · simp [List.dropWhile_cons, ha]

theorem dropWhile_dropWhile (p : Char → Bool) (l : List Char) :
    (l.dropWhile p).dropWhile p = l.dropWhile p := by
  induction l with
  | nil => rfl
  | cons a l ih =>
    by_cases ha : p a = true
    · simp [List.dropWhile_cons, ha, ih]
    · simp [List.dropWhile_cons, ha]

/-- Dropping the white space at the end of a list of characters. -/
theorem trimChars_eq (l : List Char) :
    trimChars l = ((l.dropWhile isJsWhitespace).reverse.dropWhile isJsWhitespace).reverse := rfl

theorem trimChars_append_of_not (f : List Char) (c : Char) (m : List Char)
    (hc : isJsWhitespace c = false) :
    trimChars (f ++ c :: m) =
      f.dropWhile isJsWhitespace ++ c :: ((m.reverse.dropWhile isJsWhitespace).reverse) := by
  unfold trimChars
  rw [dropWhile_append_of_not f c m hc]
  simp only [List.reverse_append, List.reverse_cons, List.append_assoc, List.singleton_append]
  rw [dropWhile_append_of_not _ c _ hc]
  simp

theorem dropWhile_eq_nil_or (p : Char → Bool) (l : List Char) :
    l.dropWhile p = [] ∨ ∃ c m, p c = false ∧ l = l.takeWhile p ++ c :: m ∧
      l.dropWhile p = c :: m := by
  induction l with
  | nil => left; rfl
  | cons a l ih =>
    by_cases ha : p a = true
    · rcases ih with h | ⟨c, m, hc, h1, h2⟩
      · left; simp [List.dropWhile_cons, ha, h]
      · right
        refine ⟨c, m, hc, ?_, ?_⟩
        · simp only [List.takeWhile_cons, ha, if_true, List.cons_append]
          rw [← h1]
        · simp [List.dropWhile_cons, ha, h2]
    · right
      refine ⟨a, l, by simpa using ha, ?_, ?_⟩
      · simp [List.takeWhile_cons, ha]
      · simp [List.dropWhile_cons, ha]

theorem trimChars_dropWhile (l : List Char) :
    trimChars (l.dropWhile isJsWhitespace) = trimChars l := by
  unfold trimChars
  rw [dropWhile_dropWhile]

theorem trimChars_dropEnd (l : List Char) :
    trimChars ((l.reverse.dropWhile isJsWhitespace).reverse) = trimChars l := by
  rcases dropWhile_eq_nil_or isJsWhitespace l with h | ⟨c, m, hc, h1, h2⟩
  · have hall : ∀ x ∈ l, isJsWhitespace x = true := by
      simpa [List.dropWhile_eq_nil_iff] using h
    have h3 : l.reverse.dropWhile isJsWhitespace = [] := by
      rw [List.dropWhile_eq_nil_iff]
      intro x hx
      exact hall x (List.mem_reverse.mp hx)
    rw [h3]
    unfold trimChars
    rw [h]
    rfl
  · have hall : ∀ x ∈ l.takeWhile isJsWhitespace, isJsWhitespace x = true := by
      intro x hx
      exact (List.mem_takeWhile_imp hx)
    have h3 : (l.reverse.dropWhile isJsWhitespace).reverse =
        l.takeWhile isJsWhitespace ++ c :: (m.reverse.dropWhile isJsWhitespace).reverse := by
      conv_lhs => rw [h1]
      simp only [List.reverse_append, List.reverse_cons, List.append_assoc, List.singleton_append]
      rw [dropWhile_append_of_not _ c _ hc]
      simp
    rw [h3, trimChars_append_of_not _ c _ hc]
    have h4 : (l.takeWhile isJsWhitespace).dropWhile isJsWhitespace = [] := by
      rw [List.dropWhile_eq_nil_iff]
      exact hall
    rw [h4]
    simp only [List.reverse_reverse, dropWhile_dropWhile, List.nil_append]
    unfold trimChars
    rw [h2]
    simp only [List.reverse_cons]
    rw [dropWhile_append_of_not _ c _ hc]
    simp

theorem trimChars_trimChars (l : List Char) : trimChars (trimChars l) = trimChars l := by
  conv_lhs => rw [trimChars_eq l]
  rw [trimChars_dropEnd, trimChars_dropWhile]

theorem trimChars_of_ends (l : List Char) (a b : Char) (ha : isJsWhitespace a = false)
    (hb : isJsWhitespace b = false) (h1 : l.head? = some a) (h2 : l.getLast? = some b) :
    trimChars l = l := by
  unfold trimChars
  cases l with
  | nil => simp at h1
  | cons x l =>
    simp at h1
    subst h1
    simp only [List.dropWhile_cons, ha, Bool.false_eq_true, if_false]
    obtain ⟨init, hinit⟩ : ∃ init, x :: l = init ++ [b] := by
      have := List.getLast?_eq_some_iff.mp h2
      obtain ⟨ys, hys⟩ := this
      exact ⟨ys, hys⟩
    rw [hinit]
    simp [List.dropWhile_cons, hb]

/-! ## The line parser -/

theorem parseCSVLoop_cons (char : Char) (rest : List Char) (result : List String)
    (current : List Char) (inQuotes : Bool) (fieldCount : Nat) :
    parseCSVLoop (char :: rest) result current inQuotes fieldCount =
      if char = '"' then parseCSVLoop rest result (current ++ [char]) (!inQuotes) fieldCount
      else if char = ',' ∧ inQuotes = false then
        if fieldCount + 1 = 5 then
          result ++ [fieldOf current] ++ [fieldOf rest]
        else parseCSVLoop rest (result ++ [fieldOf current]) [] inQuotes (fieldCount + 1)
      else parseCSVLoop rest result (current ++ [char]) inQuotes fieldCount := by
  rw [parseCSVLoop]
  simp [expectedFields, fieldOf]

theorem splitAtComma_cons (c : Char) (rest : List Char) (inQuotes : Bool) :
    splitAtComma (c :: rest) inQuotes =
      if c = '"' then (splitAtComma rest (!inQuotes)).map (fun p => (c :: p.1, p.2))
      else if c = ',' ∧ inQuotes = false then some ([], rest)
      else (splitAtComma rest inQuotes).map (fun p => (c :: p.1, p.2)) := by
  rw [splitAtComma]

theorem parseCSVLoop_splitAtComma : ∀ (l : List Char) (result : List String) (current : List Char)
    (inQuotes : Bool) (fieldCount : Nat) (field rest : List Char),
    splitAtComma l inQuotes = some (field, rest) →
    parseCSVLoop l result current inQuotes fieldCount =
      if fieldCount + 1 = 5 then result ++ [fieldOf (current ++ field)] ++ [fieldOf rest]
      else parseCSVLoop rest (result ++ [fieldOf (current ++ field)]) [] false (fieldCount + 1) := by
  intro l
  induction l with
  | nil => intro result current inQuotes fieldCount field rest h; simp [splitAtComma] at h
  | cons c l ih =>
    intro result current inQuotes fieldCount field rest h
    rw [splitAtComma_cons] at h
    rw [parseCSVLoop_cons]
    by_cases h1 : c = '"'
    · rw [if_pos h1] at h
      rw [if_pos h1]
      obtain ⟨p, hp, hpe⟩ := Option.map_eq_some'.mp h
      obtain ⟨p1, p2⟩ := p
      simp only [Prod.mk.injEq] at hpe
      obtain ⟨rfl, rfl⟩ := hpe
      rw [ih result (current ++ [c]) (!inQuotes) fieldCount p1 p2 hp]
      simp
    · rw [if_neg h1] at h
      rw [if_neg h1]
      by_cases h2 : c = ',' ∧ inQuotes = false
      · rw [if_pos h2] at h
        rw [if_pos h2]
        simp only [Option.some.injEq, Prod.mk.injEq] at h
        obtain ⟨rfl, rfl⟩ := h
        simp [h2.2]
      · rw [if_neg h2] at h
        rw [if_neg h2]
        obtain ⟨p, hp, hpe⟩ := Option.map_eq_some'.mp h
        obtain ⟨p1, p2⟩ := p
        simp only [Prod.mk.injEq] at hpe
        obtain ⟨rfl, rfl⟩ := hpe
        rw [ih result (current ++ [c]) inQuotes fieldCount p1 p2 hp]
        simp

theorem parseCSVLoop_of_no_comma : ∀ (l : List Char) (result : List String) (current : List Char)
    (inQuotes : Bool) (fieldCount : Nat),
    splitAtComma l inQuotes = none →
    parseCSVLoop l result current inQuotes fieldCount = result ++ [fieldOf (current ++ l)] := by
  intro l
  induction l with
  | nil => intro result current inQuotes fieldCount _; simp [parseCSVLoop, fieldOf]
  | cons c l ih =>
    intro result current inQuotes fieldCount h
    rw [splitAtComma_cons] at h
    rw [parseCSVLoop_cons]
    by_cases h1 : c = '"'
    · rw [if_pos h1] at h
      rw [if_pos h1]
      rw [ih _ _ _ _ (Option.map_eq_none'.mp h)]
      simp
    · rw [if_neg h1] at h
      rw [if_neg h1]
      by_cases h2 : c = ',' ∧ inQuotes = false
      · rw [if_pos h2] at h
        simp at h
      · rw [if_neg h2] at h
        rw [if_neg h2]
        rw [ih _ _ _ _ (Option.map_eq_none'.mp h)]
        simp

theorem splitAtComma_eq_some_iff : ∀ (l : List Char) (inQuotes : Bool) (field rest : List Char),
    splitAtComma l inQuotes = some (field, rest) ↔
      l = field ++ ',' :: rest ∧ splitAtComma (field ++ [',']) inQuotes = some (field, []) := by
  intro l
  induction l with
  | nil => intro q f r; simp [splitAtComma]
  | cons c l ih =>
    intro q f r
    rw [splitAtComma_cons]
    by_cases h1 : c = '"'
    · rw [if_pos h1]
      constructor
      · intro h
        obtain ⟨p, hp, hpe⟩ := Option.map_eq_some'.mp h
        obtain ⟨p1, p2⟩ := p
        simp only [Prod.mk.injEq] at hpe
        obtain ⟨rfl, rfl⟩ := hpe
        obtain ⟨e1, e2⟩ := (ih _ _ _).mp hp
        refine ⟨by simp [e1], ?_⟩
        simp only [List.cons_append]
        rw [splitAtComma_cons]
        rw [if_pos h1, e2]
        rfl
      · rintro ⟨e1, e2⟩
        cases f with
        | nil => simp at e1; rw [e1.1] at h1; exact absurd h1 (by decide)
        | cons a f =>
          simp only [List.cons_append, List.cons.injEq] at e1
          obtain ⟨rfl, rfl⟩ := e1
          simp only [List.cons_append] at e2
          rw [splitAtComma_cons] at e2
          rw [if_pos h1] at e2
          obtain ⟨p, hp, hpe⟩ := Option.map_eq_some'.mp e2
          obtain ⟨p1, p2⟩ := p
          simp only [Prod.mk.injEq, List.cons.injEq, true_and] at hpe
          obtain ⟨rfl, rfl⟩ := hpe
          have := (ih (!q) p1 r).mpr ⟨rfl, hp⟩
          rw [this]
          rfl
    · rw [if_neg h1]
      by_cases h2 : c = ',' ∧ q = false
      · rw [if_pos h2]
        constructor
        · intro h
          simp only [Option.some.injEq, Prod.mk.injEq] at h
          obtain ⟨rfl, rfl⟩ := h
          simp [h2.1, h2.2, splitAtComma]
        · rintro ⟨e1, e2⟩
          cases f with
          | nil => simp at e1; simp [e1.2]
          | cons a f =>
            simp only [List.cons_append, List.cons.injEq] at e1
            obtain ⟨rfl, rfl⟩ := e1
            simp only [List.cons_append] at e2
            rw [splitAtComma_cons] at e2
            rw [if_neg h1, if_pos h2] at e2
            simp at e2
      · rw [if_neg h2]
        constructor
        · intro h
          obtain ⟨p, hp, hpe⟩ := Option.map_eq_some'.mp h
          obtain ⟨p1, p2⟩ := p
          simp only [Prod.mk.injEq] at hpe
          obtain ⟨rfl, rfl⟩ := hpe
          obtain ⟨e1, e2⟩ := (ih _ _ _).mp hp
          refine ⟨by simp [e1], ?_⟩
          simp only [List.cons_append]
          rw [splitAtComma_cons]
          rw [if_neg h1, if_neg h2, e2]
          rfl
        · rintro ⟨e1, e2⟩
          cases f with
          | nil =>
            simp only [List.nil_append, List.cons.injEq] at e1
            simp only [List.nil_append] at e2
            have hq : q = true := by
              cases q
              · exact absurd ⟨e1.1, rfl⟩ h2
              · rfl
            subst hq
            simp [splitAtComma] at e2
          | cons a f =>
            simp only [List.cons_append, List.cons.injEq] at e1
            obtain ⟨rfl, rfl⟩ := e1
            simp only [List.cons_append] at e2
            rw [splitAtComma_cons] at e2
            rw [if_neg h1, if_neg h2] at e2
            obtain ⟨p, hp, hpe⟩ := Option.map_eq_some'.mp e2
            obtain ⟨p1, p2⟩ := p
            simp only [Prod.mk.injEq, List.cons.injEq, true_and] at hpe
            obtain ⟨rfl, rfl⟩ := hpe
            have := (ih q p1 r).mpr ⟨rfl, hp⟩
            rw [this]
            rfl

theorem splitAtComma_append {field rest : List Char} {inQuotes : Bool} (rest1 : List Char)
    (h : splitAtComma (field ++ ',' :: rest) inQuotes = some (field, rest)) :
    splitAtComma (field ++ ',' :: rest1) inQuotes = some (field, rest1) :=
  (splitAtComma_eq_some_iff _ _ _ _).mpr ⟨rfl, ((splitAtComma_eq_some_iff _ _ _ _).mp h).2⟩

theorem unquotedCommas_cons (c : Char) (rest : List Char) (inQuotes : Bool) :
    unquotedCommas (c :: rest) inQuotes =
      if c = '"' then unquotedCommas rest (!inQuotes)
      else if c = ',' ∧ inQuotes = false then unquotedCommas rest inQuotes + 1
      else unquotedCommas rest inQuotes := by
  rw [unquotedCommas]

theorem splitAtComma_of_unquotedCommas : ∀ (l : List Char) (inQuotes : Bool),
    1 ≤ unquotedCommas l inQuotes →
    ∃ field rest, splitAtComma l inQuotes = some (field, rest) ∧
      unquotedCommas l inQuotes = unquotedCommas rest false + 1 ∧
      unquotedCommas field inQuotes = 0 := by
  intro l
  induction l with
  | nil => intro q h; simp [unquotedCommas] at h
  | cons c l ih =>
    intro q h
    rw [unquotedCommas_cons] at h ⊢
    rw [splitAtComma_cons]
    by_cases h1 : c = '"'
    · rw [if_pos h1] at h ⊢
      rw [if_pos h1]
      obtain ⟨f, r, e1, e2, e3⟩ := ih _ h
      refine ⟨c :: f, r, by rw [e1]; rfl, e2, ?_⟩
      rw [unquotedCommas_cons, if_pos h1]
      exact e3
    · rw [if_neg h1] at h ⊢
      rw [if_neg h1]
      by_cases h2 : c = ',' ∧ q = false
      · rw [if_pos h2] at h ⊢
        rw [if_pos h2]
        exact ⟨[], l, rfl, by rw [h2.2], by simp [unquotedCommas]⟩
      · rw [if_neg h2] at h ⊢
        rw [if_neg h2]
        obtain ⟨f, r, e1, e2, e3⟩ := ih _ h
        refine ⟨c :: f, r, by rw [e1]; rfl, e2, ?_⟩
        rw [unquotedCommas_cons, if_neg h1, if_neg h2]
        exact e3

theorem firstFields_of_unquotedCommas : ∀ (n : Nat) (l : List Char),
    n ≤ unquotedCommas l false →
    ∃ fields remainder, firstFields n l = some (fields, remainder) ∧ fields.length = n ∧
      l = joinFields fields remainder ∧ ∀ f ∈ fields, unquotedCommas f false = 0 := by
  intro n
  induction n with
  | zero => intro l _; exact ⟨[], l, rfl, rfl, rfl, by simp⟩
  | succ n ih =>
    intro l h
    obtain ⟨f, r, e1, e2, e3⟩ := splitAtComma_of_unquotedCommas l false (by omega)
    obtain ⟨fs, rem, g1, g2, g3, g4⟩ := ih r (by omega)
    refine ⟨f :: fs, rem, ?_, by simp [g2], ?_, ?_⟩
    · simp [firstFields, e1, g1]
    · have := ((splitAtComma_eq_some_iff _ _ _ _).mp e1).1
      rw [this, g3]
      rfl
    · intro x hx
      rcases List.mem_cons.mp hx with rfl | hx
      · exact e3
      · exact g4 x hx

theorem comma_not_whitespace : isJsWhitespace ',' = false := by decide

theorem firstFields_dropEnd_eq : ∀ (n : Nat) (l : List Char) (fields : List (List Char))
    (remainder : List Char), firstFields n l = some (fields, remainder) →
    firstFields n ((l.reverse.dropWhile isJsWhitespace).reverse) =
      some (fields, (remainder.reverse.dropWhile isJsWhitespace).reverse) := by
  intro n
  induction n with
  | zero =>
    intro l fs r h
    simp only [firstFields, Option.some.injEq, Prod.mk.injEq] at h
    obtain ⟨rfl, rfl⟩ := h
    rfl
  | succ n ih =>
    intro l fs r h
    rw [firstFields] at h
    cases e1 : splitAtComma l false with
    | none => simp [e1] at h
    | some p =>
      obtain ⟨f, r1⟩ := p
      rw [e1] at h
      simp only at h
      cases e2 : firstFields n r1 with
      | none => simp [e2] at h
      | some p2 =>
        obtain ⟨fs1, rem⟩ := p2
        rw [e2] at h
        simp only [Option.some.injEq, Prod.mk.injEq] at h
        obtain ⟨rfl, rfl⟩ := h
        have hl := ((splitAtComma_eq_some_iff _ _ _ _).mp e1).1
        have hd : (l.reverse.dropWhile isJsWhitespace).reverse =
            f ++ ',' :: (r1.reverse.dropWhile isJsWhitespace).reverse := by
          rw [hl]
          simp only [List.reverse_append, List.reverse_cons, List.append_assoc,
            List.singleton_append]
          rw [dropWhile_append_of_not _ ',' _ comma_not_whitespace]
          simp
        rw [hd, firstFields]
        have e3 : splitAtComma (f ++ ',' :: (r1.reverse.dropWhile isJsWhitespace).reverse) false =
            some (f, (r1.reverse.dropWhile isJsWhitespace).reverse) := by
          apply splitAtComma_append
          rw [← hl]
          exact e1
        rw [e3]
        simp only
        rw [ih r1 fs1 rem e2]

theorem splitAtComma_dropWhile : ∀ (l : List Char) (field rest : List Char),
    splitAtComma l false = some (field, rest) →
    splitAtComma (l.dropWhile isJsWhitespace) false =
      some (field.dropWhile isJsWhitespace, rest) := by
  intro l
  induction l with
  | nil => intro f r h; simp [splitAtComma] at h
  | cons c l ih =>
    intro f r h
    by_cases hw : isJsWhitespace c = true
    · have h1 : c ≠ '"' := by
        intro e; rw [e] at hw; exact absurd hw (by decide)
      have h2 : ¬ (c = ',' ∧ false = false) := by
        intro e; rw [e.1] at hw; exact absurd hw (by decide)
      rw [splitAtComma_cons, if_neg h1, if_neg h2] at h
      obtain ⟨p, hp, hpe⟩ := Option.map_eq_some'.mp h
      obtain ⟨p1, p2⟩ := p
      simp only [Prod.mk.injEq] at hpe
      obtain ⟨rfl, rfl⟩ := hpe
      simp only [List.dropWhile_cons, hw, if_true]
      exact ih _ _ hp
    · have hl := ((splitAtComma_eq_some_iff _ _ _ _).mp h).1
      have e1 : (c :: l).dropWhile isJsWhitespace = c :: l := by
        simp [List.dropWhile_cons, hw]
      have e2 : f.dropWhile isJsWhitespace = f := by
        cases f with
        | nil => rfl
        | cons a f =>
          simp only [List.cons_append, List.cons.injEq] at hl
          rw [← hl.1]
          simp [List.dropWhile_cons, hw]
      rw [e1, e2]
      exact h

theorem parseCSVLoop_firstFields : ∀ (k : Nat) (l : List Char) (result : List String)
    (fieldCount : Nat) (fields : List (List Char)) (remainder : List Char),
    firstFields (k + 1) l = some (fields, remainder) → fieldCount + (k + 1) = 5 →
    parseCSVLoop l result [] false fieldCount =
      result ++ fields.map fieldOf ++ [fieldOf remainder] := by
  intro k
  induction k with
  | zero =>
    intro l result n fs r h hn
    rw [firstFields] at h
    cases e1 : splitAtComma l false with
    | none => simp [e1] at h
    | some p =>
      obtain ⟨f, r1⟩ := p
      rw [e1] at h
      simp only [firstFields, Option.some.injEq, Prod.mk.injEq] at h
      obtain ⟨rfl, rfl⟩ := h
      rw [parseCSVLoop_splitAtComma l result [] false n f r1 e1, if_pos (by omega)]
      simp
  | succ k ih =>
    intro l result n fs r h hn
    rw [firstFields] at h
    cases e1 : splitAtComma l false with
    | none => simp [e1] at h
    | some p =>
      obtain ⟨f, r1⟩ := p
      rw [e1] at h
      simp only at h
      cases e2 : firstFields (k + 1) r1 with
      | none => simp [e2] at h
      | some p2 =>
        obtain ⟨fs1, rem⟩ := p2
        rw [e2] at h
        simp only [Option.some.injEq, Prod.mk.injEq] at h
        obtain ⟨rfl, rfl⟩ := h
        rw [parseCSVLoop_splitAtComma l result [] false n f r1 e1, if_neg (by omega)]
        rw [ih r1 _ (n + 1) fs1 rem e2 (by omega)]
        simp

theorem fieldOf_dropWhile (l : List Char) :
    fieldOf (l.dropWhile isJsWhitespace) = fieldOf l := by
  unfold fieldOf
  rw [trimChars_dropWhile]

theorem fieldOf_dropEnd (l : List Char) :
    fieldOf ((l.reverse.dropWhile isJsWhitespace).reverse) = fieldOf l := by
  unfold fieldOf
  rw [trimChars_dropEnd]

theorem parseCSVLoop_trimChars_firstFields (l : List Char) (fields : List (List Char))
    (remainder : List Char) (h : firstFields 5 l = some (fields, remainder)) :
    parseCSVLoop (trimChars l) [] [] false 0 = fields.map fieldOf ++ [fieldOf remainder] := by
  rw [firstFields] at h
  cases e1 : splitAtComma l false with
  | none => simp [e1] at h
  | some p =>
    obtain ⟨f, r1⟩ := p
    rw [e1] at h
    simp only at h
    cases e2 : firstFields 4 r1 with
    | none => simp [e2] at h
    | some p2 =>
      obtain ⟨fs1, rem⟩ := p2
      rw [e2] at h
      simp only [Option.some.injEq, Prod.mk.injEq] at h
      obtain ⟨rfl, rfl⟩ := h
      have e3 := splitAtComma_dropWhile _ _ _ e1
      have e4 : firstFields 5 (l.dropWhile isJsWhitespace) =
          some (f.dropWhile isJsWhitespace :: fs1, rem) := by
        rw [firstFields, e3]
        simp only
        rw [e2]
      have e5 := firstFields_dropEnd_eq 5 _ _ _ e4
      rw [trimChars_eq, parseCSVLoop_firstFields 4 _ [] 0 _ _ e5 (by norm_num)]
      simp [fieldOf_dropWhile, fieldOf_dropEnd]

theorem parseCSVLine_of_firstFields (line : String) (fields : List (List Char))
    (remainder : List Char) (h : firstFields 5 line.toList = some (fields, remainder)) :
    parseCSVLine line = fields.map fieldOf ++ [fieldOf remainder] :=
  parseCSVLoop_trimChars_firstFields line.toList fields remainder h

/-! ## Quoted fields -/

theorem toList_append (a b : String) : (a ++ b).toList = a.toList ++ b.toList := by
  simp [String.toList, String.data_append]

theorem toList_quoteField (f : String) : (quoteField f).toList = '"' :: (f.toList ++ ['"']) := by
  simp [quoteField, toList_append, String.toList]

theorem toList_jsJoin_cons_cons (sep a b : String) (rest : List String) :
    (jsJoin sep (a :: b :: rest)).toList =
      a.toList ++ (sep.toList ++ (jsJoin sep (b :: rest)).toList) := by
  simp [jsJoin, toList_append]

theorem splitAtComma_quoted : ∀ (x y : List Char), '"' ∉ x →
    splitAtComma (x ++ '"' :: y) true =
      (splitAtComma y false).map (fun p => (x ++ '"' :: p.1, p.2)) := by
  intro x
  induction x with
  | nil =>
    intro y _
    rw [List.nil_append, splitAtComma_cons, if_pos rfl]
    rfl
  | cons c x ih =>
    intro y h
    have hc : c ≠ '"' := fun e => h (by simp [e])
    have hx : '"' ∉ x := fun e => h (List.mem_cons_of_mem _ e)
    rw [List.cons_append, splitAtComma_cons, if_neg hc, if_neg (by simp), ih y hx]
    cases splitAtComma y false <;> rfl

theorem splitAtComma_quoteField_comma (x rest : List Char) (h : '"' ∉ x) :
    splitAtComma ('"' :: (x ++ ['"']) ++ ',' :: rest) false = some ('"' :: (x ++ ['"']), rest) := by
  rw [List.cons_append, splitAtComma_cons, if_pos rfl]
  have e : x ++ ['"'] ++ ',' :: rest = x ++ '"' :: (',' :: rest) := by simp
  rw [e]
  simp only [Bool.not_false]
  rw [splitAtComma_quoted x _ h, splitAtComma_cons, if_neg (by decide), if_pos ⟨rfl, rfl⟩]
  simp

theorem splitAtComma_quoteField (x : List Char) (h : '"' ∉ x) :
    splitAtComma ('"' :: (x ++ ['"'])) false = none := by
  rw [splitAtComma_cons, if_pos rfl]
  simp only [Bool.not_false]
  rw [splitAtComma_quoted x _ h]
  rfl

theorem quote_not_whitespace : isJsWhitespace '"' = false := by decide

theorem getLast?_quoted (x : List Char) : ('"' :: (x ++ ['"'])).getLast? = some '"' := by
  show (('"' :: x) ++ ['"']).getLast? = some '"'
  rw [List.getLast?_append]
  rfl

theorem fieldOf_quoted (x : List Char) : fieldOf ('"' :: (x ++ ['"'])) = String.mk x := by
  unfold fieldOf
  rw [trimChars_of_ends ('"' :: (x ++ ['"'])) '"' '"' quote_not_whitespace
    quote_not_whitespace rfl (getLast?_quoted x)]
  unfold stripQuotes
  rw [if_pos ⟨rfl, getLast?_quoted x⟩]
  simp

theorem parseCSVLoop_quoted_last (f : String) (h : '"' ∉ f.toList) (result : List String)
    (fieldCount : Nat) :
    parseCSVLoop (quoteField f).toList result [] false fieldCount = result ++ [f] := by
  rw [toList_quoteField, parseCSVLoop_of_no_comma _ _ _ _ _ (splitAtComma_quoteField _ h)]
  rw [List.nil_append, fieldOf_quoted]
  rfl

theorem parseCSVLoop_quoted_step (f : String) (h : '"' ∉ f.toList) (g : String)
    (rest : List String) (result : List String) (fieldCount : Nat) :
    parseCSVLoop (jsJoin "," (quoteField f :: g :: rest)).toList result [] false fieldCount =
      if fieldCount + 1 = 5 then result ++ [f] ++ [fieldOf (jsJoin "," (g :: rest)).toList]
      else parseCSVLoop (jsJoin "," (g :: rest)).toList (result ++ [f]) [] false
        (fieldCount + 1) := by
  rw [toList_jsJoin_cons_cons, toList_quoteField]
  have e : (",".toList ++ (jsJoin "," (g :: rest)).toList) =
      ',' :: (jsJoin "," (g :: rest)).toList := rfl
  rw [e, parseCSVLoop_splitAtComma _ _ _ _ _ _ _ (splitAtComma_quoteField_comma _ _ h)]
  rw [List.nil_append, fieldOf_quoted]
  rfl

theorem parseCSVLoop_quoted : ∀ (fields : List String) (result : List String)
    (fieldCount : Nat), fields ≠ [] → fieldCount + fields.length ≤ 6 →
    (∀ f ∈ fields, '"' ∉ f.toList) →
    parseCSVLoop (jsJoin "," (fields.map quoteField)).toList result [] false fieldCount =
      result ++ fields := by
  intro fields
  induction fields with
  | nil => intro _ _ h; exact absurd rfl h
  | cons f fields ih =>
    intro result n _ hn hq
    have hf := hq f (List.mem_cons_self _ _)
    cases fields with
    | nil =>
      simp only [List.map_cons, List.map_nil, jsJoin]
      exact parseCSVLoop_quoted_last f hf result n
    | cons g rest =>
      simp only [List.map_cons]
      rw [parseCSVLoop_quoted_step f hf]
      by_cases h5 : n + 1 = 5
      · rw [if_pos h5]
        have hr : rest = [] := by
          simp only [List.length_cons] at hn
          exact List.length_eq_zero.mp (by omega)
        subst hr
        have hg := hq g (by simp)
        simp only [List.map_nil, jsJoin]
        rw [toList_quoteField, fieldOf_quoted]
        simp
      · rw [if_neg h5]
        have := ih (result ++ [f]) (n + 1) (by simp) (by simp only [List.length_cons] at hn ⊢; omega)
          (fun x hx => hq x (List.mem_cons_of_mem _ hx))
        simp only [List.map_cons] at this
        rw [this]
        simp

theorem head?_jsJoin_quoted : ∀ (fields : List String), fields ≠ [] →
    (jsJoin "," (fields.map quoteField)).toList.head? = some '"' ∧
      (jsJoin "," (fields.map quoteField)).toList.getLast? = some '"' := by
  intro fields
  induction fields with
  | nil => intro h; exact absurd rfl h
  | cons f fields ih =>
    intro _
    cases fields with
    | nil =>
      simp only [List.map_cons, List.map_nil, jsJoin, toList_quoteField]
      exact ⟨rfl, getLast?_quoted _⟩
    | cons g rest =>
      have := ih (by simp)
      simp only [List.map_cons] at this ⊢
      rw [toList_jsJoin_cons_cons, toList_quoteField]
      refine ⟨rfl, ?_⟩
      have e : (",".toList ++
          (jsJoin "," (quoteField g :: List.map quoteField rest)).toList).getLast? =
          some '"' := by
        rw [List.getLast?_append, this.2]
        rfl
      rw [List.getLast?_append, e]
      rfl

theorem trimChars_jsJoin_quoted (fields : List String) (h : fields ≠ []) :
    trimChars (jsJoin "," (fields.map quoteField)).toList =
      (jsJoin "," (fields.map quoteField)).toList :=
  trimChars_of_ends _ '"' '"' quote_not_whitespace quote_not_whitespace
    (head?_jsJoin_quoted fields h).1 (head?_jsJoin_quoted fields h).2

/-- C28: the line made of one to six fields without double quotes, each between double
quotes and joined by commas, is parsed by `parseCSVLine` into exactly those fields. -/
theorem parseCSVLine_quoted_round_trip (fields : List String) (h1 : 1 ≤ fields.length)
    (h6 : fields.length ≤ 6) (hq : ∀ f ∈ fields, '"' ∉ f.toList) :
    parseCSVLine (jsJoin "," (fields.map quoteField)) = fields := by
  have hne : fields ≠ [] := by
    intro e; rw [e] at h1; simp at h1
  unfold parseCSVLine
  rw [trimChars_jsJoin_quoted fields hne, parseCSVLoop_quoted fields [] 0 hne (by omega) hq]
  rfl

/-! ## The sixth field -/

/-- C21: a line with at least five commas outside double quotes is cut at the first five
of them; `parseCSVLine` returns six fields, the first five being the pieces between those
commas and the sixth the whole remainder after the fifth, each trimmed and without its
outer pair of double quotes; further commas do not split the remainder. -/
theorem parseCSVLine_sixth_field (line : String) (h : 5 ≤ unquotedCommas line.toList false) :
    ∃ (fields : List (List Char)) (remainder : List Char),
      firstFields 5 line.toList = some (fields, remainder) ∧ fields.length = 5 ∧
      line.toList = joinFields fields remainder ∧
      (∀ f ∈ fields, unquotedCommas f false = 0) ∧
      parseCSVLine line = fields.map fieldOf ++ [fieldOf remainder] ∧
      (parseCSVLine line).length = 6 := by
  obtain ⟨fields, remainder, h1, h2, h3, h4⟩ := firstFields_of_unquotedCommas 5 _ h
  have h5 := parseCSVLine_of_firstFields line fields remainder h1
  refine ⟨fields, remainder, h1, h2, h3, h4, h5, ?_⟩
  rw [h5]
  simp [h2]

/-! ## The prospect reader -/

theorem length_parseCSVLoop : ∀ (l : List Char) (result : List String) (current : List Char)
    (inQuotes : Bool) (fieldCount : Nat), fieldCount ≤ 4 →
    (parseCSVLoop l result current inQuotes fieldCount).length ≤
      result.length + (6 - fieldCount) := by
  intro l
  induction l with
  | nil => intro result current q n hn; simp [parseCSVLoop]; omega
  | cons c l ih =>
    intro result current q n hn
    rw [parseCSVLoop_cons]
    by_cases h1 : c = '"'
    · rw [if_pos h1]; exact ih _ _ _ _ hn
    · rw [if_neg h1]
      by_cases h2 : c = ',' ∧ q = false
      · rw [if_pos h2]
        by_cases h5 : n + 1 = 5
        · rw [if_pos h5]; simp; omega
        · rw [if_neg h5]
          have := ih (result ++ [fieldOf current]) [] q (n + 1) (by omega)
          simp only [List.length_append, List.length_singleton] at this
          omega
      · rw [if_neg h2]; exact ih _ _ _ _ hn

theorem length_parseCSVLine_le (line : String) : (parseCSVLine line).length ≤ 6 := by
  have := length_parseCSVLoop (trimChars line.toList) [] [] false 0 (by omega)
  simpa [parseCSVLine] using this

theorem parseCSVLine_jsTrim (row : String) :
    parseCSVLine (String.mk (trimChars row.toList)) = parseCSVLine row := by
  unfold parseCSVLine
  show parseCSVLoop (trimChars (trimChars row.toList)) [] [] false 0 = _
  rw [trimChars_trimChars]

theorem parseCSVLine_prospectHeader :
    parseCSVLine prospectHeader = ["Lead", "State", "Website", "Phones", "Status", "Reason"] := by
  decide

theorem rowProperty_prospectHeader (values : List String) :
    rowProperty ["Lead", "State", "Website", "Phones", "Status", "Reason"] values "lead" =
        some (orEmpty (values.get? 0)) ∧
    rowProperty ["Lead", "State", "Website", "Phones", "Status", "Reason"] values "state" =
        some (orEmpty (values.get? 1)) ∧
    rowProperty ["Lead", "State", "Website", "Phones", "Status", "Reason"] values "website" =
        some (orEmpty (values.get? 2)) ∧
    rowProperty ["Lead", "State", "Website", "Phones", "Status", "Reason"] values "phones" =
        some (orEmpty (values.get? 3)) ∧
    rowProperty ["Lead", "State", "Website", "Phones", "Status", "Reason"] values "status" =
        some (orEmpty (values.get? 4)) ∧
    rowProperty ["Lead", "State", "Website", "Phones", "Status", "Reason"] values "reason" =
        some (orEmpty (values.get? 5)) := by
  have e1 : (["Lead", "State", "Website", "Phones", "Status", "Reason"].enum.filter
      (fun hi => headerKey hi.2 == "lead")) = [(0, "Lead")] := by decide
  have e2 : (["Lead", "State", "Website", "Phones", "Status", "Reason"].enum.filter
      (fun hi => headerKey hi.2 == "state")) = [(1, "State")] := by decide
  have e3 : (["Lead", "State", "Website", "Phones", "Status", "Reason"].enum.filter
      (fun hi => headerKey hi.2 == "website")) = [(2, "Website")] := by decide
  have e4 : (["Lead", "State", "Website", "Phones", "Status", "Reason"].enum.filter
      (fun hi => headerKey hi.2 == "phones")) = [(3, "Phones")] := by decide
  have e5 : (["Lead", "State", "Website", "Phones", "Status", "Reason"].enum.filter
      (fun hi => headerKey hi.2 == "status")) = [(4, "Status")] := by decide
  have e6 : (["Lead", "State", "Website", "Phones", "Status", "Reason"].enum.filter
      (fun hi => headerKey hi.2 == "reason")) = [(5, "Reason")] := by decide
  unfold rowProperty
  rw [e1, e2, e3, e4, e5, e6]
  exact ⟨rfl, rfl, rfl, rfl, rfl, rfl⟩

theorem orDefault_eq (s d : String) : orDefault (some s) d = if s = "" then d else s := by
  unfold orDefault
  by_cases h : s = "" <;> simp [h]

theorem prospectOfRow_prospectHeader (row : String) :
    prospectOfRow ["Lead", "State", "Website", "Phones", "Status", "Reason"]
      (String.mk (trimChars row.toList)) = specProspectOfRow row := by
  unfold prospectOfRow specProspectOfRow
  rw [parseCSVLine_jsTrim]
  have hlen := length_parseCSVLine_le row
  obtain ⟨r1, r2, r3, r4, r5, r6⟩ := rowProperty_prospectHeader (parseCSVLine row)
  simp only [r1, r2, r3, r4, r5, r6, orDefault_eq]
  generalize parseCSVLine row = values at hlen
  match values, hlen with
  | [], _ => simp
  | [_], _ => simp
  | [_, _], _ => simp
  | [_, _, _], _ => simp
  | [_, _, _, _], _ => simp
  | [_, _, _, _, _], _ => simp
  | [v0, v1, v2, v3, v4, v5], _ =>
    by_cases h0 : v0 = ""
    · simp [orEmpty, h0]
    · simp only [orEmpty, h0]
      simp
      repeat' constructor
      all_goals (intro e; first | exact e.symm | exact absurd e h0)
  | _ :: _ :: _ :: _ :: _ :: _ :: _ :: _, h => simp at h

/-- C22: under the header `Lead,State,Website,Phones,Status,Reason`, `parseProspectCSV`
returns, in input order, one prospect for each data row in which the line parser finds six
fields with a non-empty first one, and none for any other row; company, state, website,
phone and reason are fields 1 to 4 and 6, status is field 5, or `unreviewed` when that
field is empty. -/
theorem parseProspectCSV_lead_header (csv : String) (rows : List String)
    (h : nonBlankLines csv = prospectHeader :: rows) :
    parseProspectCSV csv = some (rows.filterMap specProspectOfRow) := by
  unfold parseProspectCSV
  rw [h]
  simp only [parseCSVLine_prospectHeader]
  congr 1
  apply List.filterMap_congr
  intro row _
  rw [prospectOfRow_prospectHeader]
  by_cases hb : (String.mk (trimChars row.toList) == "") = true
  · rw [if_pos hb]
    have e : trimChars row.toList = [] := by
      have := eq_of_beq hb
      exact congrArg String.data this
    unfold specProspectOfRow parseCSVLine
    rw [e]
    rfl
  · rw [if_neg hb]

/-- C22, as stated: a data row with six raw comma-separated tokens and a non-empty Lead
value, two of the tokens being the halves of a quoted company name, gives no prospect; and
a row with an empty Status column gives a prospect whose status is `unreviewed`. -/
theorem parseProspectCSV_raw_tokens_not_counted :
    nonBlankLines
        "Lead,State,Website,Phones,Status,Reason\n\"Acme, Inc\",TX,acme.example,555-0100,approved" =
      [prospectHeader, "\"Acme, Inc\",TX,acme.example,555-0100,approved"] ∧
    rawTokenCount "\"Acme, Inc\",TX,acme.example,555-0100,approved" = 6 ∧
    (parseCSVLine "\"Acme, Inc\",TX,acme.example,555-0100,approved").head? = some "Acme, Inc" ∧
    parseProspectCSV
        "Lead,State,Website,Phones,Status,Reason\n\"Acme, Inc\",TX,acme.example,555-0100,approved" =
      some [] ∧
    parseCSVLine "Acme,TX,acme.example,555-0100,,fits" =
      ["Acme", "TX", "acme.example", "555-0100", "", "fits"] ∧
    parseProspectCSV
        "Lead,State,Website,Phones,Status,Reason\nAcme,TX,acme.example,555-0100,,fits" =
      some [{ company := "Acme", state := "TX", website := "acme.example", phone := "555-0100",
              industry := "CNC Machining", source := "CSV Import", status := "unreviewed",
              reason := "fits", stage := "unreviewed" }] := by
  decide

/-- C30: `parseProspectCSV` raises for the empty string and for text of blank lines only,
and exactly for the texts without a non-blank line; `parseCSV`, the reader of lead files,
returns zero counts for the same texts. -/
theorem parseProspectCSV_raises_without_lines :
    parseProspectCSV "" = none ∧ parseProspectCSV "\n  \r\n\t\n" = none ∧
    (∀ csv, parseProspectCSV csv = none ↔ nonBlankLines csv = []) ∧
    (∀ db filename clock insert,
      parseCSV db "" filename clock insert = (db, { imported := 0, skipped := 0 })) := by
  refine ⟨by decide, by decide, ?_, ?_⟩
  · intro csv
    unfold parseProspectCSV
    cases nonBlankLines csv <;> simp
  · intro db filename clock insert
    rfl

/-! ## Leads CSV export -/

theorem foldl_append_line (f : Lead → String) (leads : List Lead) (init : String) :
    leads.foldl (fun csv lead => csv ++ (f lead ++ "\n")) init =
      init ++ linesText (leads.map f) := by
  induction leads generalizing init with
  | nil => simp [linesText]
  | cons lead leads ih =>
    simp only [List.foldl_cons, List.map_cons]
    rw [ih]
    simp [linesText, String.append_assoc]

theorem exportCSV_eq_linesText (db : Db) :
    exportCSV db = linesText (exportHeaderLine ::
      (getAllLeads db).map (fun lead => jsJoin "," ((exportRow lead).map quoteField))) := by
  unfold exportCSV
  rw [foldl_append_line]
  have e : jsJoin "," exportHeaders = exportHeaderLine := by decide
  rw [e]
  simp [linesText, String.append_assoc]

theorem jsJoin_exportRow (lead : Lead) :
    jsJoin "," ((exportRow lead).map quoteField) = specExportLine lead := by
  have h1 : "\",\"".data = ['"', ',', '"'] := rfl
  have h2 : "\"".data = ['"'] := rfl
  have h3 : ",".data = [','] := rfl
  apply String.ext
  simp only [exportRow, List.map_cons, List.map_nil, jsJoin, quoteField, specExportLine,
    String.data_append, h1, h2, h3, List.append_assoc, List.cons_append, List.nil_append]

/-- C23: the text `exportCSV` builds is the header line followed by one line per lead
of the store, in store order, every line ended by a line feed; the line of a lead is its
ten values company, website, lastCalled, state, industry, phone, contact, email, comments,
notes, an absent one of the last nine as the empty string, each put between two double
quotes as it is and joined by commas. -/
theorem exportCSV_text (db : Db) :
    exportCSV db = linesText (exportHeaderLine :: (getAllLeads db).map specExportLine) ∧
    (exportHeaderLine :: (getAllLeads db).map specExportLine).length =
      (getAllLeads db).length + 1 := by
  refine ⟨?_, by simp⟩
  have e : (getAllLeads db).map (fun lead => jsJoin "," ((exportRow lead).map quoteField)) =
      (getAllLeads db).map specExportLine :=
    List.map_congr_left (fun lead _ => jsJoin_exportRow lead)
  rw [exportCSV_eq_linesText, e]

/-! ## Export followed by import -/

theorem splitNewlineFrom_cons_ne (c : Char) (rest cur : List Char) (h : c ≠ '\n') :
    splitNewlineFrom (c :: rest) cur = splitNewlineFrom rest (cur ++ [c]) := by
  rw [splitNewlineFrom]
  exact h

theorem splitNewlineFrom_line : ∀ (l cur rest : List Char), '\n' ∉ l →
    splitNewlineFrom (l ++ '\n' :: rest) cur = (cur ++ l) :: splitNewlineFrom rest [] := by
  intro l
  induction l with
  | nil => intro cur rest _; simp [splitNewlineFrom]
  | cons c l ih =>
    intro cur rest h
    have hc : c ≠ '\n' := fun e => h (by simp [e])
    have hl : '\n' ∉ l := fun e => h (List.mem_cons_of_mem _ e)
    rw [List.cons_append, splitNewlineFrom_cons_ne c _ _ hc, ih _ _ hl]
    simp

theorem toList_linesText_cons (line : String) (lines : List String) :
    (linesText (line :: lines)).toList = line.toList ++ '\n' :: (linesText lines).toList := by
  simp [linesText, toList_append]

theorem splitNewlineFrom_linesText : ∀ (lines : List String),
    (∀ line ∈ lines, '\n' ∉ line.toList) →
    splitNewlineFrom (linesText lines).toList [] = lines.map String.toList ++ [[]] := by
  intro lines
  induction lines with
  | nil => intro _; rfl
  | cons line lines ih =>
    intro h
    rw [toList_linesText_cons, splitNewlineFrom_line _ _ _ (h line (List.mem_cons_self _ _)),
      ih (fun x hx => h x (List.mem_cons_of_mem _ hx))]
    simp

theorem csvLines_linesText (lines : List String) (h1 : ∀ line ∈ lines, '\n' ∉ line.toList)
    (h2 : ∀ line ∈ lines, trimChars line.toList ≠ []) :
    csvLines (linesText lines) = lines := by
  unfold csvLines
  rw [splitNewlineFrom_linesText lines h1, List.filter_append]
  have e1 : (lines.map String.toList).filter (fun l => !(trimChars l).isEmpty) =
      lines.map String.toList := by
    rw [List.filter_eq_self]
    intro l hl
    obtain ⟨line, hline, rfl⟩ := List.mem_map.mp hl
    have := h2 line hline
    cases hcase : trimChars line.toList with
    | nil => exact absurd hcase this
    | cons a b => rfl
  have e2 : [([] : List Char)].filter (fun l => !(trimChars l).isEmpty) = [] := by decide
  rw [e1, e2, List.append_nil, List.map_map]
  conv_rhs => rw [← List.map_id lines]
  apply List.map_congr_left
  intro line _
  rfl

theorem parseCSVLine_exportHeaderLine :
    parseCSVLine exportHeaderLine =
      ["Company", "Website", "Last Called", "State", "Industry",
        "Phone,Contact,Email,Comments,Notes"] := by
  decide

theorem parseCSVLine_exportRow (lead : Lead)
    (hq : ∀ f ∈ (exportRow lead).take 5, '"' ∉ f.toList) :
    ∃ sixth, parseCSVLine (jsJoin "," ((exportRow lead).map quoteField)) =
      [templateText lead.company, orEmpty lead.website, orEmpty lead.lastCalled,
        orEmpty lead.state, orEmpty lead.industry, sixth] := by
  unfold parseCSVLine
  rw [trimChars_jsJoin_quoted _ (by simp [exportRow])]
  simp only [exportRow, List.map_cons, List.map_nil, List.take, List.mem_cons,
    List.mem_singleton, forall_eq_or_imp, forall_eq] at hq ⊢
  obtain ⟨q1, q2, q3, q4, q5, _⟩ := hq
  rw [parseCSVLoop_quoted_step _ q1, if_neg (by norm_num),
    parseCSVLoop_quoted_step _ q2, if_neg (by norm_num),
    parseCSVLoop_quoted_step _ q3, if_neg (by norm_num),
    parseCSVLoop_quoted_step _ q4, if_neg (by norm_num),
    parseCSVLoop_quoted_step _ q5, if_pos (by norm_num)]
  exact ⟨_, rfl⟩

theorem not_mem_toList_exportLine (lead : Lead)
    (h : ∀ f ∈ exportRow lead, '\n' ∉ f.toList) :
    '\n' ∉ (jsJoin "," ((exportRow lead).map quoteField)).toList := by
  simp only [exportRow, List.mem_cons, List.mem_singleton, forall_eq_or_imp, forall_eq] at h
  obtain ⟨h0, h1, h2, h3, h4, h5, h6, h7, h8, h9, _⟩ := h
  have hc : ",".toList = [','] := rfl
  simp only [exportRow, List.map_cons, List.map_nil, jsJoin, toList_append,
    toList_quoteField, hc, List.mem_append, List.mem_cons, List.mem_singleton, not_or]
  simp only [h0, h1, h2, h3, h4, h5, h6, h7, h8, h9]
  simp

theorem trimChars_exportLine_ne_nil (lead : Lead) :
    trimChars (jsJoin "," ((exportRow lead).map quoteField)).toList ≠ [] := by
  rw [trimChars_jsJoin_quoted _ (by simp [exportRow])]
  intro e
  have := (head?_jsJoin_quoted (exportRow lead) (by simp [exportRow])).1
  rw [e] at this
  simp at this

theorem csvLines_exportCSV (db : Db)
    (h : ∀ lead ∈ getAllLeads db, ∀ f ∈ exportRow lead, '\n' ∉ f.toList) :
    csvLines (exportCSV db) = exportHeaderLine ::
      (getAllLeads db).map (fun lead => jsJoin "," ((exportRow lead).map quoteField)) := by
  rw [exportCSV_eq_linesText]
  apply csvLines_linesText
  · intro line hline
    rcases List.mem_cons.mp hline with rfl | hline
    · decide
    · obtain ⟨lead, hlead, rfl⟩ := List.mem_map.mp hline
      exact not_mem_toList_exportLine lead (h lead hlead)
  · intro line hline
    rcases List.mem_cons.mp hline with rfl | hline
    · decide
    · obtain ⟨lead, _, rfl⟩ := List.mem_map.mp hline
      exact trimChars_exportLine_ne_nil lead

theorem readsBack_rows (headers : List String) (hh : headers.length = 6) (filename : String)
    (clock : Nat → String) (insert : Nat → Option Nat) (hi : ∀ i, (insert i).isSome = true) :
    ∀ (leads : List Lead) (i : Nat),
      (∀ lead ∈ leads, ∀ f ∈ exportRow lead, '"' ∉ f.toList) →
      (∀ lead ∈ leads, ∃ c, lead.company = some c ∧ c ≠ "") →
      List.Forall₂ ReadsBack leads
        ((csvAttempts headers i
          (leads.map (fun lead => jsJoin "," ((exportRow lead).map quoteField)))).filterMap
            (insertedLead filename clock insert)) := by
  intro leads
  induction leads with
  | nil => intro i _ _; simp [csvAttempts]
  | cons lead leads ih =>
    intro i hq hc
    obtain ⟨c, hc1, hc2⟩ := hc lead (List.mem_cons_self _ _)
    obtain ⟨sixth, hp⟩ := parseCSVLine_exportRow lead
      (fun f hf => hq lead (List.mem_cons_self _ _) f (List.mem_of_mem_take hf))
    have he : rowEligible headers (jsJoin "," ((exportRow lead).map quoteField)) = true := by
      unfold rowEligible
      rw [hp, hh, hc1]
      simp [templateText, orEmpty, hc2]
    obtain ⟨key, hkey⟩ := Option.isSome_iff_exists.mp (hi i)
    have hrest := ih (i + 1) (fun l hl => hq l (List.mem_cons_of_mem _ hl))
      (fun l hl => hc l (List.mem_cons_of_mem _ hl))
    simp only [csvAttempts, List.map_cons, List.enumFrom_cons, List.filter_cons, he, if_true,
      List.filterMap_cons, insertedLead, hkey, Option.map_some']
    refine List.Forall₂.cons ?_ hrest
    rw [hp]
    simp [ReadsBack, leadDataOf, orEmpty, hc1, templateText]

/-- C24: for leads whose field values contain no double quote and no line feed and whose
company is not empty, `parseCSV` on the text of `exportCSV` adds one lead per exported lead,
in order, with the same company; the other columns are read by position, so the new lead
has the exported website as state, last call as website, state as email and industry as
phone. -/
theorem export_import_reads_positionally (db0 db : Db) (filename : String)
    (clock : Nat → String) (insert : Nat → Option Nat)
    (hv : ∀ lead ∈ getAllLeads db, ∀ f ∈ exportRow lead, '"' ∉ f.toList ∧ '\n' ∉ f.toList)
    (hc : ∀ lead ∈ getAllLeads db, ∃ c, lead.company = some c ∧ c ≠ "")
    (hi : ∀ i, (insert i).isSome = true) :
    ∃ added : List Lead,
      (parseCSV db0 (exportCSV db) filename clock insert).1.leads = db0.leads ++ added ∧
      List.Forall₂ ReadsBack (getAllLeads db) added := by
  have hl := csvLines_exportCSV db (fun lead hlead f hf => (hv lead hlead f hf).2)
  rw [parseCSV_cons hl]
  refine ⟨_, rfl, ?_⟩
  apply readsBack_rows _ (by rw [parseCSVLine_exportHeaderLine]; rfl) filename clock insert hi
  · exact fun lead hlead f hf => (hv lead hlead f hf).1
  · exact hc

/-- C24, as stated: a lead exported and read back.  The new lead has the company of the
exported one, but its state, email and phone are the exported website, state and industry,
and its industry is the rest of the row. -/
theorem export_import_not_round_trip :
    exportCSV exampleExportDb =
      "Company,Website,Last Called,State,Industry,Phone,Contact,Email,Comments,Notes\n\"Acme, Inc\",\"acme.example\",\"\",\"TX\",\"Machining\",\"555-0100\",\"\",\"info@acme.example\",\"\",\"\"\n" ∧
    (parseCSV {} (exportCSV exampleExportDb) "leads.csv" (fun _ => "2024-06-10T06:13:20.000Z")
        (fun _ => some 1)).1.leads =
      [{ id := some 1, company := some "Acme, Inc", contact := some "",
         email := some "TX", industry := some "555-0100\",\"\",\"info@acme.example\",\"\",\"",
         state := some "acme.example", website := some "", phone := some "Machining",
         comments := some "", notes := some "Imported from: leads.csv",
         dateAdded := some "2024-06-10T06:13:20.000Z" }] := by
  decide

/-! ## The company of a stored lead -/

theorem mem_putRecord {leads : List Lead} {key : Nat} {record l : Lead}
    (h : l ∈ putRecord leads key record) : l ∈ leads ∨ l = record := by
  unfold putRecord at h
  split_ifs at h
  · obtain ⟨x, hx, hxl⟩ := List.mem_map.mp h
    by_cases hk : (x.id == some key) = true
    · rw [if_pos hk] at hxl
      exact Or.inr hxl.symm
    · rw [if_neg hk] at hxl
      rw [← hxl]
      exact Or.inl hx
  · rcases List.mem_append.mp h with h1 | h1
    · exact Or.inl ((List.takeWhile_sublist _).subset h1)
    · rcases List.mem_cons.mp h1 with h2 | h2
      · exact Or.inr h2
      · exact Or.inl ((List.dropWhile_sublist _).subset h2)

theorem jsTrim_jsTrim (s : String) : jsTrim (jsTrim s) = jsTrim s := by
  unfold jsTrim
  show String.mk (trimChars (trimChars s.toList)) = _
  rw [trimChars_trimChars]

theorem saveLead_of_empty (db : Db) (form : LeadForm) (now modalTitle : String)
    (selectedRow : Option (Option Nat)) (result : Option Nat) (h : jsTrim form.company = "") :
    saveLead db form now modalTitle selectedRow result = db := by
  unfold saveLead
  simp [formDataOf, falsy, h]

theorem mem_saveLead (db : Db) (form : LeadForm) (now modalTitle : String)
    (selectedRow : Option (Option Nat)) (result : Option Nat) (l : Lead)
    (h : l ∈ (saveLead db form now modalTitle selectedRow result).leads) :
    l ∈ db.leads ∨ ∃ c, l.company = some c ∧ c ≠ "" ∧ jsTrim c = c := by
  unfold saveLead at h
  simp only at h
  by_cases hc : jsTrim form.company = ""
  · have hf : falsy (formDataOf form now).company = true := by simp [formDataOf, falsy, hc]
    rw [if_pos hf] at h
    exact Or.inl h
  · have hf : ¬ falsy (formDataOf form now).company = true := by simp [formDataOf, falsy, hc]
    rw [if_neg hf] at h
    have hnew : ∀ k : Option Nat, ∃ c, ({ formDataOf form now with id := k } : Lead).company =
        some c ∧ c ≠ "" ∧ jsTrim c = c :=
      fun k => ⟨jsTrim form.company, rfl, hc, jsTrim_jsTrim _⟩
    split_ifs at h
    · cases result with
      | none => exact Or.inl h
      | some key =>
        simp only [addLead] at h
        rcases List.mem_append.mp h with h1 | h1
        · exact Or.inl h1
        · rw [List.mem_singleton] at h1
          rw [h1]
          exact Or.inr (hnew _)
    · match selectedRow, h with
      | none, h => exact Or.inl h
      | some none, h => exact Or.inl h
      | some (some leadId), h =>
        simp only [updateLead] at h
        rcases mem_putRecord h with h1 | h1
        · exact Or.inl h1
        · rw [h1]
          exact Or.inr (hnew _)

theorem mem_csvAttempts {headers : List String} {i : Nat} {rows : List String}
    {p : Nat × String} (h : p ∈ csvAttempts headers i rows) :
    orEmpty ((parseCSVLine p.2).get? 0) ≠ "" := by
  unfold csvAttempts at h
  have := (List.mem_filter.mp h).2
  unfold rowEligible at this
  simp only [Bool.and_eq_true, Bool.not_eq_true', beq_eq_false_iff_ne] at this
  exact this.2

theorem mem_parseCSV (db : Db) (csv filename : String) (clock : Nat → String)
    (insert : Nat → Option Nat) (l : Lead)
    (h : l ∈ (parseCSV db csv filename clock insert).1.leads) :
    l ∈ db.leads ∨ ∃ c, l.company = some c ∧ c ≠ "" := by
  cases hl : csvLines csv with
  | nil =>
    unfold parseCSV at h
    rw [hl] at h
    exact Or.inl h
  | cons header rows =>
    rw [parseCSV_cons hl] at h
    rcases List.mem_append.mp h with h1 | h1
    · exact Or.inl h1
    · right
      obtain ⟨p, hp, hpl⟩ := List.mem_filterMap.mp h1
      unfold insertedLead at hpl
      obtain ⟨key, _, hkl⟩ := Option.map_eq_some'.mp hpl
      rw [← hkl]
      exact ⟨_, rfl, mem_csvAttempts hp⟩

theorem parseCSVRows_skip (headers : List String) (filename : String) (clock : Nat → String)
    (insert : Nat → Option Nat) (i : Nat) (line : String) (rows : List String) (db : Db)
    (counts : ImportResult) (h : orEmpty ((parseCSVLine line).get? 0) = "") :
    parseCSVRows headers filename clock insert i (line :: rows) db counts =
      parseCSVRows headers filename clock insert (i + 1) rows db counts := by
  rw [parseCSVRows]
  simp only
  split_ifs with h1 h2
  · rfl
  · rfl
  · exfalso
    apply h2
    have h3 : orEmpty (parseCSVLine line)[0]? = "" := by simpa using h
    simp [leadDataOf, falsy, h3]

/-- The guards on the company.  `saveLead`, adding or editing, leaves the store as it is
when the company field is empty after trimming, and every record it writes has a trimmed,
non-empty company; every record `parseCSV` writes has a non-empty company, the first field
of its row as the line parser returns it, and a row whose first field is empty is passed
over. -/
theorem company_present :
    (∀ db form now modalTitle selectedRow result, jsTrim form.company = "" →
      saveLead db form now modalTitle selectedRow result = db) ∧
    (∀ db form now modalTitle selectedRow result,
      ∀ l ∈ (saveLead db form now modalTitle selectedRow result).leads,
        l ∈ db.leads ∨ ∃ c, l.company = some c ∧ c ≠ "" ∧ jsTrim c = c) ∧
    (∀ db csv filename clock insert, ∀ l ∈ (parseCSV db csv filename clock insert).1.leads,
      l ∈ db.leads ∨ ∃ c, l.company = some c ∧ c ≠ "") ∧
    (∀ headers filename clock insert i line rows db counts,
      orEmpty ((parseCSVLine line).get? 0) = "" →
      parseCSVRows headers filename clock insert i (line :: rows) db counts =
        parseCSVRows headers filename clock insert (i + 1) rows db counts) :=
  ⟨saveLead_of_empty, mem_saveLead, mem_parseCSV, parseCSVRows_skip⟩

/-- C25 (code defect): a row whose company is a quoted blank.  The line parser in force
trims the field before it removes the quotes, so the company read is one space and
`parseCSV` stores the lead, whose company is empty after trimming.  The first
`parseCSVLine`, the reader of lead files that the later method of the same name replaces,
reads the empty string there, with which the row is passed over; `saveLead` refuses the
same company. -/
theorem parseCSV_blank_company_stored :
    (parseCSV {} "Company,State,Website,Email,Phone,Industry\n\" \",TX,acme.example,a@acme.example,555-0100,Tech"
        "leads.csv" (fun _ => "2024-06-10T06:13:20.000Z") (fun _ => some 1)).1.leads =
      [{ id := some 1, company := some " ", contact := some "", email := some "a@acme.example",
         industry := some "Tech", state := some "TX", website := some "acme.example",
         phone := some "555-0100", comments := some "",
         notes := some "Imported from: leads.csv",
         dateAdded := some "2024-06-10T06:13:20.000Z" }] ∧
    jsTrim " " = "" ∧
    parseCSVLine "\" \",TX,acme.example,a@acme.example,555-0100,Tech" =
      [" ", "TX", "acme.example", "a@acme.example", "555-0100", "Tech"] ∧
    parseCSVLineFirst "\" \",TX,acme.example,a@acme.example,555-0100,Tech" =
      ["", "TX", "acme.example", "a@acme.example", "555-0100", "Tech"] ∧
    saveLead {} { company := " ", contact := "", email := "a@acme.example", industry := "Tech",
                  state := "TX", website := "acme.example", phone := "555-0100", comments := "",
                  notes := "" } "2024-06-10T06:13:20.000Z" "Add Lead" none (some 1) = {} := by
  decide

/-! ## Filtering the lead views -/

theorem asciiLowerCase_eq_empty (s : String) : asciiLowerCase s = "" ↔ s = "" := by
  constructor
  · intro h
    have h1 : s.toList.map Char.toLower = [] := congrArg String.data h
    have h2 : s.toList = [] := List.map_eq_nil_iff.mp h1
    exact String.ext h2
  · intro h
    rw [h]
    rfl

theorem jsIncludes_iff (s t : String) :
    jsIncludes s t = true ↔ List.IsInfix t.toList s.toList := by
  unfold jsIncludes
  rw [List.any_eq_true]
  constructor
  · rintro ⟨suffix, hs, hp⟩
    exact List.infix_iff_prefix_suffix.mpr
      ⟨suffix, List.isPrefixOf_iff_prefix.mp hp, (List.mem_tails _ _).mp hs⟩
  · intro h
    obtain ⟨suffix, hp, hs⟩ := List.infix_iff_prefix_suffix.mp h
    exact ⟨suffix, (List.mem_tails _ _).mpr hs, List.isPrefixOf_iff_prefix.mpr hp⟩

theorem optIncludes_iff (toLowerCase : String → String) (value : Option String)
    (term : String) :
    optIncludes toLowerCase value term = true ↔ OccursIn toLowerCase term value := by
  cases value with
  | none => simp [optIncludes, OccursIn]
  | some s => exact jsIncludes_iff _ _

theorem optIncludes_eq_decide (toLowerCase : String → String) (value : Option String)
    (term : String) :
    optIncludes toLowerCase value term = decide (OccursIn toLowerCase term value) := by
  rw [Bool.eq_iff_iff, optIncludes_iff]
  simp

theorem filterStateIndustry_eq (stateFilter industryFilter : String) (leads : List Lead) :
    filterStateIndustry stateFilter industryFilter leads =
      leads.filter (fun lead => decide (PassesSelects stateFilter industryFilter lead)) := by
  unfold filterStateIndustry PassesSelects
  by_cases hs : stateFilter = "all" <;> by_cases hi : industryFilter = "all"
  · simp [hs, hi]
  · simp only [hs, hi, ne_eq, not_true_eq_false, not_false_eq_true, if_true, if_false]
    apply List.filter_congr
    intro lead _
    rw [Bool.eq_iff_iff]
    simp [hi]
  · simp only [hs, hi, ne_eq, not_true_eq_false, not_false_eq_true, if_true, if_false]
    apply List.filter_congr
    intro lead _
    rw [Bool.eq_iff_iff]
    simp [hs]
  · simp only [hs, hi, ne_eq, not_true_eq_false, not_false_eq_true, if_true, if_false,
      List.filter_filter]
    apply List.filter_congr
    intro lead _
    rw [Bool.eq_iff_iff]
    simp [hs, hi, and_comm]

theorem filterRaising_of_company (toLowerCase : String → String) (searchTerm : String) :
    ∀ (leads : List Lead), (∀ lead ∈ leads, lead.company ≠ none) →
    filterRaising (searchMatch toLowerCase searchTerm) leads =
      some (leads.filter (fun lead =>
        optIncludes toLowerCase lead.company searchTerm ||
          optIncludes toLowerCase lead.contact searchTerm ||
          optIncludes toLowerCase lead.email searchTerm)) := by
  intro leads
  induction leads with
  | nil => intro _; rfl
  | cons lead leads ih =>
    intro h
    have hc := h lead (List.mem_cons_self _ _)
    obtain ⟨company, hcompany⟩ := Option.ne_none_iff_exists'.mp hc
    rw [filterRaising, ih (fun l hl => h l (List.mem_cons_of_mem _ hl))]
    simp only [searchMatch, hcompany, optIncludes, List.filter_cons]

theorem filterRaising_raises (toLowerCase : String → String) (searchTerm : String) :
    ∀ (leads : List Lead), (∃ lead ∈ leads, lead.company = none) →
    filterRaising (searchMatch toLowerCase searchTerm) leads = none := by
  intro leads
  induction leads with
  | nil => rintro ⟨_, h, _⟩; simp at h
  | cons lead leads ih =>
    rintro ⟨l, hl, hc⟩
    rw [filterRaising]
    cases hlead : lead.company with
    | none => simp [searchMatch, hlead]
    | some company =>
      have hmem : l ∈ leads := by
        rcases List.mem_cons.mp hl with rfl | h
        · rw [hlead] at hc; cases hc
        · exact h
      simp [searchMatch, hlead, ih ⟨l, hmem, hc⟩]

/-- C26: for a lower-casing that makes no non-empty string empty.  In the `leads` view,
when the search text is empty or every lead that passes the two selects has a company,
`filterLeads` returns the leads, in their order, that pass the selects (state equal to the
state filter unless it is `all`, industry likewise) and, for a non-empty search text, have
the lower-cased text in the lower-cased company, contact or email; when the search text is
not empty and a lead that passes the selects has no company it raises.  In the `queue`
view it returns the leads that pass the selects and, for a non-empty notes text, have the
lower-cased text in the lower-cased notes.  With every select on `all` and the text empty
the list comes back unchanged. -/
theorem filterLeads_spec (toLowerCase : String → String)
    (hlow : ∀ s, toLowerCase s = "" ↔ s = "") (controls : FilterControls) (leads : List Lead) :
    ((controls.searchInput = "" ∨
        ∀ lead ∈ leads, PassesSelects controls.stateFilter controls.industryFilter lead →
          lead.company ≠ none) →
      filterLeads toLowerCase controls leads "leads" =
        some (leads.filter (fun lead => decide (PassesLeadsView toLowerCase controls lead)))) ∧
    (controls.searchInput ≠ "" →
      (∃ lead ∈ leads, PassesSelects controls.stateFilter controls.industryFilter lead ∧
        lead.company = none) →
      filterLeads toLowerCase controls leads "leads" = none) ∧
    filterLeads toLowerCase controls leads "queue" =
      some (leads.filter (fun lead => decide (PassesQueueView toLowerCase controls lead))) ∧
    (controls.stateFilter = "all" → controls.industryFilter = "all" →
      controls.searchInput = "" → filterLeads toLowerCase controls leads "leads" = some leads) ∧
    (controls.queueStateFilter = "all" → controls.queueIndustryFilter = "all" →
      controls.notesFilter = "" → filterLeads toLowerCase controls leads "queue" = some leads) := by
  have h0 : toLowerCase "" = "" := (hlow "").mpr rfl
  have hq : ("queue" = "leads") = False := by decide
  refine ⟨?_, ?_, ?_, ?_, ?_⟩
  · intro hc
    unfold filterLeads
    simp only [if_true]
    by_cases ht : controls.searchInput = ""
    · rw [if_neg (by rw [ht, h0]; simp), filterStateIndustry_eq]
      congr 1
      apply List.filter_congr
      intro lead _
      simp [PassesLeadsView, ht]
    · have hn : toLowerCase controls.searchInput ≠ "" := fun e => ht ((hlow _).mp e)
      have hc' := hc.resolve_left ht
      rw [if_pos hn, filterStateIndustry_eq, filterRaising_of_company, List.filter_filter]
      · congr 1
        apply List.filter_congr
        intro lead _
        simp only [optIncludes_eq_decide, PassesLeadsView, ht, false_or]
        rw [Bool.eq_iff_iff]
        simp only [Bool.and_eq_true, Bool.or_eq_true, decide_eq_true_eq]
        tauto
      · intro lead hl
        have := List.mem_filter.mp hl
        exact hc' lead this.1 (by simpa using this.2)
  · intro ht hex
    have hn : toLowerCase controls.searchInput ≠ "" := fun e => ht ((hlow _).mp e)
    unfold filterLeads
    simp only [if_true]
    rw [if_pos hn, filterStateIndustry_eq]
    apply filterRaising_raises
    obtain ⟨lead, hl, hp, hc⟩ := hex
    exact ⟨lead, List.mem_filter.mpr ⟨hl, by simpa using hp⟩, hc⟩
  · unfold filterLeads
    simp only [hq, if_false, if_true]
    by_cases ht : controls.notesFilter = ""
    · rw [if_neg (by rw [ht, h0]; simp), filterStateIndustry_eq]
      congr 1
      apply List.filter_congr
      intro lead _
      simp [PassesQueueView, ht]
    · have hn : toLowerCase controls.notesFilter ≠ "" := fun e => ht ((hlow _).mp e)
      rw [if_pos hn, filterStateIndustry_eq, List.filter_filter]
      congr 1
      apply List.filter_congr
      intro lead _
      simp only [optIncludes_eq_decide, PassesQueueView, ht, false_or]
      rw [Bool.eq_iff_iff]
      simp only [Bool.and_eq_true, decide_eq_true_eq]
      tauto
  · intro h1 h2 h3
    unfold filterLeads
    simp [filterStateIndustry, h1, h2, h3, h0]
  · intro h1 h2 h3
    unfold filterLeads
    simp [hq, filterStateIndustry, h1, h2, h3, h0]

/-- C26, as stated: with every select on `all` and the search text `a`, a list holding a
lead without company makes `filterLeads` raise, where the claim gives the sublist of the
leads that match. -/
theorem filterLeads_raises_without_company :
    filterLeads asciiLowerCase (exampleControls "a" "")
        [{ id := some 1, company := some "Acme" }, { id := some 4 }] "leads" = none ∧
    filterLeads asciiLowerCase (exampleControls "a" "")
        [{ id := some 1, company := some "Acme" }] "leads" =
      some [{ id := some 1, company := some "Acme" }] := by
  decide

/-! ## Phone numbers -/

theorem isDigit_phoneDigits (phone : String) : ∀ c ∈ phoneDigits phone, c.isDigit = true := by
  intro c hc
  exact (List.mem_filter.mp hc).2

theorem filter_isDigit_of_all {d : List Char} (h : ∀ c ∈ d, c.isDigit = true) :
    d.filter Char.isDigit = d :=
  List.filter_eq_self.mpr h

theorem phoneDigits_mk (l : List Char) : phoneDigits (String.mk l) = l.filter Char.isDigit := rfl

theorem take_drop_three (d : List Char) :
    d.take 3 ++ ((d.drop 3).take 3 ++ d.drop 6) = d := by
  have e : d.drop 6 = (d.drop 3).drop 3 := by rw [List.drop_drop]
  rw [e, List.take_append_drop, List.take_append_drop]

theorem phoneDigits_format10 {d : List Char} (h : ∀ c ∈ d, c.isDigit = true) :
    phoneDigits (String.mk (['('] ++ d.take 3 ++ [')', ' '] ++ (d.drop 3).take 3 ++ ['-'] ++
      d.drop 6)) = d := by
  rw [phoneDigits_mk]
  simp only [List.filter_append]
  rw [filter_isDigit_of_all (fun c hc => h c (List.mem_of_mem_take hc)),
    filter_isDigit_of_all (fun c hc => h c (List.mem_of_mem_drop (List.mem_of_mem_take hc))),
    filter_isDigit_of_all (fun c hc => h c (List.mem_of_mem_drop hc))]
  have e1 : ['('].filter Char.isDigit = [] := by decide
  have e2 : [')', ' '].filter Char.isDigit = [] := by decide
  have e3 : ['-'].filter Char.isDigit = [] := by decide
  rw [e1, e2, e3]
  simp only [List.nil_append, List.append_nil, List.append_assoc]
  exact take_drop_three d

theorem phoneDigits_format11 {d : List Char} (h : ∀ c ∈ d, c.isDigit = true)
    (h1 : d.head? = some '1') :
    phoneDigits (String.mk (['+', '1', ' ', '('] ++ (d.drop 1).take 3 ++ [')', ' '] ++
      (d.drop 4).take 3 ++ ['-'] ++ d.drop 7)) = d := by
  rw [phoneDigits_mk]
  simp only [List.filter_append]
  rw [filter_isDigit_of_all (fun c hc => h c (List.mem_of_mem_drop (List.mem_of_mem_take hc))),
    filter_isDigit_of_all (fun c hc => h c (List.mem_of_mem_drop (List.mem_of_mem_take hc))),
    filter_isDigit_of_all (fun c hc => h c (List.mem_of_mem_drop hc))]
  have e1 : ['+', '1', ' ', '('].filter Char.isDigit = ['1'] := by decide
  have e2 : [')', ' '].filter Char.isDigit = [] := by decide
  have e3 : ['-'].filter Char.isDigit = [] := by decide
  rw [e1, e2, e3]
  simp only [List.nil_append, List.append_nil, List.append_assoc]
  cases d with
  | nil => simp at h1
  | cons a d =>
    simp only [List.head?_cons, Option.some.injEq] at h1
    subst h1
    simp only [List.drop_succ_cons, List.drop_zero, List.singleton_append, List.cons.injEq,
      true_and]
    exact take_drop_three d

theorem phoneDigits_format7 {d : List Char} (h : ∀ c ∈ d, c.isDigit = true) :
    phoneDigits (String.mk (d.take 3 ++ ['-'] ++ d.drop 3)) = d := by
  rw [phoneDigits_mk]
  simp only [List.filter_append]
  rw [filter_isDigit_of_all (fun c hc => h c (List.mem_of_mem_take hc)),
    filter_isDigit_of_all (fun c hc => h c (List.mem_of_mem_drop hc))]
  have e3 : ['-'].filter Char.isDigit = [] := by decide
  rw [e3]
  simp

theorem mk_ne_empty {l : List Char} (h : l ≠ []) : String.mk l ≠ "" := by
  intro e
  exact h (congrArg String.data e)

theorem isDigit_iff_mem (c : Char) :
    c.isDigit = "0123456789".toList.contains c := by
  rw [Bool.eq_iff_iff]
  constructor
  · intro h
    have h1 : 48 ≤ c.toNat ∧ c.toNat ≤ 57 := by
      simp only [Char.isDigit, Bool.and_eq_true, decide_eq_true_eq] at h
      have a := h.1
      have b := h.2
      simp only [UInt32.le_def, Fin.le_def] at a b
      exact ⟨a, b⟩
    have h2 : c = Char.ofNat c.toNat := (Char.ofNat_toNat c).symm
    obtain ⟨a, b⟩ := h1
    interval_cases hc : c.toNat <;> rw [h2] <;> decide
  · intro h
    have h1 : c ∈ "0123456789".toList := by simpa using h
    have h2 : ∀ x ∈ "0123456789".toList, x.isDigit = true := by decide
    exact h2 c h1

theorem phoneDigits_eq_digitCharsOf (phone : String) : phoneDigits phone = digitCharsOf phone := by
  unfold phoneDigits digitCharsOf
  apply List.filter_congr
  intro c _
  exact isDigit_iff_mem c

theorem formatPhoneNumber_digits (phone : Option String) :
    optDigitChars (formatPhoneNumber phone) = optDigitChars phone := by
  cases phone with
  | none => rfl
  | some p =>
    unfold formatPhoneNumber
    simp only
    have hd := isDigit_phoneDigits p
    split_ifs with h0 h10 h11 h7
    · rfl
    · simp only [optDigitChars, ← phoneDigits_eq_digitCharsOf]
      exact phoneDigits_format10 hd
    · simp only [optDigitChars, ← phoneDigits_eq_digitCharsOf]
      exact phoneDigits_format11 hd h11.2
    · simp only [optDigitChars, ← phoneDigits_eq_digitCharsOf]
      exact phoneDigits_format7 hd
    · rfl

theorem formatPhoneNumber_idempotent (phone : Option String) :
    formatPhoneNumber (formatPhoneNumber phone) = formatPhoneNumber phone := by
  cases phone with
  | none => rfl
  | some p =>
    have hd := isDigit_phoneDigits p
    by_cases h0 : p = ""
    · simp [formatPhoneNumber, h0]
    · by_cases h10 : (phoneDigits p).length = 10
      · have e : formatPhoneNumber (some p) = some (String.mk (['('] ++ (phoneDigits p).take 3 ++
            [')', ' '] ++ ((phoneDigits p).drop 3).take 3 ++ ['-'] ++ (phoneDigits p).drop 6)) := by
          simp only [formatPhoneNumber, if_neg h0, if_pos h10]
        rw [e]
        conv_lhs => rw [formatPhoneNumber]
        simp only
        rw [if_neg (mk_ne_empty (by simp)), phoneDigits_format10 hd, if_pos h10]
      · by_cases h11 : (phoneDigits p).length = 11 ∧ (phoneDigits p).head? = some '1'
        · have e : formatPhoneNumber (some p) = some (String.mk (['+', '1', ' ', '('] ++
              ((phoneDigits p).drop 1).take 3 ++ [')', ' '] ++ ((phoneDigits p).drop 4).take 3 ++
              ['-'] ++ (phoneDigits p).drop 7)) := by
            simp only [formatPhoneNumber, if_neg h0, if_neg h10, if_pos h11]
          rw [e]
          conv_lhs => rw [formatPhoneNumber]
          simp only
          rw [if_neg (mk_ne_empty (by simp)), phoneDigits_format11 hd h11.2, if_neg h10,
            if_pos h11]
        · by_cases h7 : (phoneDigits p).length = 7
          · have e : formatPhoneNumber (some p) = some (String.mk ((phoneDigits p).take 3 ++
                ['-'] ++ (phoneDigits p).drop 3)) := by
              simp only [formatPhoneNumber, if_neg h0, if_neg h10, if_neg h11, if_pos h7]
            rw [e]
            conv_lhs => rw [formatPhoneNumber]
            simp only
            rw [if_neg (mk_ne_empty (by simp)), phoneDigits_format7 hd, if_neg h10, if_neg h11,
              if_pos h7]
          · have e : formatPhoneNumber (some p) = some p := by
              simp only [formatPhoneNumber, if_neg h0, if_neg h10, if_neg h11, if_neg h7]
            rw [e, e]

/-- C27: a phone string whose digit characters are exactly `d0` to `d9`, in order, is
formatted by `formatPhoneNumber` as `(d0d1d2) d3d4d5-d6d7d8d9`, and the callback of
`normalizePhones` gives the same string for it, alone in the result when it is the only
match; for every input `formatPhoneNumber` keeps the sequence of digit characters and
returns its own output unchanged. -/
theorem phone_normalisation (phone : String) (d0 d1 d2 d3 d4 d5 d6 d7 d8 d9 : Char)
    (h : digitCharsOf phone = [d0, d1, d2, d3, d4, d5, d6, d7, d8, d9]) :
    formatPhoneNumber (some phone) =
        some (String.mk ['(', d0, d1, d2, ')', ' ', d3, d4, d5, '-', d6, d7, d8, d9]) ∧
    normalizeMatch phone =
        String.mk ['(', d0, d1, d2, ')', ' ', d3, d4, d5, '-', d6, d7, d8, d9] ∧
    (∀ text, falsy text = false →
      normalizePhones text [phone] =
        String.mk ['(', d0, d1, d2, ')', ' ', d3, d4, d5, '-', d6, d7, d8, d9]) ∧
    (∀ p, optDigitChars (formatPhoneNumber p) = optDigitChars p) ∧
    (∀ p, formatPhoneNumber (formatPhoneNumber p) = formatPhoneNumber p) := by
  rw [← phoneDigits_eq_digitCharsOf] at h
  have hne : phone ≠ "" := by
    intro e
    rw [e] at h
    have e0 : phoneDigits "" = [] := by decide
    rw [e0] at h
    exact absurd h (by simp)
  have hm : normalizeMatch phone =
      String.mk ['(', d0, d1, d2, ')', ' ', d3, d4, d5, '-', d6, d7, d8, d9] := by
    unfold normalizeMatch
    simp [h]
  refine ⟨?_, hm, ?_, formatPhoneNumber_digits, formatPhoneNumber_idempotent⟩
  · unfold formatPhoneNumber
    simp [hne, h]
  · intro text ht
    unfold normalizePhones
    rw [ht]
    simp [jsJoin, hm]

/-- The phone numbers of the tests, formatted: ten digits with and without separators,
eleven digits with a leading 1 (which the scraper prints without the country code), seven
digits, and a string of another length, which stays as it is. -/
theorem phone_normalisation_examples :
    formatPhoneNumber (some "5551234567") = some "(555) 123-4567" ∧
    formatPhoneNumber (some "555-123-4567") = some "(555) 123-4567" ∧
    formatPhoneNumber (some "(555) 123-4567") = some "(555) 123-4567" ∧
    formatPhoneNumber (some "+1 555 123 4567") = some "+1 (555) 123-4567" ∧
    formatPhoneNumber (some "123 4567") = some "123-4567" ∧
    formatPhoneNumber (some "ext. 12345") = some "ext. 12345" ∧
    formatPhoneNumber (some "") = some "" ∧ formatPhoneNumber none = none ∧
    normalizeMatch "555.123.4567" = "(555) 123-4567" ∧
    normalizeMatch "+1 555 123 4567" = "(555) 123-4567" ∧
    normalizePhones (some "call 555.123.4567 or 1-555-765-4321")
      ["555.123.4567", "1-555-765-4321"] = "(555) 123-4567; (555) 765-4321" ∧
    normalizePhones (some "") [] = "" ∧ normalizePhones none [] = "" := by
  decide

/-! ## Monotonicity of the default queue -/

theorem unitsLt_trans : ∀ (a b c : List Nat), unitsLt a b = true → unitsLt b c = true →
    unitsLt a c = true := by
  intro a
  induction a with
  | nil =>
    intro b c h1 h2
    cases b with
    | nil => simp [unitsLt] at h1
    | cons y b =>
      cases c with
      | nil => simp [unitsLt] at h2
      | cons z c => simp [unitsLt]
  | cons x a ih =>
    intro b c h1 h2
    cases b with
    | nil => simp [unitsLt] at h1
    | cons y b =>
      cases c with
      | nil => simp [unitsLt] at h2
      | cons z c =>
        simp only [unitsLt] at h1 h2 ⊢
        by_cases hxy : x < y
        · by_cases hyz : y < z
          · rw [if_pos (by omega)]
          · rw [if_neg hyz] at h2
            by_cases hzy : z < y
            · rw [if_pos hzy] at h2; exact absurd h2 (by simp)
            · rw [if_pos (by omega)]
        · rw [if_neg hxy] at h1
          by_cases hyx : y < x
          · rw [if_pos hyx] at h1; exact absurd h1 (by simp)
          · rw [if_neg hyx] at h1
            have hxy' : x = y := by omega
            subst hxy'
            by_cases hxz : x < z
            · rw [if_pos hxz]
            · rw [if_neg hxz] at h2 ⊢
              by_cases hzx : z < x
              · rw [if_pos hzx] at h2; exact absurd h2 (by simp)
              · rw [if_neg hzx] at h2 ⊢
                exact ih b c h1 h2

theorem defaultQueuePred_mono {t1 t2 : String} (h : t1 = t2 ∨ jsStrLt t1 t2 = true)
    (l : Lead) (hl : defaultQueuePred t1 l = true) : defaultQueuePred t2 l = true := by
  rcases h with rfl | h
  · exact hl
  · unfold defaultQueuePred at hl ⊢
    cases hc : l.lastCalled with
    | none => simp [falsy]
    | some s =>
      rw [hc] at hl
      simp only [Bool.or_eq_true] at hl ⊢
      rcases hl with hl | hl
      · left; exact hl
      · right
        exact unitsLt_trans _ _ _ hl h

/-- A threshold before year 0000 prints with a leading minus sign, which sorts before the
first digit of a threshold of the years 0000 to 9999. -/
theorem jsStrLt_toISOString_of_negativeYear {t1 t2 : Int} (h1 : -maxTimeValue ≤ t1)
    (h2 : t1 < -62167219200000) (hf : FourDigitYear t2) :
    ∃ s1 s2, toISOString t1 = some s1 ∧ toISOString t2 = some s2 ∧ jsStrLt s1 s2 = true := by
  have v1 : ¬ (t1 < -maxTimeValue ∨ maxTimeValue < t1) := by
    simp only [maxTimeValue] at *; omega
  have v2 : ¬ (t2 < -maxTimeValue ∨ maxTimeValue < t2) := by
    unfold FourDigitYear at hf; simp only [maxTimeValue]; omega
  refine ⟨_, _, if_neg v1, if_neg v2, ?_⟩
  have hy := yearFromDay_fourDigit hf
  have hneg : yearFromDay (t1 / msPerDay) < 0 := by
    have h0 : yearFromDay (-719529) = -1 := by decide
    have l0 : t1 / msPerDay ≤ -719529 := by simp only [msPerDay]; omega
    have := yearFromDay_mono l0
    omega
  have hn : ¬ (0 ≤ (dateFields t1).year ∧ (dateFields t1).year ≤ 9999) := by
    simp only [dateFields]; omega
  have hp : 0 ≤ (dateFields t2).year ∧ (dateFields t2).year ≤ 9999 := by
    simp only [dateFields]; exact hy
  have hlt : (dateFields t1).year < 0 := by simp only [dateFields]; exact hneg
  have e45 : utf16Units '-' = [45] := rfl
  unfold jsStrLt jsUnits
  show unitsLt (charsUnits (isoChars (dateFields t1))) (charsUnits (isoChars (dateFields t2))) = _
  simp only [isoChars, isoYear, hn, hp, hlt, and_self, if_true, if_false, charsUnits_append,
    charsUnits_cons, charsUnits_padDigits, e45, List.singleton_append, List.append_assoc,
    List.cons_append, List.nil_append, padUnits, unitsLt]
  rw [if_pos (by omega)]

theorem getQueueLeads_default_invalid (app : App) (now days : Int) (leads : List Lead)
    (hq : app.currentQueue = QueueSel.default) (hd : app.config.callQueueDays = some days)
    (ht : toISOString (now - days * msPerDay) = none) :
    getQueueLeads app now leads = [] := by
  unfold getQueueLeads
  rw [hq]
  simp only [queueThreshold_some _ _ _ hd, ht]

theorem filter_defaultQueuePred_recordsCall {calledAt : Lead → Option Int} {leads : List Lead}
    {thr : Int} {t : String} (hl : ∀ l ∈ leads, RecordsCall calledAt l)
    (h1 : -maxTimeValue ≤ thr) (h2 : thr ≤ 253402300799999) (ht : toISOString thr = some t) :
    leads.filter (defaultQueuePred t) =
      leads.filter (fun l =>
        match calledAt l with
        | none => true
        | some c => decide (c < thr)) := by
  apply List.filter_congr
  intro l hmem
  exact defaultQueuePred_recordsCall (hl l hmem) h1 h2 ht

theorem toISOString_isSome {t : Int} (h1 : -maxTimeValue ≤ t) (h2 : t ≤ 253402300799999) :
    ∃ s, toISOString t = some s := by
  have v : ¬ (t < -maxTimeValue ∨ maxTimeValue < t) := by
    simp only [maxTimeValue] at *; omega
  exact ⟨_, if_neg v⟩

theorem getQueueLeads_default_sublist (app1 app2 : App) (now1 now2 days1 days2 : Int)
    (leads : List Lead) (calledAt : Lead → Option Int)
    (hq1 : app1.currentQueue = QueueSel.default) (hq2 : app2.currentQueue = QueueSel.default)
    (hd1 : app1.config.callQueueDays = some days1) (hd2 : app2.config.callQueueDays = some days2)
    (hv : -maxTimeValue ≤ now2 - days2 * msPerDay)
    (hy : now2 - days2 * msPerDay ≤ 253402300799999)
    (hl : FourDigitYear (now2 - days2 * msPerDay) ∨ ∀ l ∈ leads, RecordsCall calledAt l)
    (h : now1 - days1 * msPerDay ≤ now2 - days2 * msPerDay) :
    List.Sublist (getQueueLeads app1 now1 leads) (getQueueLeads app2 now2 leads) := by
  by_cases hv1 : -maxTimeValue ≤ now1 - days1 * msPerDay
  · obtain ⟨s1, e1⟩ := toISOString_isSome hv1 (le_trans h hy)
    obtain ⟨s2, e2⟩ := toISOString_isSome hv hy
    rw [getQueueLeads_default app1 now1 days1 leads s1 hq1 hd1 e1,
      getQueueLeads_default app2 now2 days2 leads s2 hq2 hd2 e2]
    rcases hl with hf | hr
    · apply List.monotone_filter_right
      intro l hl
      apply defaultQueuePred_mono _ l hl
      rcases lt_or_eq_of_le h with hlt | heq
      · right
        by_cases hn : -62167219200000 ≤ now1 - days1 * msPerDay
        · have hf1 : FourDigitYear (now1 - days1 * msPerDay) := ⟨hn, le_trans h hy⟩
          obtain ⟨a, b, ea, eb, hab⟩ := jsStrLt_toISOString hf1 hf
          rw [e1] at ea
          rw [e2] at eb
          rw [Option.some.inj ea, Option.some.inj eb, hab]
          exact decide_eq_true hlt
        · obtain ⟨a, b, ea, eb, hab⟩ :=
            jsStrLt_toISOString_of_negativeYear hv1 (not_le.mp hn) hf
          rw [e1] at ea
          rw [e2] at eb
          rw [Option.some.inj ea, Option.some.inj eb, hab]
      · left
        rw [heq] at e1
        rw [e1] at e2
        exact Option.some.inj e2
    · rw [filter_defaultQueuePred_recordsCall hr hv1 (le_trans h hy) e1,
        filter_defaultQueuePred_recordsCall hr hv hy e2]
      apply List.monotone_filter_right
      intro l hl
      cases hc : calledAt l with
      | none => simp [hc]
      | some c =>
        simp only [hc, decide_eq_true_eq] at hl ⊢
        omega
  · have e1 : toISOString (now1 - days1 * msPerDay) = none := by
      unfold toISOString
      rw [if_pos (Or.inl (not_le.mp hv1))]
    rw [getQueueLeads_default_invalid app1 now1 days1 leads hq1 hd1 e1]
    exact List.nil_sublist _

/-- C29: for a fixed lead list and the default queue, when the later threshold
`now2 - days2 * 24h` is a valid time value not after year 9999 and either it is not before
year 0000 or every lead's `lastCalled` is absent or the ISO string of an instant of the
years 0000 to 9999, a later clock reading with the same `callQueueDays`, or a smaller
`callQueueDays` at the same clock reading, keeps every lead of the queue: the earlier queue
is a sublist of the later one. -/
theorem default_queue_monotone (app1 app2 : App) (now1 now2 days1 days2 : Int)
    (leads : List Lead) (calledAt : Lead → Option Int)
    (hq1 : app1.currentQueue = QueueSel.default) (hq2 : app2.currentQueue = QueueSel.default)
    (hd1 : app1.config.callQueueDays = some days1) (hd2 : app2.config.callQueueDays = some days2)
    (hv : -maxTimeValue ≤ now2 - days2 * msPerDay)
    (hy : now2 - days2 * msPerDay ≤ 253402300799999)
    (hl : FourDigitYear (now2 - days2 * msPerDay) ∨ ∀ l ∈ leads, RecordsCall calledAt l)
    (h : (now1 ≤ now2 ∧ days1 = days2) ∨ (now1 = now2 ∧ days2 ≤ days1)) :
    List.Sublist (getQueueLeads app1 now1 leads) (getQueueLeads app2 now2 leads) ∧
    ∀ l ∈ getQueueLeads app1 now1 leads, l ∈ getQueueLeads app2 now2 leads := by
  have hs := getQueueLeads_default_sublist app1 app2 now1 now2 days1 days2 leads calledAt
    hq1 hq2 hd1 hd2 hv hy hl (by
      have hm : (0 : Int) ≤ msPerDay := by decide
      rcases h with ⟨h1, h2⟩ | ⟨h1, h2⟩
      · rw [h2]; omega
      · rw [h1]
        have := Int.mul_le_mul_of_nonneg_right h2 hm
        omega)
  exact ⟨hs, fun l hl => hs.subset hl⟩

/-- C29, as stated: at one clock reading, with `callQueueDays` lowered from 7 to
-200000000 the threshold is no valid date and the queue is empty, and with -3000000 the
threshold is in year 10238 and the lead called in 2024 leaves the queue; and with both
thresholds before year 0000 (1500000 and 1000000 days) a lead whose `lastCalled` is a
string of the year -1000 is in the first queue and not in the second. -/
theorem default_queue_not_monotone :
    getQueueLeads { config := { callQueueDays := some 7 } } 1718000000000
        [{ id := some 1, company := some "Acme" },
         { id := some 2, company := some "Bolt", lastCalled := some "2024-06-01T00:00:00.000Z" }] =
      [{ id := some 1, company := some "Acme" },
       { id := some 2, company := some "Bolt", lastCalled := some "2024-06-01T00:00:00.000Z" }] ∧
    getQueueLeads { config := { callQueueDays := some (-200000000) } } 1718000000000
        [{ id := some 1, company := some "Acme" },
         { id := some 2, company := some "Bolt", lastCalled := some "2024-06-01T00:00:00.000Z" }] =
      [] ∧
    getQueueLeads { config := { callQueueDays := some (-3000000) } } 1718000000000
        [{ id := some 1, company := some "Acme" },
         { id := some 2, company := some "Bolt", lastCalled := some "2024-06-01T00:00:00.000Z" }] =
      [{ id := some 1, company := some "Acme" }] ∧
    getQueueLeads { config := { callQueueDays := some 1500000 } } 1718000000000
        [{ id := some 3, company := some "Cogs",
           lastCalled := some "-001000-01-01T00:00:00.000Z" }] =
      [{ id := some 3, company := some "Cogs",
         lastCalled := some "-001000-01-01T00:00:00.000Z" }] ∧
    getQueueLeads { config := { callQueueDays := some 1000000 } } 1718000000000
        [{ id := some 3, company := some "Cogs",
           lastCalled := some "-001000-01-01T00:00:00.000Z" }] =
      [] := by
  decide

/-! ## Worked instances -/

/-- The default queue of `exampleLeads` on 10 June 2024 with a 7-day threshold: the lead
never called and the lead called on 1 June, in store order. -/
theorem getQueueLeads_default_eq_spec_witness :
    getQueueLeads { config := { callQueueDays := some 7 } } 1718000000000 exampleLeads =
        specDefaultQueue exampleCalledAt 7 1718000000000 exampleLeads ∧
      specDefaultQueue exampleCalledAt 7 1718000000000 exampleLeads =
        [{ id := some 1, company := some "Acme" },
         { id := some 2, company := some "Bolt",
           lastCalled := some "2024-06-01T00:00:00.000Z" }] ∧
      getQueueLeads { config := { callQueueDays := none } } 1718000000000 exampleLeads = [] :=
  ⟨(getQueueLeads_default_eq_spec { config := { callQueueDays := some 7 } } 1718000000000
      exampleLeads rfl).1 7 exampleCalledAt rfl (by decide) (by decide) (by decide),
    by decide,
    (getQueueLeads_default_eq_spec { config := { callQueueDays := none } } 1718000000000
      exampleLeads rfl).2.1 rfl⟩

/-- The lead of `exampleLeads` called on 1 June 2024 is in the default queue on 10 June
with a 7-day threshold, being called before 3 June 06:13:20. -/
theorem getQueueLeads_default_mem_iff_witness :
    (({ id := some 2, company := some "Bolt",
        lastCalled := some "2024-06-01T00:00:00.000Z" } : Lead) ∈
        getQueueLeads { config := { callQueueDays := some 7 } } 1718000000000 exampleLeads ↔
      (1717200000000 : Int) < 1718000000000 - 7 * msPerDay) ∧
    (1717200000000 : Int) < 1718000000000 - 7 * msPerDay :=
  ⟨getQueueLeads_default_mem_iff { config := { callQueueDays := some 7 } } 1718000000000 7
    1717200000000 _ exampleLeads rfl rfl (by decide) (by decide) (by decide) (by decide)
    (by decide), by decide⟩

/-- The queue `exampleQueue` (lead ids 3, 9, 1) resolves to leads 1 and 3 in store order;
with an active id that no queue has, the result is empty. -/
theorem getQueueLeads_custom_witness :
    (getQueueLeads exampleQueueApp 0 exampleLeads =
        exampleLeads.filter (includesLeadId exampleQueue.leadIds) ∧
      (getQueueLeads exampleQueueApp 0 exampleLeads).Sublist exampleLeads ∧
      ∀ l, l ∈ getQueueLeads exampleQueueApp 0 exampleLeads ↔
        l ∈ exampleLeads ∧ ∃ i ∈ exampleQueue.leadIds, l.id = some i) ∧
    exampleLeads.filter (includesLeadId exampleQueue.leadIds) =
      [{ id := some 1, company := some "Acme" },
       { id := some 3, company := some "Cogs",
         lastCalled := some "2024-06-09T00:00:00.000Z" }] ∧
    getQueueLeads { exampleQueueApp with currentQueue := QueueSel.custom 6 } 0 exampleLeads = [] :=
  ⟨(getQueueLeads_custom exampleQueueApp 0 exampleLeads 5 rfl).1 exampleQueue (by decide) rfl
      (by decide),
    by decide,
    (getQueueLeads_custom { exampleQueueApp with currentQueue := QueueSel.custom 6 } 0
      exampleLeads 6 rfl).2 (by decide)⟩

/-- The queue `exampleQueue`, which names the missing lead 9, resolves to a sublist of
`exampleLeads`. -/
theorem getQueueLeads_custom_tolerant_witness :
    (getQueueLeads exampleQueueApp 0 exampleLeads).Sublist exampleLeads ∧
    (∀ l ∈ getQueueLeads exampleQueueApp 0 exampleLeads,
      l ∈ exampleLeads ∧
        ∃ Q ∈ exampleQueueApp.customQueues, Q.id = 5 ∧ ∃ i ∈ Q.leadIds, l.id = some i) ∧
    (∀ i, (∀ l ∈ exampleLeads, l.id ≠ some i) →
      ∀ l ∈ getQueueLeads exampleQueueApp 0 exampleLeads, l.id ≠ some i) :=
  getQueueLeads_custom_tolerant exampleQueueApp 0 exampleLeads 5 rfl

/-- Approving prospect 13 of `exampleDb`, which is in stage `unqualified`. -/
theorem saveProspectReview_decision_witness :
    ∃ (i : Nat) (p : Prospect), (getProspects exampleDb)[i]? = some p ∧ p.id = 13 ∧
      (∀ j < i, ∀ q : Prospect, (getProspects exampleDb)[j]? = some q → q.id ≠ 13) ∧
      (getProspects (saveProspectReview exampleDb (some 13) { decision := "approve" })).length =
        (getProspects exampleDb).length ∧
      (∀ j, j ≠ i →
        (getProspects (saveProspectReview exampleDb (some 13) { decision := "approve" }))[j]? =
          (getProspects exampleDb)[j]?) ∧
      ∃ q : Prospect,
        (getProspects (saveProspectReview exampleDb (some 13) { decision := "approve" }))[i]? =
          some q ∧
        q.id = 13 ∧ q.company = p.company ∧ q.website = p.website ∧ q.state = p.state ∧
        q.decision = some ({ decision := "approve" } : ReviewForm).decision ∧
        (({ decision := "approve" } : ReviewForm).decision = "approve" → q.stage = "finalized") ∧
        (({ decision := "approve" } : ReviewForm).decision = "reject" →
          q.stage = "unqualified") :=
  saveProspectReview_decision exampleDb 13 { decision := "approve" } (by decide)
    ⟨{ id := 13, stage := "unqualified", company := some "Cogs", decision := some "reject" },
      by decide, rfl⟩

/-- The stage invariant holds of `exampleDb` and after an import, a review with an
unknown decision value and a finalization; its three counts sum to 3. -/
theorem stage_invariant_preserved_witness :
    StageInv exampleDb ∧
    StageInv (handleProspectCSVFile exampleDb
      ["Lead,State,Website,Phones,Status,Reason\nAcme,CA,acme.com,555-1234,finalized,cold"]
      (fun _ i => (100 + i, "2024-06-10T06:13:20.000Z"))) ∧
    StageInv (saveProspectReview exampleDb (some 11) { decision := "later" }) ∧
    StageInv (finalizeProspects exampleDb exampleClock) ∧
    (updateProspectingPipeline (getProspects exampleDb)).unreviewed +
        (updateProspectingPipeline (getProspects exampleDb)).finalized +
        (updateProspectingPipeline (getProspects exampleDb)).unqualified =
      (getProspects exampleDb).length :=
  ⟨by decide,
    (stage_invariant_preserved exampleDb (by decide)).1 _ _,
    (stage_invariant_preserved exampleDb (by decide)).2.2.1 _ _,
    (stage_invariant_preserved exampleDb (by decide)).2.2.2.2.2.2.2.1 _,
    (stage_invariant_preserved exampleDb (by decide)).2.2.2.2.2.2.2.2.2.2.2⟩

/-- Logging a voicemail for Acme in `exampleCallDb`, whose notes were `first contact`. -/
theorem saveCallNotes_writes_lead_witness :
    ∃ (written : Lead) (entry rest : String),
      getLeadById (saveCallNotes exampleCallDb (some 1) exampleNotesForm
        "2024-06-10T06:13:20.001Z") 1 = some written ∧
      getAllLeads (saveCallNotes exampleCallDb (some 1) exampleNotesForm
          "2024-06-10T06:13:20.001Z") =
        (getAllLeads exampleCallDb).map (fun l => if l.id = some 1 then written else l) ∧
      written.lastCalled = some "2024-06-10T06:13:20.001Z" ∧
      written.callOutcome = some exampleNotesForm.callOutcome ∧
      entry = "2024-06-10T06:13:20.001Z" ++ " [" ++ jsToUpperCase exampleNotesForm.callOutcome ++
        "]: " ++ jsTrim exampleNotesForm.callNotesText ++ rest ∧
      written.notes = some (if falsy (some "first contact") then entry
        else orEmpty (some "first contact") ++ "\n\n" ++ entry) ∧
      (∃ suffix, written.notes = some (orEmpty (some "first contact") ++ suffix)) ∧
      written =
        { ({ id := some 1, company := some "Acme", notes := some "first contact" } : Lead) with
          lastCalled := written.lastCalled, callOutcome := written.callOutcome,
          notes := written.notes, meetingData := written.meetingData } :=
  saveCallNotes_writes_lead exampleCallDb 1
    { id := some 1, company := some "Acme", notes := some "first contact" } exampleNotesForm
    "2024-06-10T06:13:20.001Z" (by decide) (by decide) (by decide)

/-- On 10 June 2024 with a 7-day threshold and the default queue, call mode starts on the
leads of `exampleLeads` that `getQueueLeads` returns. -/
theorem enterCallMode_default_queue_witness :
    (enterCallMode exampleParseDate { callQueueDays := some 7 } 1718000000000
        { leads := exampleLeads } {}).callModeLeads =
      specDefaultQueue exampleCalledAt 7 1718000000000 exampleLeads ∧
    (enterCallMode exampleParseDate { callQueueDays := some 7 } 1718000000000
        { leads := exampleLeads } {}).callModeLeads =
      getQueueLeads { config := { callQueueDays := some 7 } } 1718000000000 exampleLeads :=
  ⟨(enterCallMode_default_queue exampleParseDate { config := { callQueueDays := some 7 } }
      1718000000000 { leads := exampleLeads } {} 7 exampleCalledAt rfl (by decide) (by decide)
      (by decide)).1,
    (enterCallMode_default_queue exampleParseDate { config := { callQueueDays := some 7 } }
      1718000000000 { leads := exampleLeads } {} 7 exampleCalledAt rfl (by decide) (by decide)
      (by decide)).2 rfl⟩

/-- The cursor moves on `exampleSession` (two leads, cursor 0). -/
theorem cursor_moves_witness :
    (callModeNextLeadOrCycle exampleSession).callModeCurrentLeadIndex =
        (exampleSession.callModeCurrentLeadIndex + 1) % exampleSession.callModeLeads.length ∧
      (callModeNextLeadOrCycle^[exampleSession.callModeLeads.length]
        exampleSession).callModeCurrentLeadIndex = exampleSession.callModeCurrentLeadIndex ∧
      (callModeNextLead exampleSession).callModeCurrentLeadIndex =
        (if exampleSession.callModeCurrentLeadIndex < exampleSession.callModeLeads.length - 1 then
          exampleSession.callModeCurrentLeadIndex + 1
          else exampleSession.callModeCurrentLeadIndex) ∧
      (callModePreviousLead exampleSession).callModeCurrentLeadIndex =
        (if exampleSession.callModeCurrentLeadIndex > 0 then
          exampleSession.callModeCurrentLeadIndex - 1
          else exampleSession.callModeCurrentLeadIndex) ∧
      (callModeNextLeadOrCycle exampleSession).callModeLeads = exampleSession.callModeLeads ∧
      (callModeNextLead exampleSession).callModeLeads = exampleSession.callModeLeads ∧
      (callModePreviousLead exampleSession).callModeLeads = exampleSession.callModeLeads :=
  cursor_moves exampleSession (by decide)

/-- Six quoted fields, with commas and spaces inside, read back by `parseCSVLine`. -/
theorem parseCSVLine_quoted_round_trip_witness :
    parseCSVLine (jsJoin "," (["Acme, Inc", " two  spaces ", "", "a,b,c", "x", "y, z"].map quoteField)) =
      ["Acme, Inc", " two  spaces ", "", "a,b,c", "x", "y, z"] :=
  parseCSVLine_quoted_round_trip _ (by decide) (by decide) (by decide)

/-- A line with seven commas outside quotes: the sixth field keeps the last two. -/
theorem parseCSVLine_sixth_field_witness :
    5 ≤ unquotedCommas
        "  Acme Tools , \"Austin, TX\",acme.example,555-0100 ,approved, \"good fit, large shop\" ".toList
        false ∧
    ∃ (fields : List (List Char)) (remainder : List Char),
      firstFields 5
        "  Acme Tools , \"Austin, TX\",acme.example,555-0100 ,approved, \"good fit, large shop\" ".toList =
          some (fields, remainder) ∧ fields.length = 5 ∧
      "  Acme Tools , \"Austin, TX\",acme.example,555-0100 ,approved, \"good fit, large shop\" ".toList =
        joinFields fields remainder ∧
      (∀ f ∈ fields, unquotedCommas f false = 0) ∧
      parseCSVLine
        "  Acme Tools , \"Austin, TX\",acme.example,555-0100 ,approved, \"good fit, large shop\" " =
          fields.map fieldOf ++ [fieldOf remainder] ∧
      (parseCSVLine
        "  Acme Tools , \"Austin, TX\",acme.example,555-0100 ,approved, \"good fit, large shop\" ").length =
          6 :=
  ⟨by decide, parseCSVLine_sixth_field _ (by decide)⟩

/-- A prospect file of three data rows: one counts, one has no company, one is short. -/
theorem parseProspectCSV_lead_header_witness :
    nonBlankLines
        "Lead,State,Website,Phones,Status,Reason\nAcme,TX,acme.example,555-0100,,fits\n,TX,a,b,c,d\nx,y" =
      prospectHeader :: ["Acme,TX,acme.example,555-0100,,fits", ",TX,a,b,c,d", "x,y"] ∧
    parseProspectCSV
        "Lead,State,Website,Phones,Status,Reason\nAcme,TX,acme.example,555-0100,,fits\n,TX,a,b,c,d\nx,y" =
      some (["Acme,TX,acme.example,555-0100,,fits", ",TX,a,b,c,d", "x,y"].filterMap
        specProspectOfRow) :=
  ⟨by decide, parseProspectCSV_lead_header _ _ (by decide)⟩

/-- The export of `exampleExportDb` read back by `parseCSV`. -/
theorem export_import_reads_positionally_witness :
    (∀ lead ∈ getAllLeads exampleExportDb, ∀ f ∈ exportRow lead,
      '"' ∉ f.toList ∧ '\n' ∉ f.toList) ∧
    (∀ lead ∈ getAllLeads exampleExportDb, ∃ c, lead.company = some c ∧ c ≠ "") ∧
    ∃ added : List Lead,
      (parseCSV {} (exportCSV exampleExportDb) "leads.csv"
        (fun _ => "2024-06-10T06:13:20.000Z") (fun i => some i)).1.leads =
          ({} : Db).leads ++ added ∧
      List.Forall₂ ReadsBack (getAllLeads exampleExportDb) added :=
  ⟨by decide, by simp [getAllLeads, exampleExportDb],
    export_import_reads_positionally {} exampleExportDb "leads.csv"
      (fun _ => "2024-06-10T06:13:20.000Z") (fun i => some i) (by decide)
      (by simp [getAllLeads, exampleExportDb]) (fun _ => rfl)⟩

/-- The search `TEST` over two leads with a company, as in the test of the search filter,
and the notes search `important` in the queue view. -/
theorem filterLeads_spec_witness :
    (∀ s, asciiLowerCase s = "" ↔ s = "") ∧
    filterLeads asciiLowerCase (exampleControls "TEST" "")
        [{ company := some "Test Company", contact := some "John Doe",
           email := some "john@test.com" },
         { company := some "Other Company", contact := some "Jane Smith",
           email := some "jane@other.com" }] "leads" =
      some [{ company := some "Test Company", contact := some "John Doe",
              email := some "john@test.com" }] ∧
    filterLeads asciiLowerCase (exampleControls "" "Important")
        [{ company := some "Company 1", notes := some "Important lead" },
         { company := some "Company 2", notes := some "Regular lead" }, { id := some 4 }]
        "queue" =
      some [{ company := some "Company 1", notes := some "Important lead" }] :=
  ⟨asciiLowerCase_eq_empty,
    ((filterLeads_spec asciiLowerCase asciiLowerCase_eq_empty (exampleControls "TEST" "")
      [{ company := some "Test Company", contact := some "John Doe",
         email := some "john@test.com" },
       { company := some "Other Company", contact := some "Jane Smith",
         email := some "jane@other.com" }]).1 (Or.inr (by decide))).trans (by decide),
    (filterLeads_spec asciiLowerCase asciiLowerCase_eq_empty (exampleControls "" "Important")
      [{ company := some "Company 1", notes := some "Important lead" },
       { company := some "Company 2", notes := some "Regular lead" }, { id := some 4 }]).2.2.1.trans
      (by decide)⟩

/-- The phone `555-123-4567` of the tests. -/
theorem phone_normalisation_witness :
    digitCharsOf "555-123-4567" = ['5', '5', '5', '1', '2', '3', '4', '5', '6', '7'] ∧
    formatPhoneNumber (some "555-123-4567") = some "(555) 123-4567" ∧
    normalizeMatch "555-123-4567" = "(555) 123-4567" :=
  ⟨by decide,
    (phone_normalisation "555-123-4567" '5' '5' '5' '1' '2' '3' '4' '5' '6' '7'
      (by decide)).1.trans (by decide),
    (phone_normalisation "555-123-4567" '5' '5' '5' '1' '2' '3' '4' '5' '6' '7'
      (by decide)).2.1.trans (by decide)⟩

/-- The default queue of `exampleLeads` a day later, and with the threshold shortened
from 1500000 days (a threshold before year 0000) to 7. -/
theorem default_queue_monotone_witness :
    (List.Sublist
      (getQueueLeads { config := { callQueueDays := some 7 } } 1718000000000 exampleLeads)
      (getQueueLeads { config := { callQueueDays := some 7 } } 1718086400000 exampleLeads) ∧
    ∀ l ∈ getQueueLeads { config := { callQueueDays := some 7 } } 1718000000000 exampleLeads,
      l ∈ getQueueLeads { config := { callQueueDays := some 7 } } 1718086400000 exampleLeads) ∧
    (List.Sublist
      (getQueueLeads { config := { callQueueDays := some 1500000 } } 1718000000000 exampleLeads)
      (getQueueLeads { config := { callQueueDays := some 7 } } 1718000000000 exampleLeads) ∧
    ∀ l ∈ getQueueLeads { config := { callQueueDays := some 1500000 } } 1718000000000
        exampleLeads,
      l ∈ getQueueLeads { config := { callQueueDays := some 7 } } 1718000000000 exampleLeads) :=
  ⟨default_queue_monotone { config := { callQueueDays := some 7 } }
      { config := { callQueueDays := some 7 } } 1718000000000 1718086400000 7 7 exampleLeads
      exampleCalledAt rfl rfl rfl rfl (by decide) (by decide) (Or.inl (by decide))
      (Or.inl ⟨by decide, rfl⟩),
    default_queue_monotone { config := { callQueueDays := some 1500000 } }
      { config := { callQueueDays := some 7 } } 1718000000000 1718000000000 1500000 7
      exampleLeads exampleCalledAt rfl rfl rfl rfl (by decide) (by decide) (Or.inl (by decide))
      (Or.inr ⟨rfl, by decide⟩)⟩

end SalesCRM
